import Mathlib

/-!
Pedersen vector commitments with proofs of knowledge (`ecc/bls24-315/fr/pedersen`)

A shallow embedding of `pedersen.go`.  The group and field engine (package `curve`,
package `fr`, `math/big`, `crypto/rand`) is not part of the file under study: it is
taken as a parameter `Curve`, and the algebraic facts the protocol relies on are the
explicit hypothesis `Curve.Lawful` (and `Curve.NonDegenerate`).  These facts concern
the prime-order subgroups only: outside them the engine's `ScalarMultiplication` need
not be the integer multiple and its pairing need not be bilinear.  The byte codec of
the points (`curve.Encoder`, `curve.Decoder`) is the parameter `Marshal`, with the
hypothesis `Marshal.Lawful` that writing succeeds and decoding reads back what
encoding wrote.

Go slices are lists, a Go `error` is a value of `Err`, and a run-time panic
(slice index out of range) is the separate outcome `Fault.panic`.
-/

namespace Pedersen

/-! ## Outcomes -/

/-- The error values built by `errors.New` in `pedersen.go`, together with the two
input-size errors of the engine (`MultiExp`, `PairingCheck`), a failure of the
randomness source and a failure of the byte stream. -/
inductive Err
  | valuesBasis
  | vectorsBases
  | subgroupCheckFailed
  | proofRejected
  | lengthMismatch
  | parameterMismatch
  | commitmentProofLength
  | multiExpSizes
  | pairingSizes
  | randomness
  | unexpectedEOF
  deriving DecidableEq, Repr

/-- The text carried by each error value. -/
def Err.message : Err → String
  | .valuesBasis => "must have as many values as basis elements"
  | .vectorsBases => "must have as many value vectors as bases"
  | .subgroupCheckFailed => "subgroup check failed"
  | .proofRejected => "proof rejected"
  | .lengthMismatch => "length mismatch"
  | .parameterMismatch => "parameter mismatch: G2 element"
  | .commitmentProofLength => "commitment/proof length mismatch"
  | .multiExpSizes => "len(points) != len(scalars)"
  | .pairingSizes => "invalid inputs sizes"
  | .randomness => "randomness source failed"
  | .unexpectedEOF => "unexpected EOF"

/-- What stops a Go function early: a returned `error`, or a run-time panic. -/
inductive Fault
  | error (e : Err)
  | panic
  deriving DecidableEq, Repr

instance instDecidableEqExcept {ε α : Type} [DecidableEq ε] [DecidableEq α] :
    DecidableEq (Except ε α)
  | .ok a, .ok b => if h : a = b then isTrue (by rw [h]) else isFalse (by intro e; cases e; exact h rfl)
  | .error a, .error b =>
    if h : a = b then isTrue (by rw [h]) else isFalse (by intro e; cases e; exact h rfl)
  | .ok _, .error _ => isFalse (by intro e; cases e)
  | .error _, .ok _ => isFalse (by intro e; cases e)

/-! ## Slices and loops -/

/-- Read `xs[i]`; out of range is a panic. -/
def idx {α : Type} (xs : List α) (i : ℕ) : Except Fault α :=
  match xs[i]? with
  | some a => .ok a
  | none => .error .panic

/-- Write `xs[i] = a`; out of range is a panic. -/
def upd {α : Type} (xs : List α) (i : ℕ) (a : α) : Except Fault (List α) :=
  if i < xs.length then .ok (xs.set i a) else .error .panic

/-- The slice expression `xs[lo:]`; `lo > len(xs)` is a panic. -/
def sliceFrom {α : Type} (xs : List α) (lo : ℕ) : Except Fault (List α) :=
  if lo ≤ xs.length then .ok (xs.drop lo) else .error .panic

/-- The builtin `copy(dst, src)`: the first `min(len(dst), len(src))` cells of `dst`
are overwritten; the value is the new content of `dst`. -/
def copy {α : Type} (dst src : List α) : List α :=
  src.take dst.length ++ dst.drop src.length

/-- Run `body i` for `count` consecutive values of `i` starting at `i`, threading
the state. -/
def loop {σ : Type} (body : ℕ → σ → Except Fault σ) : ℕ → ℕ → σ → Except Fault σ
  | 0, _, s => .ok s
  | k + 1, i, s =>
    match body i s with
    | .ok t => loop body k (i + 1) t
    | .error f => .error f

/-- The loop `for i := lo; i < hi; i++ { body }`. -/
def forRange {σ : Type} (lo hi : ℕ) (body : ℕ → σ → Except Fault σ) (s : σ) :
    Except Fault σ :=
  loop body (hi - lo) lo s

/-! ## The engine -/

/-- The curve package as the code uses it: the point types `G1Affine`, `G2Affine`
with their group law, the target group `GT`, the membership tests `IsInSubGroup`,
the methods `ScalarMultiplication(a, s)` of the two point types (with a `big.Int`
scalar), the pairing, and `fr.Modulus()`. -/
structure Curve where
  Modulus : ℕ
  G1Affine : Type
  G2Affine : Type
  GT : Type
  [instG1 : AddCommGroup G1Affine]
  [instG2 : AddCommGroup G2Affine]
  [instGT : CommGroup GT]
  [decG1 : DecidableEq G1Affine]
  [decG2 : DecidableEq G2Affine]
  [decGT : DecidableEq GT]
  IsInSubGroup1 : G1Affine → Bool
  IsInSubGroup2 : G2Affine → Bool
  ScalarMultiplication1 : G1Affine → ℤ → G1Affine
  ScalarMultiplication2 : G2Affine → ℤ → G2Affine
  pairing : G1Affine → G2Affine → GT

attribute [instance] Curve.instG1 Curve.instG2 Curve.instGT Curve.decG1 Curve.decG2
  Curve.decGT

/-- The scalar field `fr.Element`: integers modulo `fr.Modulus()`. -/
abbrev Curve.Element (E : Curve) : Type := ZMod E.Modulus

/-- What the protocol asks of the engine: the modulus is prime, the points passing
`IsInSubGroup` form a subgroup killed by the modulus, `ScalarMultiplication` returns
the integer multiple of a point of these subgroups, and the pairing is bilinear on
these subgroups.  Nothing is asked of `ScalarMultiplication` and of the pairing at a
point outside the subgroups. -/
structure Curve.Lawful (E : Curve) : Prop where
  prime : E.Modulus.Prime
  zero_mem1 : E.IsInSubGroup1 0 = true
  add_mem1 : ∀ P Q, E.IsInSubGroup1 P = true → E.IsInSubGroup1 Q = true →
    E.IsInSubGroup1 (P + Q) = true
  order1 : ∀ P, E.IsInSubGroup1 P = true → E.Modulus • P = 0
  zero_mem2 : E.IsInSubGroup2 0 = true
  add_mem2 : ∀ P Q, E.IsInSubGroup2 P = true → E.IsInSubGroup2 Q = true →
    E.IsInSubGroup2 (P + Q) = true
  order2 : ∀ Q, E.IsInSubGroup2 Q = true → E.Modulus • Q = 0
  smul1 : ∀ (P : E.G1Affine) (s : ℤ), E.IsInSubGroup1 P = true →
    E.ScalarMultiplication1 P s = s • P
  smul2 : ∀ (Q : E.G2Affine) (s : ℤ), E.IsInSubGroup2 Q = true →
    E.ScalarMultiplication2 Q s = s • Q
  pairing_add_left : ∀ P P' Q, E.IsInSubGroup1 P = true → E.IsInSubGroup1 P' = true →
    E.IsInSubGroup2 Q = true → E.pairing (P + P') Q = E.pairing P Q * E.pairing P' Q
  pairing_add_right : ∀ P Q Q', E.IsInSubGroup1 P = true → E.IsInSubGroup2 Q = true →
    E.IsInSubGroup2 Q' = true → E.pairing P (Q + Q') = E.pairing P Q * E.pairing P Q'

/-- Non-degeneracy of the pairing on the prime-order subgroups. -/
def Curve.NonDegenerate (E : Curve) : Prop :=
  ∀ P Q, E.IsInSubGroup1 P = true → E.IsInSubGroup2 Q = true → P ≠ 0 → Q ≠ 0 →
    E.pairing P Q ≠ 1

/-- The method `BigInt` of `fr.Element`: the canonical representative in `[0, r)`. -/
def BigInt (E : Curve) (x : E.Element) : ℤ := (ZMod.val x : ℤ)

/-- Modelled from the spec: the engine's `MultiExp`, "MSM(bases, scalars, task-count)
→ point", the sum of the points weighted by the scalars (each scalar taken as its
canonical representative in `[0, r)`); it refuses slices of different lengths. -/
def MultiExp (E : Curve) (points : List E.G1Affine) (scalars : List E.Element) :
    Except Fault E.G1Affine :=
  if points.length ≠ scalars.length then .error (.error .multiExpSizes)
  else .ok (List.zipWith (fun P s => BigInt E s • P) points scalars).sum

/-- Modelled from the spec: the engine's `PairingCheck`, "pairing-product
check(G1-list, G2-list) → boolean-equals-identity (or error)"; it refuses empty
input and slices of different lengths. -/
def PairingCheck (E : Curve) (P : List E.G1Affine) (Q : List E.G2Affine) :
    Except Fault Bool :=
  if P.length = 0 ∨ P.length ≠ Q.length then .error (.error .pairingSizes)
  else .ok (decide ((List.zipWith E.pairing P Q).prod = 1))

/-- Modelled from the spec: `ModInverse` of `math/big`, the inverse of `g` in the
ring of integers modulo `n`, and the zero value when `g` and `n` are not coprime. -/
def ModInverse (g : ℤ) (n : ℕ) : ℤ :=
  match (List.range n).find? (fun (x : ℕ) => decide ((g * (x : ℤ)) % (n : ℤ) = 1 % (n : ℤ))) with
  | some x => (x : ℤ)
  | none => 0

/-! ## Keys and setup -/

/-- ProvingKey for committing and proofs of knowledge. -/
structure ProvingKey (E : Curve) where
  Basis : List E.G1Affine
  BasisExpSigma : List E.G1Affine

/-- The verifying key; `GRootSigmaNeg` is `g^{-1/σ}`. -/
structure VerifyingKey (E : Curve) where
  G : E.G2Affine
  GRootSigmaNeg : E.G2Affine

/-- The struct `setupConfig`. -/
structure setupConfig (E : Curve) where
  g2Gen : Option E.G2Affine

/-- The type `SetupOption`. -/
abbrev SetupOption (E : Curve) : Type := setupConfig E → setupConfig E

/-- The option `WithG2Point`. -/
def WithG2Point (E : Curve) (g2 : E.G2Affine) : SetupOption E :=
  fun _ => { g2Gen := some g2 }

/-- What one call of `Setup` draws from the randomness source: the outcome of
`curve.RandomOnG2()` and the outcome of `rand.Int(rand.Reader, &modMinusOne)`. -/
structure Entropy (E : Curve) where
  RandomOnG2 : Except Fault E.G2Affine
  Int : Except Fault ℕ

/-- The function `Setup`. -/
def Setup (E : Curve) (bases : List (List E.G1Affine)) (options : List (SetupOption E))
    (rnd : Entropy E) : Except Fault (List (ProvingKey E) × VerifyingKey E) :=
  let cfg : setupConfig E := options.foldl (fun c o => o c) { g2Gen := none }
  let g : Except Fault E.G2Affine :=
    match cfg.g2Gen with
    | none => rnd.RandomOnG2
    | some g2 => .ok g2
  match g with
  | .error f => .error f
  | .ok G =>
    match rnd.Int with
    | .error f => .error f
    | .ok s =>
      let sigma : ℤ := (s : ℤ) + 1
      let sigmaInvNeg : ℤ := (E.Modulus : ℤ) - ModInverse sigma E.Modulus
      let pk : List (ProvingKey E) := bases.map fun b =>
        { Basis := b, BasisExpSigma := b.map fun P => E.ScalarMultiplication1 P sigma }
      .ok (pk, { G := G, GRootSigmaNeg := E.ScalarMultiplication2 G sigmaInvNeg })

/-! ## Committing and proving -/

/-- The method `ProveKnowledge`. -/
def ProvingKey.ProveKnowledge {E : Curve} (pk : ProvingKey E) (values : List E.Element) :
    Except Fault E.G1Affine :=
  if values.length ≠ pk.Basis.length then .error (.error .valuesBasis)
  else MultiExp E pk.BasisExpSigma values

/-- The method `Commit`. -/
def ProvingKey.Commit {E : Curve} (pk : ProvingKey E) (values : List E.Element) :
    Except Fault E.G1Affine :=
  if values.length ≠ pk.Basis.length then .error (.error .valuesBasis)
  else MultiExp E pk.Basis values

/-- The state of the amalgamation loop of `BatchProve`. -/
structure ProveState (E : Curve) where
  basis : List E.G1Affine
  scaledValues : List E.Element
  offset : ℕ
  rI : E.Element

/-- Body of the first loop of `BatchProve`: the length check and the running total. -/
def BatchProve.checkBody {E : Curve} (pk : List (ProvingKey E))
    (values : List (List E.Element)) (i : ℕ) (offset : ℕ) : Except Fault ℕ :=
  match idx values i with
  | .error f => .error f
  | .ok v =>
    match idx pk i with
    | .error f => .error f
    | .ok k =>
      if v.length ≠ k.Basis.length then .error (.error .valuesBasis)
      else .ok (offset + v.length)

/-- Body of the inner loop of `BatchProve`:
`scaledValues[offset].Mul(&values[i][j], &rI); offset++`. -/
def BatchProve.scaleBody {E : Curve} (values : List (List E.Element)) (i : ℕ)
    (rI : E.Element) (j : ℕ) (st : List E.Element × ℕ) :
    Except Fault (List E.Element × ℕ) :=
  match idx values i with
  | .error f => .error f
  | .ok vi =>
    match idx vi j with
    | .error f => .error f
    | .ok vij =>
      match upd st.1 st.2 (vij * rI) with
      | .error f => .error f
      | .ok sv => .ok (sv, st.2 + 1)

/-- Body of the outer loop of `BatchProve` (`for i := 1; i < len(pk); i++`). -/
def BatchProve.foldBody {E : Curve} (pk : List (ProvingKey E))
    (values : List (List E.Element)) (challenge : E.Element) (i : ℕ) (st : ProveState E) :
    Except Fault (ProveState E) :=
  match idx pk i with
  | .error f => .error f
  | .ok pki =>
    match sliceFrom st.basis st.offset with
    | .error f => .error f
    | .ok tail =>
      let basis := st.basis.take st.offset ++ copy tail pki.BasisExpSigma
      match forRange 0 pki.Basis.length (BatchProve.scaleBody values i st.rI)
          (st.scaledValues, st.offset) with
      | .error f => .error f
      | .ok (scaledValues, offset) =>
        let rI := if i + 1 < pk.length then st.rI * challenge else st.rI
        .ok { basis := basis, scaledValues := scaledValues, offset := offset, rI := rI }

/-- BatchProve generates a single proof of knowledge for multiple commitments. -/
def BatchProve (E : Curve) (pk : List (ProvingKey E)) (values : List (List E.Element))
    (challenge : E.Element) : Except Fault E.G1Affine :=
  if pk.length ≠ values.length then .error (.error .vectorsBases)
  else if pk.length = 1 then
    match idx pk 0 with
    | .error f => .error f
    | .ok pk0 =>
      match idx values 0 with
      | .error f => .error f
      | .ok v0 => pk0.ProveKnowledge v0
  else if pk.length = 0 then .ok 0
  else
    match forRange 0 pk.length (BatchProve.checkBody pk values) 0 with
    | .error f => .error f
    | .ok offset =>
      let scaledValues := List.replicate offset (0 : E.Element)
      let basis := List.replicate offset (0 : E.G1Affine)
      match idx pk 0 with
      | .error f => .error f
      | .ok pk0 =>
        match idx values 0 with
        | .error f => .error f
        | .ok v0 =>
          let st : ProveState E :=
            { basis := copy basis pk0.BasisExpSigma
              scaledValues := copy scaledValues v0
              offset := v0.length
              rI := challenge }
          match forRange 1 pk.length (BatchProve.foldBody pk values challenge) st with
          | .error f => .error f
          | .ok st => MultiExp E st.basis st.scaledValues

/-! ## Folding and verifying -/

/-- Body of the loop of `FoldCommitments` filling the powers:
`r[i].Mul(&r[i-1], &r[1])`. -/
def FoldCommitments.powerBody {E : Curve} (i : ℕ) (r : List E.Element) :
    Except Fault (List E.Element) :=
  match idx r (i - 1) with
  | .error f => .error f
  | .ok a =>
    match idx r 1 with
    | .error f => .error f
    | .ok b => upd r i (a * b)

/-- Body of the subgroup-check loop of `FoldCommitments`. -/
def FoldCommitments.checkBody {E : Curve} (commitments : List E.G1Affine) (i : ℕ)
    (_ : Unit) : Except Fault Unit :=
  match idx commitments i with
  | .error f => .error f
  | .ok c => if !E.IsInSubGroup1 c then .error (.error .subgroupCheckFailed) else .ok ()

/-- FoldCommitments amalgamates multiple commitments into one. -/
def FoldCommitments (E : Curve) (commitments : List E.G1Affine) (challenge : E.Element) :
    Except Fault E.G1Affine :=
  if commitments.length = 1 then idx commitments 0
  else if commitments.length = 0 then .ok 0
  else
    let r := List.replicate commitments.length (0 : E.Element)
    match upd r 0 1 with
    | .error f => .error f
    | .ok r =>
      match upd r 1 challenge with
      | .error f => .error f
      | .ok r =>
        match forRange 2 commitments.length FoldCommitments.powerBody r with
        | .error f => .error f
        | .ok r =>
          match forRange 0 commitments.length (FoldCommitments.checkBody commitments) () with
          | .error f => .error f
          | .ok _ => MultiExp E commitments r

/-- Verify checks if the proof of knowledge is valid. -/
def VerifyingKey.Verify {E : Curve} (vk : VerifyingKey E) (commitment : E.G1Affine)
    (knowledgeProof : E.G1Affine) : Except Fault Unit :=
  if !E.IsInSubGroup1 commitment || !E.IsInSubGroup1 knowledgeProof then
    .error (.error .subgroupCheckFailed)
  else
    match PairingCheck E [commitment, knowledgeProof] [vk.G, vk.GRootSigmaNeg] with
    | .error f => .error f
    | .ok isOne => if !isOne then .error (.error .proofRejected) else .ok ()

/-- Body of the first loop of `BatchVerify`: the subgroup checks and the comparison
of the generators. -/
def BatchVerify.checkBody {E : Curve} (vk : List (VerifyingKey E))
    (commitments pok : List E.G1Affine) (i : ℕ) (_ : Unit) : Except Fault Unit :=
  match idx pok i with
  | .error f => .error f
  | .ok p =>
    if !E.IsInSubGroup1 p then .error (.error .subgroupCheckFailed)
    else
      match idx commitments i with
      | .error f => .error f
      | .ok c =>
        if !E.IsInSubGroup1 c then .error (.error .subgroupCheckFailed)
        else if i ≠ 0 then
          match idx vk i with
          | .error f => .error f
          | .ok vki =>
            match idx vk 0 with
            | .error f => .error f
            | .ok vk0 =>
              if vki.G ≠ vk0.G then .error (.error .parameterMismatch) else .ok ()
        else .ok ()

/-- The state of the second loop of `BatchVerify`. -/
structure VerifyState (E : Curve) where
  pairingG1 : List E.G1Affine
  pairingG2 : List E.G2Affine
  r : E.Element

/-- Body of the second loop of `BatchVerify`, which fills the pairing inputs. -/
def BatchVerify.fillBody {E : Curve} (vk : List (VerifyingKey E)) (pok : List E.G1Affine)
    (challenge : E.Element) (i : ℕ) (st : VerifyState E) : Except Fault (VerifyState E) :=
  match idx vk i with
  | .error f => .error f
  | .ok vki =>
    match upd st.pairingG2 i vki.GRootSigmaNeg with
    | .error f => .error f
    | .ok pairingG2 =>
      if i ≠ 0 then
        let rI := BigInt E st.r
        match idx pok i with
        | .error f => .error f
        | .ok p =>
          match upd st.pairingG1 i (E.ScalarMultiplication1 p rI) with
          | .error f => .error f
          | .ok pairingG1 =>
            let r := if i + 1 ≠ vk.length then st.r * challenge else st.r
            .ok { pairingG1 := pairingG1, pairingG2 := pairingG2, r := r }
      else .ok { pairingG1 := st.pairingG1, pairingG2 := pairingG2, r := st.r }

/-- BatchVerify verifies n separately generated proofs of knowledge from different
setup ceremonies, using n+1 pairings rather than 2n. -/
def BatchVerify (E : Curve) (vk : List (VerifyingKey E)) (commitments pok : List E.G1Affine)
    (challenge : E.Element) : Except Fault Unit :=
  if commitments.length ≠ vk.length ∨ pok.length ≠ vk.length then
    .error (.error .lengthMismatch)
  else
    match forRange 0 pok.length (BatchVerify.checkBody vk commitments pok) () with
    | .error f => .error f
    | .ok _ =>
      let pairingG1 := List.replicate (vk.length + 1) (0 : E.G1Affine)
      let pairingG2 := List.replicate (vk.length + 1) (0 : E.G2Affine)
      match idx pok 0 with
      | .error f => .error f
      | .ok pok0 =>
        match upd pairingG1 0 pok0 with
        | .error f => .error f
        | .ok pairingG1 =>
          let st : VerifyState E :=
            { pairingG1 := pairingG1, pairingG2 := pairingG2, r := challenge }
          match forRange 0 vk.length (BatchVerify.fillBody vk pok challenge) st with
          | .error f => .error f
          | .ok st =>
            match FoldCommitments E commitments challenge with
            | .error f => .error f
            | .ok commitment =>
              match upd st.pairingG1 vk.length commitment with
              | .error f => .error f
              | .ok pairingG1 =>
                match idx vk 0 with
                | .error f => .error f
                | .ok vk0 =>
                  match upd st.pairingG2 vk.length vk0.G with
                  | .error f => .error f
                  | .ok pairingG2 =>
                    match PairingCheck E pairingG1 pairingG2 with
                    | .error f => .error f
                    | .ok isOne =>
                      if !isOne then .error (.error .proofRejected) else .ok ()

/-! ## Marshalling -/

/-- The codec of the curve package as the code uses it, on a stream of bytes.
`Encode` (the flag is the raw encoding) gives the bytes it wrote and its error; a
failed `Encode` may have written some bytes.  `Decode` (the flag is the subgroup
validation) is given the unread bytes and the current value of its target, and gives
the value of the target afterwards, the bytes left unread and its error; a failed
`Decode` may have consumed bytes and changed the target. -/
structure Marshal (E : Curve) where
  EncodeG1 : Bool → List E.G1Affine → List ℕ × Option Fault
  DecodeG1 : Bool → List ℕ → List E.G1Affine → List E.G1Affine × List ℕ × Option Fault
  EncodeG2 : Bool → E.G2Affine → List ℕ × Option Fault
  DecodeG2 : Bool → List ℕ → E.G2Affine → E.G2Affine × List ℕ × Option Fault

/-- What the key codec asks of the engine and of the stream: writing does not fail,
and a validating `Decode` reads back what `Encode` wrote, in either encoding, for
points that pass the subgroup test, whatever its target held, and leaves the rest of
the stream. -/
structure Marshal.Lawful {E : Curve} (M : Marshal E) : Prop where
  encode_ok1 : ∀ (raw : Bool) (xs : List E.G1Affine), (M.EncodeG1 raw xs).2 = none
  encode_ok2 : ∀ (raw : Bool) (Q : E.G2Affine), (M.EncodeG2 raw Q).2 = none
  decode_encode1 : ∀ (raw : Bool) (xs old : List E.G1Affine) (rest : List ℕ),
    (∀ P ∈ xs, E.IsInSubGroup1 P = true) →
    M.DecodeG1 true ((M.EncodeG1 raw xs).1 ++ rest) old = (xs, rest, none)
  decode_encode2 : ∀ (raw : Bool) (Q old : E.G2Affine) (rest : List ℕ),
    E.IsInSubGroup2 Q = true →
    M.DecodeG2 true ((M.EncodeG2 raw Q).1 ++ rest) old = (Q, rest, none)

/-- The state of a `curve.Encoder`: the bytes received by its writer, the encoding
mode and the count returned by `BytesWritten`. -/
structure Encoder where
  w : List ℕ
  raw : Bool
  n : ℕ

/-- The state of a `curve.Decoder`: the unread bytes of its reader, the validation
mode and the count returned by `BytesRead`. -/
structure Decoder where
  r : List ℕ
  subGroupCheck : Bool
  n : ℕ

/-- The constructor `curve.NewEncoder(w)`, with `curve.RawEncoding()` when `raw`. -/
def NewEncoder (w : List ℕ) (raw : Bool) : Encoder := { w := w, raw := raw, n := 0 }

/-- The constructor `curve.NewDecoder(r)`, with `curve.NoSubgroupChecks()` when
`subGroupCheck` is false. -/
def NewDecoder (r : List ℕ) (subGroupCheck : Bool) : Decoder :=
  { r := r, subGroupCheck := subGroupCheck, n := 0 }

/-- The call `enc.Encode(v)` for a slice of G1 points: the bytes written are counted
also when the call fails. -/
def Encoder.EncodeG1 {E : Curve} (M : Marshal E) (enc : Encoder) (v : List E.G1Affine) :
    Encoder × Option Fault :=
  let out := M.EncodeG1 enc.raw v
  ({ enc with w := enc.w ++ out.1, n := enc.n + out.1.length }, out.2)

/-- The call `enc.Encode(&v)` for a G2 point. -/
def Encoder.EncodeG2 {E : Curve} (M : Marshal E) (enc : Encoder) (v : E.G2Affine) :
    Encoder × Option Fault :=
  let out := M.EncodeG2 enc.raw v
  ({ enc with w := enc.w ++ out.1, n := enc.n + out.1.length }, out.2)

/-- The call `dec.Decode(&v)` for a slice of G1 points: the decoder afterwards, the
value of `v` afterwards and the error; the bytes consumed are counted also when the
call fails. -/
def Decoder.DecodeG1 {E : Curve} (M : Marshal E) (dec : Decoder) (v : List E.G1Affine) :
    Decoder × List E.G1Affine × Option Fault :=
  let out := M.DecodeG1 dec.subGroupCheck dec.r v
  ({ dec with r := out.2.1, n := dec.n + (dec.r.length - out.2.1.length) }, out.1, out.2.2)

/-- The call `dec.Decode(&v)` for a G2 point. -/
def Decoder.DecodeG2 {E : Curve} (M : Marshal E) (dec : Decoder) (v : E.G2Affine) :
    Decoder × E.G2Affine × Option Fault :=
  let out := M.DecodeG2 dec.subGroupCheck dec.r v
  ({ dec with r := out.2.1, n := dec.n + (dec.r.length - out.2.1.length) }, out.1, out.2.2)

/-- The method `writeTo` of `ProvingKey`: the encoder afterwards, the byte count and
the error. -/
def ProvingKey.writeTo {E : Curve} (M : Marshal E) (pk : ProvingKey E) (enc : Encoder) :
    Encoder × ℕ × Option Fault :=
  match enc.EncodeG1 M pk.Basis with
  | (enc, some err) => (enc, enc.n, some err)
  | (enc, none) =>
    match enc.EncodeG1 M pk.BasisExpSigma with
    | (enc, err) => (enc, enc.n, err)

/-- The method `WriteTo` of `ProvingKey`. -/
def ProvingKey.WriteTo {E : Curve} (M : Marshal E) (pk : ProvingKey E) (w : List ℕ) :
    Encoder × ℕ × Option Fault :=
  pk.writeTo M (NewEncoder w false)

/-- The method `WriteRawTo` of `ProvingKey`. -/
def ProvingKey.WriteRawTo {E : Curve} (M : Marshal E) (pk : ProvingKey E) (w : List ℕ) :
    Encoder × ℕ × Option Fault :=
  pk.writeTo M (NewEncoder w true)

/-- The method `ReadFrom` of `ProvingKey`: the key afterwards, the byte count and the
error. -/
def ProvingKey.ReadFrom {E : Curve} (M : Marshal E) (pk : ProvingKey E) (r : List ℕ) :
    ProvingKey E × ℕ × Option Fault :=
  let dec := NewDecoder r true
  match dec.DecodeG1 M pk.Basis with
  | (dec, basis, some err) => ({ pk with Basis := basis }, dec.n, some err)
  | (dec, basis, none) =>
    let pk : ProvingKey E := { pk with Basis := basis }
    match dec.DecodeG1 M pk.BasisExpSigma with
    | (dec, basisExpSigma, some err) =>
      ({ pk with BasisExpSigma := basisExpSigma }, dec.n, some err)
    | (dec, basisExpSigma, none) =>
      let pk : ProvingKey E := { pk with BasisExpSigma := basisExpSigma }
      if pk.Basis.length ≠ pk.BasisExpSigma.length then
        (pk, dec.n, some (.error .commitmentProofLength))
      else (pk, dec.n, none)

/-- The method `writeTo` of `VerifyingKey`. -/
def VerifyingKey.writeTo {E : Curve} (M : Marshal E) (vk : VerifyingKey E) (enc : Encoder) :
    Encoder × ℕ × Option Fault :=
  match enc.EncodeG2 M vk.G with
  | (enc, some err) => (enc, enc.n, some err)
  | (enc, none) =>
    match enc.EncodeG2 M vk.GRootSigmaNeg with
    | (enc, err) => (enc, enc.n, err)

/-- The method `WriteTo` of `VerifyingKey`. -/
def VerifyingKey.WriteTo {E : Curve} (M : Marshal E) (vk : VerifyingKey E) (w : List ℕ) :
    Encoder × ℕ × Option Fault :=
  vk.writeTo M (NewEncoder w false)

/-- The method `WriteRawTo` of `VerifyingKey`. -/
def VerifyingKey.WriteRawTo {E : Curve} (M : Marshal E) (vk : VerifyingKey E) (w : List ℕ) :
    Encoder × ℕ × Option Fault :=
  vk.writeTo M (NewEncoder w true)

/-- The method `readFrom` of `VerifyingKey`; `subGroupCheck` is false under the
decoder option `curve.NoSubgroupChecks()`. -/
def VerifyingKey.readFrom {E : Curve} (M : Marshal E) (vk : VerifyingKey E) (r : List ℕ)
    (subGroupCheck : Bool) : VerifyingKey E × ℕ × Option Fault :=
  let dec := NewDecoder r subGroupCheck
  match dec.DecodeG2 M vk.G with
  | (dec, g, some err) => ({ vk with G := g }, dec.n, some err)
  | (dec, g, none) =>
    let vk : VerifyingKey E := { vk with G := g }
    match dec.DecodeG2 M vk.GRootSigmaNeg with
    | (dec, gRootSigmaNeg, err) => ({ vk with GRootSigmaNeg := gRootSigmaNeg }, dec.n, err)

/-- The method `ReadFrom` of `VerifyingKey`. -/
def VerifyingKey.ReadFrom {E : Curve} (M : Marshal E) (vk : VerifyingKey E) (r : List ℕ) :
    VerifyingKey E × ℕ × Option Fault :=
  vk.readFrom M r true

/-- The method `UnsafeReadFrom` of `VerifyingKey`. -/
def VerifyingKey.UnsafeReadFrom {E : Curve} (M : Marshal E) (vk : VerifyingKey E)
    (r : List ℕ) : VerifyingKey E × ℕ × Option Fault :=
  vk.readFrom M r false

/-! ## Closed forms used in the statements -/

/-- The weighted sum `Σ scalars[j] · points[j]` that `MultiExp` returns. -/
def weightedSum (E : Curve) (points : List E.G1Affine) (scalars : List E.Element) :
    E.G1Affine :=
  (List.zipWith (fun P s => BigInt E s • P) points scalars).sum

/-- The powers `[1, c, c², …]` of the challenge, `n` of them. -/
def powers (E : Curve) (c : E.Element) (n : ℕ) : List E.Element :=
  (List.range n).map fun k => c ^ k

/-- The G1 inputs that `BatchVerify` builds from the proofs: `pok[0]` itself and, at
every later position `k`, the result of `ScalarMultiplication` on `pok[k]` with the
scalar `c^k`. -/
def scaledProofs (E : Curve) (pok : List E.G1Affine) (c : E.Element) : List E.G1Affine :=
  List.zipWith
    (fun p (k : ℕ) => if k = 0 then p else E.ScalarMultiplication1 p (BigInt E (c ^ k)))
    pok (List.range pok.length)

/-- The pairing product that `Verify` tests on the `k`-th triple of a batch:
`e(commitments[k], vk[k].G) * e(pok[k], vk[k].GRootSigmaNeg)`. -/
def defect (E : Curve) (vk : List (VerifyingKey E)) (commitments pok : List E.G1Affine)
    (k : ℕ) : E.GT :=
  E.pairing (commitments.getD k 0) ((vk.map VerifyingKey.G).getD k 0) *
    E.pairing (pok.getD k 0) ((vk.map VerifyingKey.GRootSigmaNeg).getD k 0)

/-- The amalgamated basis of `BatchProve`: the keys' `BasisExpSigma`, one after the
other. -/
def amalgamatedBasis {E : Curve} (pk : List (ProvingKey E)) : List (List E.G1Affine) :=
  pk.map ProvingKey.BasisExpSigma

/-- The amalgamated scalars of `BatchProve`: the `i`-th vector of values with every
entry multiplied by `c^i`. -/
def amalgamatedValues (E : Curve) (values : List (List E.Element)) (c : E.Element) :
    List (List E.Element) :=
  List.zipWith (fun v (i : ℕ) => v.map fun x => x * c ^ i) values (List.range values.length)

/-- The individual proofs of a batch: `Σ_j values[i][j] · pk[i].BasisExpSigma[j]` for
every position `i`. -/
def individualProofs (E : Curve) (pk : List (ProvingKey E)) (values : List (List E.Element)) :
    List E.G1Affine :=
  List.zipWith (fun (k : ProvingKey E) v => weightedSum E k.BasisExpSigma v) pk values

/-! ## A small engine for concrete evaluation -/

/-- A toy engine: modulus 7, points are pairs of a residue modulo 7 and a cofactor
bit, the subgroup is the points with cofactor bit zero, `ScalarMultiplication` is the
integer multiple, and the pairing multiplies the residues (written additively in the
exponent). -/
def toy : Curve where
  Modulus := 7
  G1Affine := ZMod 7 × ZMod 2
  G2Affine := ZMod 7 × ZMod 2
  GT := Multiplicative (ZMod 7)
  IsInSubGroup1 := fun P => decide (P.2 = 0)
  IsInSubGroup2 := fun Q => decide (Q.2 = 0)
  ScalarMultiplication1 := fun P s => s • P
  ScalarMultiplication2 := fun Q s => s • Q
  pairing := fun P Q => Multiplicative.ofAdd (P.1 * Q.1)

/-- A verifying key of the toy engine with subgroup points of the given residues. -/
def toyKey (g h : ZMod 7) : VerifyingKey toy := { G := (g, 0), GRootSigmaNeg := (h, 0) }

/-- The subgroup point of the toy engine with the given residue. -/
def toyPoint (a : ZMod 7) : toy.G1Affine := (a, 0)

/-- A point of the toy engine outside the subgroup. -/
def toyBadPoint (a : ZMod 7) : toy.G1Affine := (a, 1)

/-- The randomness of a toy setup: the sampler returns `s`, hence `sigma = s + 1`. -/
def toyEntropy (s : ℕ) : Entropy toy :=
  { RandomOnG2 := .error (.error .randomness), Int := .ok s }

/-- The proving key of the toy setup over the basis `[P1, P2] = [(1,0), (2,0)]` with
`sigma = 3`. -/
def toyProvingKey : ProvingKey toy :=
  { Basis := [toyPoint 1, toyPoint 2], BasisExpSigma := [toyPoint 3, toyPoint 6] }

/-- Two toy triples that both fail `Verify` under the key of the toy setup, and
whose failures cancel under the challenge `3`. -/
def toyCancelCommitments : List toy.G1Affine := [toyPoint 4, toyPoint 1]

/-- The proofs that go with `toyCancelCommitments`. -/
def toyCancelProofs : List toy.G1Affine := [toyPoint 0, toyPoint 0]

/-- The second proving key of the toy setup over the bases `[(1,0), (2,0)]` and
`[(4,0)]` with `sigma = 3`. -/
def toyProvingKey2 : ProvingKey toy :=
  { Basis := [toyPoint 4], BasisExpSigma := [toyPoint 5] }

/-- A toy proving key whose `BasisExpSigma` holds a point outside the subgroup. -/
def toyOffKey : ProvingKey toy :=
  { Basis := [toyPoint 4], BasisExpSigma := [toyBadPoint 0] }

/-- The bytes of the toy codec for one point: its two coordinates, after the marker
byte `7` in the raw encoding. -/
def toyWritePoint (raw : Bool) (P : ZMod 7 × ZMod 2) : List ℕ :=
  if raw then [7, P.1.val, P.2.val] else [P.1.val, P.2.val]

/-- The bytes of the toy codec for a sequence of points. -/
def toyWritePoints (raw : Bool) : List (ZMod 7 × ZMod 2) → List ℕ
  | [] => []
  | P :: ps => toyWritePoint raw P ++ toyWritePoints raw ps

/-- The toy decoder reads one point in either encoding (the marker byte tells which):
the point and the rest of the stream, or nothing when the stream ends early. -/
def toyReadPoint : List ℕ → Option ((ZMod 7 × ZMod 2) × List ℕ)
  | [] => none
  | a :: bs =>
    if a = 7 then
      match bs with
      | b :: x :: rest => some (((b : ZMod 7), (x : ZMod 2)), rest)
      | _ => none
    else
      match bs with
      | x :: rest => some (((a : ZMod 7), (x : ZMod 2)), rest)
      | _ => none

/-- The toy decoder reads `n` points into a fresh slice of `n` cells: the slice
afterwards, the bytes left unread and the error; with validation it stops at a point
outside the subgroup. -/
def toyReadPoints (subGroupCheck : Bool) :
    ℕ → List ℕ → List (ZMod 7 × ZMod 2) × List ℕ × Option Fault
  | 0, bs => ([], bs, none)
  | n + 1, bs =>
    match toyReadPoint bs with
    | none => (List.replicate (n + 1) 0, [], some (.error .unexpectedEOF))
    | some (P, rest) =>
      if subGroupCheck && decide (P.2 ≠ 0) then
        (P :: List.replicate n 0, rest, some (.error .subgroupCheckFailed))
      else
        let out := toyReadPoints subGroupCheck n rest
        (P :: out.1, out.2.1, out.2.2)

/-- The codec of the toy engine: a slice is its length followed by its points, a
point is its two coordinates, preceded by a marker byte in the raw encoding; writing
does not fail. -/
def toyMarshal : Marshal toy where
  EncodeG1 := fun raw (xs : List (ZMod 7 × ZMod 2)) =>
    (xs.length :: toyWritePoints raw xs, none)
  DecodeG1 := fun chk bs old =>
    match bs with
    | [] => (old, [], some (.error .unexpectedEOF))
    | n :: rest => toyReadPoints chk n rest
  EncodeG2 := fun raw (Q : ZMod 7 × ZMod 2) => (toyWritePoint raw Q, none)
  DecodeG2 := fun chk bs old =>
    match toyReadPoint bs with
    | none => (old, [], some (.error .unexpectedEOF))
    | some (Q, rest) =>
      if chk && decide (Q.2 ≠ 0) then (Q, rest, some (.error .subgroupCheckFailed))
      else (Q, rest, none)

/-! ## A second small engine, not idealised outside the subgroups -/

/-- A second toy engine on the same points and subgroups, lawful as well, whose
operations outside the subgroups are not the idealised ones: `ScalarMultiplication`
multiplies the residue and keeps the cofactor bit, so that on a point outside the
subgroup it does not return the integer multiple for an even scalar, and the pairing
with a G2 point outside the subgroup has a quadratic term, so that it is not
bilinear there. -/
def cofactorToy : Curve where
  Modulus := 7
  G1Affine := ZMod 7 × ZMod 2
  G2Affine := ZMod 7 × ZMod 2
  GT := Multiplicative (ZMod 7)
  IsInSubGroup1 := fun P => decide (P.2 = 0)
  IsInSubGroup2 := fun Q => decide (Q.2 = 0)
  ScalarMultiplication1 := fun P s => (s • P.1, P.2)
  ScalarMultiplication2 := fun Q s => (s • Q.1, Q.2)
  pairing := fun P Q =>
    Multiplicative.ofAdd (P.1 * Q.1 + if Q.2 = 0 then 0 else P.1 * P.1)

/-- The randomness of a setup in the second toy engine: the sampler returns `s`. -/
def cofactorEntropy (s : ℕ) : Entropy cofactorToy :=
  { RandomOnG2 := .error (.error .randomness), Int := .ok s }

/-- A verifying key of the second toy engine whose two points are outside the G2
subgroup. -/
def cofactorOffKey : VerifyingKey cofactorToy := { G := (1, 1), GRootSigmaNeg := (1, 1) }

/-- The proving keys that `Setup` returns in the second toy engine over the subgroup
bases `[(1,0), (2,0)]` and `[(4,0)]` with `sigma = 3`. -/
def cofactorProvingKeys : List (ProvingKey cofactorToy) :=
  [{ Basis := [(1, 0), (2, 0)], BasisExpSigma := [(3, 0), (6, 0)] },
   { Basis := [(4, 0)], BasisExpSigma := [(5, 0)] }]

/-- The verifying key that `Setup` returns in the second toy engine for the generator
`(1,1)`, outside the G2 subgroup, with `sigma = 3`. -/
def cofactorSetupKey : VerifyingKey cofactorToy := { G := (1, 1), GRootSigmaNeg := (2, 1) }

/-- The proving key that `Setup` returns in the second toy engine over the basis
`[(1,1)]`, outside the G1 subgroup, with `sigma = 2`. -/
def cofactorOffProvingKey : ProvingKey cofactorToy :=
  { Basis := [(1, 1)], BasisExpSigma := [(2, 1)] }

/-! ## Slices and loops: basic facts -/

theorem idx_eq_ok {α : Type} (xs : List α) (i : ℕ) (a : α) :
    idx xs i = .ok a ↔ xs[i]? = some a := by
  unfold idx
  cases h : xs[i]? <;> simp

theorem idx_of_getElem? {α : Type} {xs : List α} {i : ℕ} {a : α} (h : xs[i]? = some a) :
    idx xs i = .ok a := (idx_eq_ok xs i a).2 h

theorem idx_of_lt {α : Type} (xs : List α) (i : ℕ) (h : i < xs.length) :
    idx xs i = .ok (xs.get ⟨i, h⟩) := by
  apply idx_of_getElem?
  simp [List.getElem?_eq_getElem h]

theorem idx_of_le {α : Type} (xs : List α) (i : ℕ) (h : xs.length ≤ i) :
    idx xs i = .error .panic := by
  unfold idx
  rw [List.getElem?_eq_none h]

theorem upd_of_lt {α : Type} (xs : List α) (i : ℕ) (a : α) (h : i < xs.length) :
    upd xs i a = .ok (xs.set i a) := by
  simp [upd, h]

theorem loop_succ {σ : Type} (body : ℕ → σ → Except Fault σ) (k i : ℕ) (s : σ) :
    loop body (k + 1) i s =
      match body i s with
      | .ok t => loop body k (i + 1) t
      | .error f => .error f := rfl

/-- Invariant rule for a loop whose body never stops early. -/
theorem loop_inv {σ : Type} (body : ℕ → σ → Except Fault σ) (Inv : ℕ → σ → Prop) :
    ∀ (k i : ℕ) (s : σ), Inv i s →
      (∀ j t, i ≤ j → j < i + k → Inv j t → ∃ u, body j t = .ok u ∧ Inv (j + 1) u) →
      ∃ u, loop body k i s = .ok u ∧ Inv (i + k) u := by
  intro k
  induction k with
  | zero => intro i s h _; exact ⟨s, rfl, by simpa using h⟩
  | succ k ih =>
    intro i s h hstep
    obtain ⟨t, ht, hInv⟩ := hstep i s (le_refl i) (by omega) h
    obtain ⟨u, hu, hInvu⟩ := ih (i + 1) t hInv
      (fun j w hj hlt hw => hstep j w (by omega) (by omega) hw)
    refine ⟨u, ?_, ?_⟩
    · rw [loop_succ, ht]; exact hu
    · have : i + 1 + k = i + (k + 1) := by omega
      rw [← this]; exact hInvu

/-- A loop over the unit state succeeds when every iteration does. -/
theorem loop_unit_ok (body : ℕ → Unit → Except Fault Unit) (k i : ℕ)
    (h : ∀ j, i ≤ j → j < i + k → body j () = .ok ()) : loop body k i () = .ok () := by
  obtain ⟨u, hu, _⟩ := loop_inv body (fun _ _ => True) k i () trivial
    (fun j t hj hlt _ => ⟨(), by cases t; exact h j hj hlt, trivial⟩)
  cases u; exact hu

/-- A loop over the unit state stops with the fault of the first failing iteration:
if every iteration before `m` succeeds or stops with a fault in `P`, and iteration
`m` stops with a fault in `P`, then the loop stops with a fault in `P`. -/
theorem loop_unit_error (body : ℕ → Unit → Except Fault Unit) (P : Fault → Prop) :
    ∀ (k i m : ℕ), i ≤ m → m < i + k →
      (∀ j, i ≤ j → j < m → body j () = .ok () ∨ ∃ f, body j () = .error f ∧ P f) →
      (∃ f, body m () = .error f ∧ P f) →
      ∃ f, loop body k i () = .error f ∧ P f := by
  intro k
  induction k with
  | zero => intro i m h1 h2; omega
  | succ k ih =>
    intro i m h1 h2 hbefore hm
    rw [loop_succ]
    by_cases him : i = m
    · subst him
      obtain ⟨f, hf, hP⟩ := hm
      exact ⟨f, by rw [hf], hP⟩
    · rcases hbefore i (le_refl i) (by omega) with hok | ⟨f, hf, hP⟩
      · rw [hok]
        exact ih (i + 1) m (by omega) (by omega)
          (fun j hj hlt => hbefore j (by omega) hlt) hm
      · exact ⟨f, by rw [hf], hP⟩

/-- If a loop over the unit state succeeds, every iteration succeeded. -/
theorem loop_unit_ok_inv (body : ℕ → Unit → Except Fault Unit) :
    ∀ (k i : ℕ), loop body k i () = .ok () → ∀ j, i ≤ j → j < i + k → body j () = .ok () := by
  intro k
  induction k with
  | zero => intro i _ j h1 h2; omega
  | succ k ih =>
    intro i h j h1 h2
    rw [loop_succ] at h
    cases hb : body i () with
    | error f => rw [hb] at h; cases h
    | ok u =>
      cases u
      rw [hb] at h
      by_cases hij : j = i
      · subst hij; exact hb
      · exact ih (i + 1) h j (by omega) (by omega)

/-! ## `Verify` and the checks of `BatchVerify` -/

theorem BatchVerify.checkBody_eq {E : Curve} (vk : List (VerifyingKey E))
    (commitments pok : List E.G1Affine) (i : ℕ) (p c : E.G1Affine) (k k0 : VerifyingKey E)
    (hp : pok[i]? = some p) (hc : commitments[i]? = some c) (hk : vk[i]? = some k)
    (hk0 : vk[0]? = some k0) :
    BatchVerify.checkBody vk commitments pok i () =
      if E.IsInSubGroup1 p = false ∨ E.IsInSubGroup1 c = false then
        .error (.error .subgroupCheckFailed)
      else if i ≠ 0 ∧ k.G ≠ k0.G then .error (.error .parameterMismatch)
      else .ok () := by
  unfold BatchVerify.checkBody
  rw [idx_of_getElem? hp, idx_of_getElem? hc, idx_of_getElem? hk, idx_of_getElem? hk0]
  cases h1 : E.IsInSubGroup1 p <;> cases h2 : E.IsInSubGroup1 c <;>
    by_cases h3 : i = 0 <;> by_cases h4 : k.G = k0.G <;> simp [h1, h2, h3, h4]

/-- When the first loop of `BatchVerify` stops, `BatchVerify` returns its fault. -/
theorem BatchVerify_of_check_error {E : Curve} (vk : List (VerifyingKey E))
    (commitments pok : List E.G1Affine) (challenge : E.Element) (f : Fault)
    (hc : commitments.length = vk.length) (hp : pok.length = vk.length)
    (h : loop (BatchVerify.checkBody vk commitments pok) pok.length 0 () = .error f) :
    BatchVerify E vk commitments pok challenge = .error f := by
  unfold BatchVerify forRange
  simp only [Nat.sub_zero, h]
  simp [hc, hp]

theorem getElem?_of_lt_length {α : Type} (xs : List α) (i : ℕ) (h : i < xs.length) :
    ∃ a, xs[i]? = some a ∧ a ∈ xs :=
  ⟨xs[i], List.getElem?_eq_getElem h, List.getElem_mem h⟩

/-- The outcome of `Verify` in terms of the subgroup tests and of the pairing
product. -/
theorem VerifyingKey.Verify_eq {E : Curve} (vk : VerifyingKey E)
    (commitment knowledgeProof : E.G1Affine) :
    vk.Verify commitment knowledgeProof =
      (if E.IsInSubGroup1 commitment = false ∨ E.IsInSubGroup1 knowledgeProof = false then
        .error (.error .subgroupCheckFailed)
      else if E.pairing commitment vk.G * E.pairing knowledgeProof vk.GRootSigmaNeg = 1 then
        .ok ()
      else .error (.error .proofRejected)) := by
  unfold VerifyingKey.Verify PairingCheck
  cases h1 : E.IsInSubGroup1 commitment <;> cases h2 : E.IsInSubGroup1 knowledgeProof <;>
    by_cases h : E.pairing commitment vk.G * E.pairing knowledgeProof vk.GRootSigmaNeg = 1 <;>
    simp [h]

/-- C8: `Verify` returns the error "subgroup check failed" whenever the commitment or
the proof fails the subgroup test, whatever the pairing says; when both pass, it
returns nil exactly when `e(commitment, vk.G) * e(proof, vk.GRootSigmaNeg)` is the
identity of the target group, and the error "proof rejected" otherwise. -/
theorem Verify_outcome (E : Curve) (vk : VerifyingKey E) (commitment knowledgeProof : E.G1Affine) :
    vk.Verify commitment knowledgeProof =
      (if E.IsInSubGroup1 commitment = false ∨ E.IsInSubGroup1 knowledgeProof = false then
        .error (.error .subgroupCheckFailed)
      else if E.pairing commitment vk.G * E.pairing knowledgeProof vk.GRootSigmaNeg = 1 then
        .ok ()
      else .error (.error .proofRejected))
    ∧ Err.subgroupCheckFailed.message = "subgroup check failed"
    ∧ Err.proofRejected.message = "proof rejected" :=
  ⟨vk.Verify_eq commitment knowledgeProof, rfl, rfl⟩

/-- C5: a batch of one is the single verification: `BatchVerify([vk], [C], [p], c)`
returns the very outcome of `vk.Verify(C, p)` (nil, "subgroup check failed" or
"proof rejected"), for every challenge `c`. -/
theorem BatchVerify_singleton (E : Curve) (vk : VerifyingKey E) (C p : E.G1Affine)
    (c : E.Element) : BatchVerify E [vk] [C] [p] c = vk.Verify C p := by
  unfold BatchVerify VerifyingKey.Verify
  simp only [forRange, loop, BatchVerify.checkBody, BatchVerify.fillBody, FoldCommitments, idx,
    upd, PairingCheck]
  cases h1 : E.IsInSubGroup1 C <;> cases h2 : E.IsInSubGroup1 p <;> simp [h1, h2]
  rw [mul_comm]

/-- C6 (evaluation at the failing input): on three empty slices `BatchVerify` neither
accepts nor returns an error value: reading `pok[0]` is out of range. -/
theorem BatchVerify_empty_panics (E : Curve) (c : E.Element) :
    BatchVerify E [] [] [] c = .error .panic := by
  simp [BatchVerify, forRange, loop, idx]

theorem BatchVerify.check_error {E : Curve} (vk : List (VerifyingKey E))
    (commitments pok : List E.G1Affine) (challenge : E.Element) (P : Fault → Prop)
    (hc : commitments.length = vk.length) (hp : pok.length = vk.length) (m : ℕ)
    (hm : m < vk.length)
    (hbefore : ∀ j, j < m → BatchVerify.checkBody vk commitments pok j () = .ok () ∨
      ∃ f, BatchVerify.checkBody vk commitments pok j () = .error f ∧ P f)
    (hat : ∃ f, BatchVerify.checkBody vk commitments pok m () = .error f ∧ P f) :
    ∃ f, BatchVerify E vk commitments pok challenge = .error f ∧ P f := by
  obtain ⟨f, hf, hP⟩ := loop_unit_error (BatchVerify.checkBody vk commitments pok) P
    pok.length 0 m (Nat.zero_le m) (by omega) (fun j _ hj => hbefore j hj) hat
  exact ⟨f, BatchVerify_of_check_error vk commitments pok challenge f hc hp hf, hP⟩

/-- C10: `BatchVerify` returns the error "length mismatch" whenever the number of
commitments or of proofs differs from the number of keys, whatever the rest of the
input; and when the three lengths agree (n ≥ 2), every point passes the subgroup
test and some `vk[i].G` differs from `vk[0].G`, it returns the error
"parameter mismatch: G2 element" (so it does not accept). -/
theorem BatchVerify_shared_generator (E : Curve) (vk : List (VerifyingKey E))
    (commitments pok : List E.G1Affine) (challenge : E.Element) :
    ((commitments.length ≠ vk.length ∨ pok.length ≠ vk.length) →
      BatchVerify E vk commitments pok challenge = .error (.error .lengthMismatch)) ∧
    (commitments.length = vk.length → pok.length = vk.length → 2 ≤ vk.length →
      (∀ p ∈ pok, E.IsInSubGroup1 p = true) →
      (∀ q ∈ commitments, E.IsInSubGroup1 q = true) →
      (∃ (i : ℕ) (k k0 : VerifyingKey E), vk[i]? = some k ∧ vk[0]? = some k0 ∧ k.G ≠ k0.G) →
      BatchVerify E vk commitments pok challenge = .error (.error .parameterMismatch)) ∧
    Err.lengthMismatch.message = "length mismatch" ∧
    Err.parameterMismatch.message = "parameter mismatch: G2 element" := by
  refine ⟨?_, ?_, rfl, rfl⟩
  · intro h
    unfold BatchVerify
    rw [if_pos h]
  · intro hc hp _ hpok hcom ⟨i, k, k0, hk, hk0, hne⟩
    have hi : i < vk.length := by
      by_contra hcon
      rw [List.getElem?_eq_none (by omega)] at hk
      cases hk
    have body : ∀ j, j < vk.length → ∀ kj, vk[j]? = some kj →
        BatchVerify.checkBody vk commitments pok j () =
          if j ≠ 0 ∧ kj.G ≠ k0.G then .error (.error .parameterMismatch) else .ok () := by
      intro j hj kj hkj
      obtain ⟨p, hp1, hp2⟩ := getElem?_of_lt_length pok j (by omega)
      obtain ⟨q, hq1, hq2⟩ := getElem?_of_lt_length commitments j (by omega)
      rw [BatchVerify.checkBody_eq vk commitments pok j p q kj k0 hp1 hq1 hkj hk0]
      simp [hpok p hp2, hcom q hq2]
    obtain ⟨f, hf, hP⟩ := BatchVerify.check_error vk commitments pok challenge
      (fun f => f = .error .parameterMismatch) hc hp i hi
      (by
        intro j hj
        obtain ⟨kj, hkj, _⟩ := getElem?_of_lt_length vk j (by omega)
        rw [body j (by omega) kj hkj]
        by_cases h : j ≠ 0 ∧ kj.G ≠ k0.G
        · right; exact ⟨_, by rw [if_pos h], rfl⟩
        · left; rw [if_neg h])
      (by
        refine ⟨_, ?_, rfl⟩
        rw [body i hi k hk]
        have h0 : i ≠ 0 := by
          rintro rfl
          rw [hk0] at hk
          cases hk
          exact hne rfl
        rw [if_pos ⟨h0, hne⟩])
    rw [hf, hP]

/-- Witness of C10 in the toy engine: one commitment for two keys, and two keys with
different generators. -/
theorem BatchVerify_shared_generator_witness :
    BatchVerify toy [toyKey 1 2, toyKey 1 2] [toyPoint 3] [toyPoint 2, toyPoint 3] 3
        = .error (.error .lengthMismatch) ∧
    BatchVerify toy [toyKey 1 2, toyKey 3 2] [toyPoint 3, toyPoint 1] [toyPoint 2, toyPoint 3] 3
        = .error (.error .parameterMismatch) :=
  ⟨(BatchVerify_shared_generator toy [toyKey 1 2, toyKey 1 2] [toyPoint 3]
      [toyPoint 2, toyPoint 3] 3).1 (by decide),
   (BatchVerify_shared_generator toy [toyKey 1 2, toyKey 3 2] [toyPoint 3, toyPoint 1]
      [toyPoint 2, toyPoint 3] 3).2.1 (by decide) (by decide) (by decide) (by decide)
      (by decide) ⟨1, toyKey 3 2, toyKey 1 2, rfl, rfl, by decide⟩⟩

/-- C9 (counterexample): three keys, the second with another generator, and a third
proof outside the subgroup: the lengths agree and a point is invalid, yet the error
is "parameter mismatch: G2 element", not "subgroup check failed". -/
theorem BatchVerify_subgroup_counterexample :
    ([toyPoint 1, toyPoint 1, toyPoint 1].length = [toyKey 1 2, toyKey 3 2, toyKey 1 2].length ∧
      [toyPoint 1, toyPoint 1, toyBadPoint 1].length = [toyKey 1 2, toyKey 3 2, toyKey 1 2].length ∧
      1 ≤ [toyKey 1 2, toyKey 3 2, toyKey 1 2].length ∧
      [toyPoint 1, toyPoint 1, toyBadPoint 1][2]? = some (toyBadPoint 1) ∧
      toy.IsInSubGroup1 (toyBadPoint 1) = false) ∧
    BatchVerify toy [toyKey 1 2, toyKey 3 2, toyKey 1 2] [toyPoint 1, toyPoint 1, toyPoint 1]
      [toyPoint 1, toyPoint 1, toyBadPoint 1] 3 = .error (.error .parameterMismatch) ∧
    BatchVerify toy [toyKey 1 2, toyKey 3 2, toyKey 1 2] [toyPoint 1, toyPoint 1, toyPoint 1]
      [toyPoint 1, toyPoint 1, toyBadPoint 1] 3 ≠ .error (.error .subgroupCheckFailed) := by
  decide

/-- C9 (amended): when the three lengths agree and some `pok[i]` or `commitments[i]`
fails the subgroup test, `BatchVerify` does not accept: it returns the error
"subgroup check failed" or the error "parameter mismatch: G2 element"; and it is
"subgroup check failed" when every key before position `i` has the generator of
`vk[0]`. -/
theorem BatchVerify_invalid_point (E : Curve) (vk : List (VerifyingKey E))
    (commitments pok : List E.G1Affine) (challenge : E.Element)
    (hc : commitments.length = vk.length) (hp : pok.length = vk.length)
    (i : ℕ) (p q : E.G1Affine) (hpi : pok[i]? = some p) (hqi : commitments[i]? = some q)
    (hbad : E.IsInSubGroup1 p = false ∨ E.IsInSubGroup1 q = false) :
    (BatchVerify E vk commitments pok challenge = .error (.error .subgroupCheckFailed) ∨
      BatchVerify E vk commitments pok challenge = .error (.error .parameterMismatch)) ∧
    ((∀ j, j < i → vk[j]?.map VerifyingKey.G = vk[0]?.map VerifyingKey.G) →
      BatchVerify E vk commitments pok challenge = .error (.error .subgroupCheckFailed)) ∧
    Err.subgroupCheckFailed.message = "subgroup check failed" := by
  have hi : i < vk.length := by
    by_contra hcon
    rw [List.getElem?_eq_none (by omega)] at hpi
    cases hpi
  obtain ⟨k0, hk0, _⟩ := getElem?_of_lt_length vk 0 (by omega)
  have body : ∀ j, j < vk.length →
      BatchVerify.checkBody vk commitments pok j () = .ok () ∨
      BatchVerify.checkBody vk commitments pok j () = .error (.error .subgroupCheckFailed) ∨
      (BatchVerify.checkBody vk commitments pok j () = .error (.error .parameterMismatch) ∧
        ∃ k, vk[j]? = some k ∧ k.G ≠ k0.G) := by
    intro j hj
    obtain ⟨a, ha1, _⟩ := getElem?_of_lt_length pok j (by omega)
    obtain ⟨b, hb1, _⟩ := getElem?_of_lt_length commitments j (by omega)
    obtain ⟨kj, hkj, _⟩ := getElem?_of_lt_length vk j hj
    rw [BatchVerify.checkBody_eq vk commitments pok j a b kj k0 ha1 hb1 hkj hk0]
    by_cases h1 : E.IsInSubGroup1 a = false ∨ E.IsInSubGroup1 b = false
    · right; left; rw [if_pos h1]
    · rw [if_neg h1]
      by_cases h2 : j ≠ 0 ∧ kj.G ≠ k0.G
      · right; right; rw [if_pos h2]; exact ⟨rfl, kj, hkj, h2.2⟩
      · left; rw [if_neg h2]
  have hat : BatchVerify.checkBody vk commitments pok i () =
      .error (.error .subgroupCheckFailed) := by
    obtain ⟨ki, hki, _⟩ := getElem?_of_lt_length vk i hi
    rw [BatchVerify.checkBody_eq vk commitments pok i p q ki k0 hpi hqi hki hk0, if_pos hbad]
  refine ⟨?_, ?_, rfl⟩
  · obtain ⟨f, hf, hP⟩ := BatchVerify.check_error vk commitments pok challenge
      (fun f => f = .error .subgroupCheckFailed ∨ f = .error .parameterMismatch) hc hp i hi
      (by
        intro j hj
        rcases body j (by omega) with h | h | ⟨h, _⟩
        · left; exact h
        · right; exact ⟨_, h, Or.inl rfl⟩
        · right; exact ⟨_, h, Or.inr rfl⟩)
      ⟨_, hat, Or.inl rfl⟩
    rcases hP with hP | hP
    · left; rw [hf, hP]
    · right; rw [hf, hP]
  · intro hgen
    obtain ⟨f, hf, hP⟩ := BatchVerify.check_error vk commitments pok challenge
      (fun f => f = .error .subgroupCheckFailed) hc hp i hi
      (by
        intro j hj
        rcases body j (by omega) with h | h | ⟨_, k, hk, hne⟩
        · left; exact h
        · right; exact ⟨_, h, rfl⟩
        · have := hgen j hj
          rw [hk, hk0] at this
          simp only [Option.map_some', Option.some.injEq] at this
          exact absurd this hne)
      ⟨_, hat, rfl⟩
    rw [hf, hP]

/-- Witness of C9 (amended) in the toy engine: a third proof outside the subgroup
behind keys that share their generator. -/
theorem BatchVerify_invalid_point_witness :
    BatchVerify toy [toyKey 1 2, toyKey 1 3, toyKey 1 2] [toyPoint 1, toyPoint 1, toyPoint 1]
      [toyPoint 1, toyPoint 1, toyBadPoint 1] 3 = .error (.error .subgroupCheckFailed) :=
  (BatchVerify_invalid_point toy [toyKey 1 2, toyKey 1 3, toyKey 1 2]
    [toyPoint 1, toyPoint 1, toyPoint 1] [toyPoint 1, toyPoint 1, toyBadPoint 1] 3
    (by decide) (by decide) 2 (toyBadPoint 1) (toyPoint 1) (by decide) (by decide)
    (by decide)).2.1 (by decide)

/-! ## Algebra of the engine -/

namespace Curve.Lawful

variable {E : Curve} (hE : E.Lawful)
include hE

theorem modulus_pos : 0 < E.Modulus := hE.prime.pos

theorem one_lt_modulus : 1 < E.Modulus := hE.prime.one_lt

theorem mem1_nsmul (n : ℕ) (P : E.G1Affine) (h : E.IsInSubGroup1 P = true) :
    E.IsInSubGroup1 (n • P) = true := by
  induction n with
  | zero => rw [zero_nsmul]; exact hE.zero_mem1
  | succ n ih => rw [succ_nsmul]; exact hE.add_mem1 _ _ ih h

theorem mem1_neg (P : E.G1Affine) (h : E.IsInSubGroup1 P = true) :
    E.IsInSubGroup1 (-P) = true := by
  have h1 : (E.Modulus - 1) • P + P = 0 := by
    rw [← succ_nsmul, Nat.sub_add_cancel hE.modulus_pos]
    exact hE.order1 P h
  have h2 : -P = (E.Modulus - 1) • P := by
    rw [eq_comm, ← add_eq_zero_iff_eq_neg]; exact h1
  rw [h2]
  exact hE.mem1_nsmul _ P h

theorem mem1_zsmul (z : ℤ) (P : E.G1Affine) (h : E.IsInSubGroup1 P = true) :
    E.IsInSubGroup1 (z • P) = true := by
  cases z with
  | ofNat n => rw [Int.ofNat_eq_coe, natCast_zsmul]; exact hE.mem1_nsmul n P h
  | negSucc n => rw [negSucc_zsmul]; exact hE.mem1_neg _ (hE.mem1_nsmul _ P h)

theorem mem2_nsmul (n : ℕ) (Q : E.G2Affine) (h : E.IsInSubGroup2 Q = true) :
    E.IsInSubGroup2 (n • Q) = true := by
  induction n with
  | zero => rw [zero_nsmul]; exact hE.zero_mem2
  | succ n ih => rw [succ_nsmul]; exact hE.add_mem2 _ _ ih h

theorem mem2_neg (Q : E.G2Affine) (h : E.IsInSubGroup2 Q = true) :
    E.IsInSubGroup2 (-Q) = true := by
  have h1 : (E.Modulus - 1) • Q + Q = 0 := by
    rw [← succ_nsmul, Nat.sub_add_cancel hE.modulus_pos]
    exact hE.order2 Q h
  have h2 : -Q = (E.Modulus - 1) • Q := by
    rw [eq_comm, ← add_eq_zero_iff_eq_neg]; exact h1
  rw [h2]
  exact hE.mem2_nsmul _ Q h

theorem mem2_zsmul (z : ℤ) (Q : E.G2Affine) (h : E.IsInSubGroup2 Q = true) :
    E.IsInSubGroup2 (z • Q) = true := by
  cases z with
  | ofNat n => rw [Int.ofNat_eq_coe, natCast_zsmul]; exact hE.mem2_nsmul n Q h
  | negSucc n => rw [negSucc_zsmul]; exact hE.mem2_neg _ (hE.mem2_nsmul _ Q h)

theorem mem1_sum (l : List E.G1Affine) (h : ∀ P ∈ l, E.IsInSubGroup1 P = true) :
    E.IsInSubGroup1 l.sum = true := by
  induction l with
  | nil => exact hE.zero_mem1
  | cons a l ih =>
    rw [List.sum_cons]
    exact hE.add_mem1 _ _ (h a (List.mem_cons_self a l))
      (ih (fun P hP => h P (List.mem_cons_of_mem a hP)))

/-- On a point of the subgroup, an integer scalar acts through its residue. -/
theorem zsmul_congr1 (P : E.G1Affine) (h : E.IsInSubGroup1 P = true) (a b : ℤ)
    (hab : a ≡ b [ZMOD (E.Modulus : ℤ)]) : a • P = b • P := by
  obtain ⟨k, hk⟩ := (Int.modEq_iff_dvd.1 hab)
  have h0 : (b - a) • P = 0 := by
    rw [hk, mul_comm, mul_zsmul, natCast_zsmul, hE.order1 P h, zsmul_zero]
  rw [sub_zsmul] at h0
  exact (add_neg_eq_zero.1 h0).symm

theorem zsmul_congr2 (Q : E.G2Affine) (h : E.IsInSubGroup2 Q = true) (a b : ℤ)
    (hab : a ≡ b [ZMOD (E.Modulus : ℤ)]) : a • Q = b • Q := by
  obtain ⟨k, hk⟩ := (Int.modEq_iff_dvd.1 hab)
  have h0 : (b - a) • Q = 0 := by
    rw [hk, mul_comm, mul_zsmul, natCast_zsmul, hE.order2 Q h, zsmul_zero]
  rw [sub_zsmul] at h0
  exact (add_neg_eq_zero.1 h0).symm

theorem pairing_zero_left (Q : E.G2Affine) (hQ : E.IsInSubGroup2 Q = true) :
    E.pairing 0 Q = 1 := by
  have h := hE.pairing_add_left 0 0 Q hE.zero_mem1 hE.zero_mem1 hQ
  rw [add_zero] at h
  exact (mul_right_eq_self.1 h.symm)

theorem pairing_zero_right (P : E.G1Affine) (hP : E.IsInSubGroup1 P = true) :
    E.pairing P 0 = 1 := by
  have h := hE.pairing_add_right P 0 0 hP hE.zero_mem2 hE.zero_mem2
  rw [add_zero] at h
  exact (mul_right_eq_self.1 h.symm)

theorem pairing_nsmul_left (n : ℕ) (P : E.G1Affine) (Q : E.G2Affine)
    (hP : E.IsInSubGroup1 P = true) (hQ : E.IsInSubGroup2 Q = true) :
    E.pairing (n • P) Q = E.pairing P Q ^ n := by
  induction n with
  | zero => rw [zero_nsmul, pow_zero]; exact hE.pairing_zero_left Q hQ
  | succ n ih =>
    rw [succ_nsmul, pow_succ, hE.pairing_add_left _ _ Q (hE.mem1_nsmul n P hP) hP hQ, ih]

theorem pairing_nsmul_right (n : ℕ) (P : E.G1Affine) (Q : E.G2Affine)
    (hP : E.IsInSubGroup1 P = true) (hQ : E.IsInSubGroup2 Q = true) :
    E.pairing P (n • Q) = E.pairing P Q ^ n := by
  induction n with
  | zero => rw [zero_nsmul, pow_zero]; exact hE.pairing_zero_right P hP
  | succ n ih =>
    rw [succ_nsmul, pow_succ, hE.pairing_add_right P _ _ hP (hE.mem2_nsmul n Q hQ) hQ, ih]

theorem pairing_neg_left (P : E.G1Affine) (Q : E.G2Affine)
    (hP : E.IsInSubGroup1 P = true) (hQ : E.IsInSubGroup2 Q = true) :
    E.pairing (-P) Q = (E.pairing P Q)⁻¹ := by
  have h := hE.pairing_add_left P (-P) Q hP (hE.mem1_neg P hP) hQ
  rw [add_neg_cancel, hE.pairing_zero_left Q hQ] at h
  exact eq_inv_of_mul_eq_one_right h.symm

theorem pairing_neg_right (P : E.G1Affine) (Q : E.G2Affine)
    (hP : E.IsInSubGroup1 P = true) (hQ : E.IsInSubGroup2 Q = true) :
    E.pairing P (-Q) = (E.pairing P Q)⁻¹ := by
  have h := hE.pairing_add_right P Q (-Q) hP hQ (hE.mem2_neg Q hQ)
  rw [add_neg_cancel, hE.pairing_zero_right P hP] at h
  exact eq_inv_of_mul_eq_one_right h.symm

theorem pairing_zsmul_left (z : ℤ) (P : E.G1Affine) (Q : E.G2Affine)
    (hP : E.IsInSubGroup1 P = true) (hQ : E.IsInSubGroup2 Q = true) :
    E.pairing (z • P) Q = E.pairing P Q ^ z := by
  cases z with
  | ofNat n =>
    rw [Int.ofNat_eq_coe, natCast_zsmul, zpow_natCast]
    exact hE.pairing_nsmul_left n P Q hP hQ
  | negSucc n =>
    rw [negSucc_zsmul, zpow_negSucc, hE.pairing_neg_left _ Q (hE.mem1_nsmul _ P hP) hQ,
      hE.pairing_nsmul_left _ P Q hP hQ]

theorem pairing_zsmul_right (z : ℤ) (P : E.G1Affine) (Q : E.G2Affine)
    (hP : E.IsInSubGroup1 P = true) (hQ : E.IsInSubGroup2 Q = true) :
    E.pairing P (z • Q) = E.pairing P Q ^ z := by
  cases z with
  | ofNat n =>
    rw [Int.ofNat_eq_coe, natCast_zsmul, zpow_natCast]
    exact hE.pairing_nsmul_right n P Q hP hQ
  | negSucc n =>
    rw [negSucc_zsmul, zpow_negSucc, hE.pairing_neg_right P _ hP (hE.mem2_nsmul _ Q hQ),
      hE.pairing_nsmul_right _ P Q hP hQ]

/-- Every value of the pairing on the subgroups is killed by the modulus. -/
theorem pairing_pow_modulus (P : E.G1Affine) (Q : E.G2Affine)
    (hP : E.IsInSubGroup1 P = true) (hQ : E.IsInSubGroup2 Q = true) :
    E.pairing P Q ^ E.Modulus = 1 := by
  rw [← hE.pairing_nsmul_left _ P Q hP hQ, hE.order1 P hP, hE.pairing_zero_left Q hQ]

/-- A power of a pairing value by a multiple of the modulus is the identity. -/
theorem pairing_zpow_eq_one (P : E.G1Affine) (Q : E.G2Affine)
    (hP : E.IsInSubGroup1 P = true) (hQ : E.IsInSubGroup2 Q = true) (z : ℤ)
    (hz : (E.Modulus : ℤ) ∣ z) : E.pairing P Q ^ z = 1 := by
  obtain ⟨k, rfl⟩ := hz
  rw [zpow_mul, zpow_natCast, hE.pairing_pow_modulus P Q hP hQ, one_zpow]

end Curve.Lawful

/-! ## `MultiExp`, `ModInverse` and `Setup` -/

theorem MultiExp_eq (E : Curve) (points : List E.G1Affine) (scalars : List E.Element)
    (h : points.length = scalars.length) :
    MultiExp E points scalars = .ok (weightedSum E points scalars) := by
  unfold MultiExp weightedSum
  rw [if_neg (by simpa using h)]

theorem weightedSum_nil_left (E : Curve) (scalars : List E.Element) :
    weightedSum E [] scalars = 0 := by
  simp [weightedSum]

theorem weightedSum_cons (E : Curve) (P : E.G1Affine) (points : List E.G1Affine)
    (s : E.Element) (scalars : List E.Element) :
    weightedSum E (P :: points) (s :: scalars) =
      BigInt E s • P + weightedSum E points scalars := by
  simp [weightedSum]

theorem weightedSum_map_zsmul (E : Curve) (z : ℤ) (points : List E.G1Affine) :
    ∀ scalars : List E.Element,
      weightedSum E (points.map fun P => z • P) scalars =
        z • weightedSum E points scalars := by
  induction points with
  | nil => intro scalars; simp [weightedSum]
  | cons P points ih =>
    intro scalars
    cases scalars with
    | nil => simp [weightedSum]
    | cons s scalars =>
      rw [List.map_cons, weightedSum_cons, weightedSum_cons, ih, smul_add, smul_comm]

theorem Curve.Lawful.mem1_weightedSum {E : Curve} (hE : E.Lawful) (points : List E.G1Affine)
    (h : ∀ P ∈ points, E.IsInSubGroup1 P = true) (scalars : List E.Element) :
    E.IsInSubGroup1 (weightedSum E points scalars) = true := by
  unfold weightedSum
  apply hE.mem1_sum
  intro Q hQ
  obtain ⟨i, hi, rfl⟩ := List.mem_iff_getElem.1 hQ
  rw [List.getElem_zipWith]
  exact hE.mem1_zsmul _ _ (h _ (List.getElem_mem _))

theorem ModInverse_spec (n : ℕ) (hn : n.Prime) (g : ℤ) (h0 : 0 < g) (h1 : g < n) :
    0 ≤ ModInverse g n ∧ ModInverse g n < n ∧ (g * ModInverse g n) % (n : ℤ) = 1 := by
  haveI : Fact n.Prime := ⟨hn⟩
  have hone : (1 : ℤ) % (n : ℤ) = 1 := Int.emod_eq_of_lt (by norm_num) (by exact_mod_cast hn.one_lt)
  have hg : ((g : ℤ) : ZMod n) ≠ 0 := by
    intro h
    rw [ZMod.intCast_zmod_eq_zero_iff_dvd] at h
    have := Int.le_of_dvd h0 h
    omega
  have hex : ∃ x ∈ List.range n, decide ((g * (x : ℤ)) % (n : ℤ) = 1 % (n : ℤ)) = true := by
    refine ⟨((g : ZMod n)⁻¹).val, List.mem_range.2 (ZMod.val_lt _), ?_⟩
    rw [decide_eq_true_iff]
    have : (((g * ((((g : ZMod n)⁻¹).val : ℕ) : ℤ) : ℤ)) : ZMod n) = ((1 : ℤ) : ZMod n) := by
      push_cast
      rw [ZMod.natCast_val, ZMod.cast_id, mul_inv_cancel₀ hg]
    exact (ZMod.intCast_eq_intCast_iff _ _ _).1 this
  unfold ModInverse
  cases hf : (List.range n).find? (fun (x : ℕ) => decide ((g * (x : ℤ)) % (n : ℤ) = 1 % (n : ℤ))) with
  | none =>
    obtain ⟨x, hx, hp⟩ := hex
    have := List.find?_eq_none.1 hf x hx
    exact absurd hp this
  | some x =>
    have hp := List.find?_some hf
    have hm := List.mem_range.1 (List.mem_of_find?_eq_some hf)
    rw [decide_eq_true_iff, hone] at hp
    show 0 ≤ (x : ℤ) ∧ (x : ℤ) < n ∧ (g * (x : ℤ)) % (n : ℤ) = 1
    exact ⟨by positivity, by exact_mod_cast hm, hp⟩

theorem Setup_eq_ok (E : Curve) (bases : List (List E.G1Affine)) (options : List (SetupOption E))
    (rnd : Entropy E) (pk : List (ProvingKey E)) (vk : VerifyingKey E) (s : ℕ)
    (hs : rnd.Int = .ok s) (h : Setup E bases options rnd = .ok (pk, vk)) :
    pk = bases.map (fun b =>
        { Basis := b, BasisExpSigma := b.map fun P => E.ScalarMultiplication1 P ((s : ℤ) + 1) }) ∧
    vk.GRootSigmaNeg =
      E.ScalarMultiplication2 vk.G ((E.Modulus : ℤ) - ModInverse ((s : ℤ) + 1) E.Modulus) := by
  unfold Setup at h
  simp only [hs] at h
  split at h
  · cases h
  · cases h
    exact ⟨rfl, rfl⟩

/-- The pairing of a proof `σ·C` with `GRootSigmaNeg` cancels the pairing of `C` with
`G`. -/
theorem Curve.Lawful.pairing_root {E : Curve} (hE : E.Lawful) (s : ℕ) (hs : s < E.Modulus - 1)
    (C : E.G1Affine) (G : E.G2Affine) (hC : E.IsInSubGroup1 C = true)
    (hG : E.IsInSubGroup2 G = true) :
    E.pairing (((s : ℤ) + 1) • C)
        (((E.Modulus : ℤ) - ModInverse ((s : ℤ) + 1) E.Modulus) • G) =
      (E.pairing C G)⁻¹ := by
  obtain ⟨_, _, hinv⟩ := ModInverse_spec E.Modulus hE.prime ((s : ℤ) + 1) (by positivity)
    (by have := hE.modulus_pos; omega)
  rw [hE.pairing_zsmul_left _ C _ hC (hE.mem2_zsmul _ G hG),
    hE.pairing_zsmul_right _ C G hC hG, ← zpow_mul]
  apply eq_inv_of_mul_eq_one_left
  rw [← zpow_add_one]
  apply hE.pairing_zpow_eq_one C G hC hG
  obtain ⟨q, hq⟩ : ∃ q : ℤ, ((s : ℤ) + 1) * ModInverse ((s : ℤ) + 1) E.Modulus =
      (E.Modulus : ℤ) * q + 1 := by
    refine ⟨(((s : ℤ) + 1) * ModInverse ((s : ℤ) + 1) E.Modulus) / (E.Modulus : ℤ), ?_⟩
    have := Int.emod_add_ediv (((s : ℤ) + 1) * ModInverse ((s : ℤ) + 1) E.Modulus)
      (E.Modulus : ℤ)
    rw [hinv] at this
    linarith
  exact ⟨((s : ℤ) + 1) - q, by linear_combination (-1 : ℤ) * hq⟩

/-! ## The toy engine is lawful -/

theorem toy_lawful : toy.Lawful where
  prime := by norm_num [toy]
  zero_mem1 := by decide
  add_mem1 := by
    show ∀ P Q : ZMod 7 × ZMod 2, decide (P.2 = 0) = true → decide (Q.2 = 0) = true →
      decide ((P + Q).2 = 0) = true
    decide
  order1 := by
    show ∀ P : ZMod 7 × ZMod 2, decide (P.2 = 0) = true → 7 • P = 0
    decide
  zero_mem2 := by decide
  add_mem2 := by
    show ∀ P Q : ZMod 7 × ZMod 2, decide (P.2 = 0) = true → decide (Q.2 = 0) = true →
      decide ((P + Q).2 = 0) = true
    decide
  order2 := by
    show ∀ P : ZMod 7 × ZMod 2, decide (P.2 = 0) = true → 7 • P = 0
    decide
  smul1 := fun _ _ _ => rfl
  smul2 := fun _ _ _ => rfl
  pairing_add_left := by
    intro P P' Q _ _ _
    show Multiplicative.ofAdd ((P + P').1 * Q.1) =
      Multiplicative.ofAdd (P.1 * Q.1) * Multiplicative.ofAdd (P'.1 * Q.1)
    rw [← ofAdd_add, Prod.fst_add, add_mul]
  pairing_add_right := by
    intro P Q Q' _ _ _
    show Multiplicative.ofAdd (P.1 * (Q + Q').1) =
      Multiplicative.ofAdd (P.1 * Q.1) * Multiplicative.ofAdd (P.1 * Q'.1)
    rw [← ofAdd_add, Prod.fst_add, mul_add]

theorem toy_nonDegenerate : toy.NonDegenerate := by
  show ∀ (P Q : ZMod 7 × ZMod 2), decide (P.2 = 0) = true → decide (Q.2 = 0) = true →
    P ≠ 0 → Q ≠ 0 → Multiplicative.ofAdd (P.1 * Q.1) ≠ (1 : Multiplicative (ZMod 7))
  decide

theorem toy_setup :
    Setup toy [[toyPoint 1, toyPoint 2]] [WithG2Point toy (1, 0)] (toyEntropy 2) =
      .ok ([toyProvingKey], toyKey 1 2) := by
  rfl

/-! ## The second toy engine -/

theorem cofactorToy_lawful : cofactorToy.Lawful where
  prime := by norm_num [cofactorToy]
  zero_mem1 := by decide
  add_mem1 := by
    show ∀ P Q : ZMod 7 × ZMod 2, decide (P.2 = 0) = true → decide (Q.2 = 0) = true →
      decide ((P + Q).2 = 0) = true
    decide
  order1 := by
    show ∀ P : ZMod 7 × ZMod 2, decide (P.2 = 0) = true → 7 • P = 0
    decide
  zero_mem2 := by decide
  add_mem2 := by
    show ∀ P Q : ZMod 7 × ZMod 2, decide (P.2 = 0) = true → decide (Q.2 = 0) = true →
      decide ((P + Q).2 = 0) = true
    decide
  order2 := by
    show ∀ P : ZMod 7 × ZMod 2, decide (P.2 = 0) = true → 7 • P = 0
    decide
  smul1 := by
    intro P s h
    have hP : P.2 = 0 := of_decide_eq_true h
    show (s • P.1, P.2) = s • P
    exact Prod.ext_iff.2 ⟨rfl, by rw [Prod.smul_snd, hP, smul_zero]⟩
  smul2 := by
    intro Q s h
    have hQ : Q.2 = 0 := of_decide_eq_true h
    show (s • Q.1, Q.2) = s • Q
    exact Prod.ext_iff.2 ⟨rfl, by rw [Prod.smul_snd, hQ, smul_zero]⟩
  pairing_add_left := by
    intro P P' Q _ _ hQ
    have hQ0 : Q.2 = 0 := of_decide_eq_true hQ
    show Multiplicative.ofAdd ((P + P').1 * Q.1 + if Q.2 = 0 then 0 else (P + P').1 * (P + P').1) =
      Multiplicative.ofAdd (P.1 * Q.1 + if Q.2 = 0 then 0 else P.1 * P.1) *
        Multiplicative.ofAdd (P'.1 * Q.1 + if Q.2 = 0 then 0 else P'.1 * P'.1)
    rw [if_pos hQ0, if_pos hQ0, if_pos hQ0, ← ofAdd_add, Prod.fst_add]
    congr 1
    ring
  pairing_add_right := by
    intro P Q Q' _ hQ hQ'
    have hQ0 : Q.2 = 0 := of_decide_eq_true hQ
    have hQ0' : Q'.2 = 0 := of_decide_eq_true hQ'
    have hs : (Q + Q').2 = 0 := by rw [Prod.snd_add, hQ0, hQ0', add_zero]
    show Multiplicative.ofAdd (P.1 * (Q + Q').1 + if (Q + Q').2 = 0 then 0 else P.1 * P.1) =
      Multiplicative.ofAdd (P.1 * Q.1 + if Q.2 = 0 then 0 else P.1 * P.1) *
        Multiplicative.ofAdd (P.1 * Q'.1 + if Q'.2 = 0 then 0 else P.1 * P.1)
    rw [if_pos hQ0, if_pos hQ0', if_pos hs, ← ofAdd_add, Prod.fst_add]
    congr 1
    ring

theorem cofactor_setup :
    Setup cofactorToy [[(1, 0), (2, 0)], [(4, 0)]] [WithG2Point cofactorToy (1, 1)]
      (cofactorEntropy 2) = .ok (cofactorProvingKeys, cofactorSetupKey) := by
  rfl

theorem cofactor_setup_off :
    Setup cofactorToy [[(1, 1)]] [WithG2Point cofactorToy (1, 0)] (cofactorEntropy 1) =
      .ok ([cofactorOffProvingKey], { G := (1, 0), GRootSigmaNeg := (3, 0) }) := by
  rfl

/-! ## Single proofs: completeness and tamper detection -/

/-- The key at position `i` of a setup: its basis is `bases[i]` and its
`BasisExpSigma` is the basis with `ScalarMultiplication` by `sigma` applied to every
point. -/
theorem Setup_key (E : Curve) (bases : List (List E.G1Affine)) (options : List (SetupOption E))
    (rnd : Entropy E) (pk : List (ProvingKey E)) (vk : VerifyingKey E) (s : ℕ)
    (hs : rnd.Int = .ok s) (h : Setup E bases options rnd = .ok (pk, vk))
    (i : ℕ) (k : ProvingKey E) (hk : pk[i]? = some k) :
    bases[i]? = some k.Basis ∧
      k.BasisExpSigma = k.Basis.map (fun P => E.ScalarMultiplication1 P ((s : ℤ) + 1)) := by
  obtain ⟨hpk, _⟩ := Setup_eq_ok E bases options rnd pk vk s hs h
  subst hpk
  rw [List.getElem?_map] at hk
  cases hb : bases[i]? with
  | none => rw [hb] at hk; cases hk
  | some b =>
    rw [hb] at hk
    simp only [Option.map_some', Option.some.injEq] at hk
    subst hk
    exact ⟨rfl, rfl⟩

/-- Over a basis of subgroup points, the `BasisExpSigma` of a key of `Setup` is
`sigma` times the basis. -/
theorem Curve.Lawful.Setup_key_smul {E : Curve} (hE : E.Lawful) (bases : List (List E.G1Affine))
    (options : List (SetupOption E)) (rnd : Entropy E) (pk : List (ProvingKey E))
    (vk : VerifyingKey E) (s : ℕ) (hs : rnd.Int = .ok s)
    (h : Setup E bases options rnd = .ok (pk, vk)) (i : ℕ) (k : ProvingKey E)
    (hk : pk[i]? = some k) (hsub : ∀ P ∈ k.Basis, E.IsInSubGroup1 P = true) :
    k.BasisExpSigma = k.Basis.map (fun P => ((s : ℤ) + 1) • P) := by
  rw [(Setup_key E bases options rnd pk vk s hs h i k hk).2]
  apply List.map_congr_left
  intro P hP
  exact hE.smul1 P _ (hsub P hP)

/-- With a generator in the G2 subgroup, the `GRootSigmaNeg` of `Setup` is the
multiple of the generator by `r - ModInverse(sigma, r)`. -/
theorem Curve.Lawful.Setup_root {E : Curve} (hE : E.Lawful) (bases : List (List E.G1Affine))
    (options : List (SetupOption E)) (rnd : Entropy E) (pk : List (ProvingKey E))
    (vk : VerifyingKey E) (s : ℕ) (hs : rnd.Int = .ok s)
    (h : Setup E bases options rnd = .ok (pk, vk)) (hG : E.IsInSubGroup2 vk.G = true) :
    vk.GRootSigmaNeg = ((E.Modulus : ℤ) - ModInverse ((s : ℤ) + 1) E.Modulus) • vk.G := by
  rw [(Setup_eq_ok E bases options rnd pk vk s hs h).2]
  exact hE.smul2 vk.G _ hG

/-- A key built by `Setup` over a basis of subgroup points commits to
`Σ v[j]·Basis[j]` and proves with `sigma` times the commitment. -/
theorem Setup_commit_prove (E : Curve) (hE : E.Lawful) (bases : List (List E.G1Affine))
    (options : List (SetupOption E)) (rnd : Entropy E) (pk : List (ProvingKey E))
    (vk : VerifyingKey E) (s : ℕ) (hs : rnd.Int = .ok s)
    (h : Setup E bases options rnd = .ok (pk, vk)) (i : ℕ) (k : ProvingKey E)
    (hk : pk[i]? = some k) (hsub : ∀ P ∈ k.Basis, E.IsInSubGroup1 P = true)
    (v : List E.Element) (hv : v.length = k.Basis.length) :
    k.Commit v = .ok (weightedSum E k.Basis v) ∧
      k.ProveKnowledge v = .ok (((s : ℤ) + 1) • weightedSum E k.Basis v) := by
  have hsig := hE.Setup_key_smul bases options rnd pk vk s hs h i k hk hsub
  constructor
  · unfold ProvingKey.Commit
    rw [if_neg (by simpa using hv), MultiExp_eq E _ _ hv.symm]
  · unfold ProvingKey.ProveKnowledge
    rw [if_neg (by simpa using hv), MultiExp_eq E _ _ (by rw [hsig, List.length_map, hv]), hsig,
      weightedSum_map_zsmul]

/-- Against a key of `Setup`, the proof `sigma·C` and a commitment `C'` (both in the
subgroup) verify exactly when `e(C', G) = e(C, G)`. -/
theorem Verify_setup (E : Curve) (hE : E.Lawful) (vk : VerifyingKey E) (s : ℕ)
    (hrange : s < E.Modulus - 1)
    (hroot : vk.GRootSigmaNeg =
      ((E.Modulus : ℤ) - ModInverse ((s : ℤ) + 1) E.Modulus) • vk.G)
    (hG : E.IsInSubGroup2 vk.G = true) (C C' : E.G1Affine) (hC : E.IsInSubGroup1 C = true)
    (hC' : E.IsInSubGroup1 C' = true) :
    vk.Verify C' (((s : ℤ) + 1) • C) =
      if E.pairing C' vk.G = E.pairing C vk.G then .ok ()
      else .error (.error .proofRejected) := by
  have hπ : E.IsInSubGroup1 (((s : ℤ) + 1) • C) = true :=
    hE.mem1_zsmul _ C hC
  rw [vk.Verify_eq, if_neg (by simp [hC', hπ]), hroot, hE.pairing_root s hrange C vk.G hC hG]
  simp only [mul_inv_eq_one]

/-- C1: completeness of a single proof.  For keys produced by `Setup` with a sampled
`sigma` in `[1, r-1]`, a generator in the G2 subgroup and bases made of G1 subgroup
points, for every key `pk[i]` and every vector `v` with `len(v) == len(pk[i].Basis)`,
`Commit` and `ProveKnowledge` succeed and `vk.Verify` accepts their results. -/
theorem Verify_complete (E : Curve) (hE : E.Lawful) (bases : List (List E.G1Affine))
    (options : List (SetupOption E)) (rnd : Entropy E) (pk : List (ProvingKey E))
    (vk : VerifyingKey E) (s : ℕ) (hs : rnd.Int = .ok s) (hrange : s < E.Modulus - 1)
    (hsetup : Setup E bases options rnd = .ok (pk, vk))
    (hG : E.IsInSubGroup2 vk.G = true)
    (hbases : ∀ b ∈ bases, ∀ P ∈ b, E.IsInSubGroup1 P = true)
    (i : ℕ) (k : ProvingKey E) (hk : pk[i]? = some k)
    (v : List E.Element) (hv : v.length = k.Basis.length) :
    ∃ C π, k.Commit v = .ok C ∧ k.ProveKnowledge v = .ok π ∧ vk.Verify C π = .ok () := by
  obtain ⟨hb, _⟩ := Setup_key E bases options rnd pk vk s hs hsetup i k hk
  have hksub := hbases k.Basis (List.getElem?_mem hb)
  obtain ⟨hc, hp⟩ :=
    Setup_commit_prove E hE bases options rnd pk vk s hs hsetup i k hk hksub v hv
  have hroot := hE.Setup_root bases options rnd pk vk s hs hsetup hG
  have hmem : E.IsInSubGroup1 (weightedSum E k.Basis v) = true :=
    hE.mem1_weightedSum k.Basis hksub v
  refine ⟨_, _, hc, hp, ?_⟩
  rw [Verify_setup E hE vk s hrange hroot hG _ _ hmem hmem, if_pos rfl]

/-- Witness of C1 in the toy engine: `sigma = 3`, basis `[(1,0), (2,0)]`, values
`[3, 5]`. -/
theorem Verify_complete_witness :
    ∃ C π, toyProvingKey.Commit [3, 5] = .ok C ∧ toyProvingKey.ProveKnowledge [3, 5] = .ok π ∧
      (toyKey 1 2).Verify C π = .ok () :=
  Verify_complete toy toy_lawful [[toyPoint 1, toyPoint 2]] [WithG2Point toy (1, 0)]
    (toyEntropy 2) [toyProvingKey] (toyKey 1 2) 2 rfl (by decide) toy_setup (by decide)
    (by decide) 0 toyProvingKey rfl [3, 5] rfl

/-- On the subgroups a non-degenerate pairing separates the points: different
commitments pair differently with a non-identity generator. -/
theorem Curve.Lawful.pairing_injective {E : Curve} (hE : E.Lawful) (hND : E.NonDegenerate)
    (G : E.G2Affine) (hG : E.IsInSubGroup2 G = true) (hG0 : G ≠ 0) (C C' : E.G1Affine)
    (hC : E.IsInSubGroup1 C = true) (hC' : E.IsInSubGroup1 C' = true)
    (h : E.pairing C' G = E.pairing C G) : C' = C := by
  by_contra hne
  have hsub : C' + -C ≠ 0 := by
    intro h0
    exact hne (by rw [add_neg_eq_zero] at h0; exact h0)
  apply hND (C' + -C) G (hE.add_mem1 _ _ hC' (hE.mem1_neg C hC)) hG hsub hG0
  rw [hE.pairing_add_left _ _ G hC' (hE.mem1_neg C hC) hG, hE.pairing_neg_left C G hC hG, h,
    mul_inv_cancel]

/-- A small numeral of the scalar field acts on a subgroup point as the numeral. -/
theorem Curve.Lawful.natCast_smul {E : Curve} (hE : E.Lawful) (n : ℕ) (P : E.G1Affine)
    (hP : E.IsInSubGroup1 P = true) :
    BigInt E (n : E.Element) • P = n • P := by
  unfold BigInt
  rw [← natCast_zsmul]
  apply hE.zsmul_congr1 P hP
  rw [ZMod.val_natCast]
  exact (Int.natCast_modEq_iff.2 (Nat.mod_modEq n E.Modulus))

/-- C7: tamper detection.  For keys produced by `Setup` with a non-identity generator
in the G2 subgroup and subgroup bases, a proof of `v` is rejected with "proof
rejected" against the commitment of any `v'` whose commitment differs; in
particular, over a basis `[P1, P2]` with `P2` not the identity, the proof of
`[3, 5]` is accepted against its own commitment and rejected against the commitment
of `[3, 6]`. -/
theorem Verify_tamper (E : Curve) (hE : E.Lawful) (hND : E.NonDegenerate)
    (bases : List (List E.G1Affine)) (options : List (SetupOption E)) (rnd : Entropy E)
    (pk : List (ProvingKey E)) (vk : VerifyingKey E) (s : ℕ) (hs : rnd.Int = .ok s)
    (hrange : s < E.Modulus - 1) (hsetup : Setup E bases options rnd = .ok (pk, vk))
    (hG : E.IsInSubGroup2 vk.G = true) (hG0 : vk.G ≠ 0)
    (hbases : ∀ b ∈ bases, ∀ P ∈ b, E.IsInSubGroup1 P = true)
    (i : ℕ) (k : ProvingKey E) (hk : pk[i]? = some k) :
    (∀ v v' : List E.Element, v.length = k.Basis.length → v'.length = k.Basis.length →
      k.Commit v' ≠ k.Commit v →
      ∃ C' π, k.Commit v' = .ok C' ∧ k.ProveKnowledge v = .ok π ∧
        vk.Verify C' π = .error (.error .proofRejected)) ∧
    (∀ P1 P2 : E.G1Affine, k.Basis = [P1, P2] → P2 ≠ 0 →
      ∃ C C' π, k.Commit [3, 5] = .ok C ∧ k.Commit [3, 6] = .ok C' ∧
        k.ProveKnowledge [3, 5] = .ok π ∧ vk.Verify C π = .ok () ∧
        vk.Verify C' π = .error (.error .proofRejected)) ∧
    Err.proofRejected.message = "proof rejected" := by
  obtain ⟨hb, _⟩ := Setup_key E bases options rnd pk vk s hs hsetup i k hk
  have hksub := hbases k.Basis (List.getElem?_mem hb)
  have hroot := hE.Setup_root bases options rnd pk vk s hs hsetup hG
  have hmem : ∀ v, E.IsInSubGroup1 (weightedSum E k.Basis v) = true := fun v =>
    hE.mem1_weightedSum k.Basis hksub v
  have main : ∀ v v' : List E.Element, v.length = k.Basis.length →
      v'.length = k.Basis.length → weightedSum E k.Basis v' ≠ weightedSum E k.Basis v →
      vk.Verify (weightedSum E k.Basis v')
        (((s : ℤ) + 1) • weightedSum E k.Basis v) =
        .error (.error .proofRejected) := by
    intro v v' _ _ hne
    rw [Verify_setup E hE vk s hrange hroot hG _ _ (hmem v) (hmem v'), if_neg]
    intro heq
    exact hne (hE.pairing_injective hND vk.G hG hG0 _ _ (hmem v) (hmem v') heq)
  refine ⟨?_, ?_, rfl⟩
  · intro v v' hv hv' hne
    obtain ⟨hc, hp⟩ :=
      Setup_commit_prove E hE bases options rnd pk vk s hs hsetup i k hk hksub v hv
    obtain ⟨hc', _⟩ :=
      Setup_commit_prove E hE bases options rnd pk vk s hs hsetup i k hk hksub v' hv'
    refine ⟨_, _, hc', hp, main v v' hv hv' ?_⟩
    intro heq
    exact hne (by rw [hc, hc', heq])
  · intro P1 P2 hbasis hP2
    have h35 : ([3, 5] : List E.Element).length = k.Basis.length := by rw [hbasis]; rfl
    have h36 : ([3, 6] : List E.Element).length = k.Basis.length := by rw [hbasis]; rfl
    obtain ⟨hc, hp⟩ :=
      Setup_commit_prove E hE bases options rnd pk vk s hs hsetup i k hk hksub [3, 5] h35
    obtain ⟨hc', _⟩ :=
      Setup_commit_prove E hE bases options rnd pk vk s hs hsetup i k hk hksub [3, 6] h36
    refine ⟨_, _, _, hc, hc', hp, ?_, main [3, 5] [3, 6] h35 h36 ?_⟩
    · rw [Verify_setup E hE vk s hrange hroot hG _ _ (hmem _) (hmem _), if_pos rfl]
    · have hP2mem : E.IsInSubGroup1 P2 = true :=
        hbases k.Basis (List.getElem?_mem hb) P2 (by rw [hbasis]; simp)
      have h6 := hE.natCast_smul 6 P2 hP2mem
      have h5 := hE.natCast_smul 5 P2 hP2mem
      rw [Nat.cast_ofNat] at h5 h6
      rw [hbasis, weightedSum_cons, weightedSum_cons, weightedSum_cons, weightedSum_cons,
        h5, h6]
      intro heq
      have h := add_left_cancel heq
      rw [weightedSum_nil_left, add_zero, add_zero, succ_nsmul] at h
      exact hP2 (by simpa using h)

/-- Witness of C7 in the toy engine: `sigma = 3`, basis `[(1,0), (2,0)]`; the proof of
`[3, 5]` against the commitment of `[3, 6]`. -/
theorem Verify_tamper_witness :
    ∃ C' π, toyProvingKey.Commit [3, 6] = .ok C' ∧ toyProvingKey.ProveKnowledge [3, 5] = .ok π ∧
      (toyKey 1 2).Verify C' π = .error (.error .proofRejected) :=
  (Verify_tamper toy toy_lawful toy_nonDegenerate [[toyPoint 1, toyPoint 2]]
    [WithG2Point toy (1, 0)] (toyEntropy 2) [toyProvingKey] (toyKey 1 2) 2 rfl (by decide)
    toy_setup (by decide) (by decide) (by decide) 0 toyProvingKey rfl).1 [3, 5] [3, 6] rfl rfl
    (by decide)

/-! ## The loops of `FoldCommitments` and `BatchVerify` -/

theorem powers_length (E : Curve) (c : E.Element) (n : ℕ) : (powers E c n).length = n := by
  simp [powers]

theorem powers_getElem? (E : Curve) (c : E.Element) (n k : ℕ) (hk : k < n) :
    (powers E c n)[k]? = some (c ^ k) := by
  simp [powers, List.getElem?_range hk]

/-- The loop of `FoldCommitments` fills `r` with the powers of the challenge. -/
theorem FoldCommitments.power_loop {E : Curve} (c : E.Element) (n : ℕ) (hn : 2 ≤ n) :
    forRange 2 n FoldCommitments.powerBody
      (((List.replicate n (0 : E.Element)).set 0 1).set 1 c) = .ok (powers E c n) := by
  unfold forRange
  obtain ⟨u, hu, hlen, hval⟩ := loop_inv (FoldCommitments.powerBody (E := E))
    (fun i r => r.length = n ∧ ∀ k, k < i → r[k]? = some (c ^ k)) (n - 2) 2
    (((List.replicate n (0 : E.Element)).set 0 1).set 1 c)
    (by
      refine ⟨by simp, ?_⟩
      intro k hk
      have h01 : k = 0 ∨ k = 1 := by omega
      rcases h01 with rfl | rfl
      · rw [List.getElem?_set_ne (by omega), List.getElem?_set_self (by simp; omega)]
        simp
      · rw [List.getElem?_set_self (by simp; omega)]
        simp)
    (by
      intro j t hj hlt ⟨hlen, hval⟩
      unfold FoldCommitments.powerBody
      rw [idx_of_getElem? (hval (j - 1) (by omega)), idx_of_getElem? (hval 1 (by omega))]
      dsimp only
      rw [upd_of_lt t j _ (by omega)]
      refine ⟨_, rfl, by simp [hlen], ?_⟩
      intro k hk
      by_cases hkj : k = j
      · subst hkj
        rw [List.getElem?_set_self (by omega)]
        congr 1
        rw [pow_one, ← pow_succ]
        congr 1
        omega
      · rw [List.getElem?_set_ne (by omega)]
        exact hval k (by omega))
  rw [hu]
  congr 1
  apply List.ext_getElem?
  intro k
  by_cases hk : k < n
  · rw [hval k (by omega), powers_getElem? E c n k hk]
  · rw [List.getElem?_eq_none (by omega), List.getElem?_eq_none (by rw [powers_length]; omega)]

/-- The subgroup loop of `FoldCommitments` passes when every commitment is in the
subgroup. -/
theorem FoldCommitments.subgroup_loop {E : Curve} (commitments : List E.G1Affine)
    (h : ∀ q ∈ commitments, E.IsInSubGroup1 q = true) :
    forRange 0 commitments.length (FoldCommitments.checkBody commitments) () = .ok () := by
  unfold forRange
  apply loop_unit_ok
  intro j _ hj
  obtain ⟨q, hq, hmem⟩ := getElem?_of_lt_length commitments j (by omega)
  unfold FoldCommitments.checkBody
  rw [idx_of_getElem? hq]
  simp [h q hmem]

/-- With at least two commitments, all in the subgroup, `FoldCommitments` returns the
sum of the commitments weighted by the powers of the challenge. -/
theorem FoldCommitments_of_two_le (E : Curve) (commitments : List E.G1Affine) (c : E.Element)
    (hn : 2 ≤ commitments.length) (h : ∀ q ∈ commitments, E.IsInSubGroup1 q = true) :
    FoldCommitments E commitments c =
      .ok (weightedSum E commitments (powers E c commitments.length)) := by
  unfold FoldCommitments
  rw [if_neg (by omega), if_neg (by omega)]
  simp only [upd_of_lt _ 0 _ (show 0 < (List.replicate commitments.length
      (0 : E.Element)).length by simp; omega)]
  simp only [upd_of_lt _ 1 _ (show 1 < ((List.replicate commitments.length
      (0 : E.Element)).set 0 1).length by simp; omega)]
  simp only [FoldCommitments.power_loop c commitments.length hn,
    FoldCommitments.subgroup_loop commitments h]
  exact MultiExp_eq E _ _ (by rw [powers_length])

theorem scaledProofs_length (E : Curve) (pok : List E.G1Affine) (c : E.Element) :
    (scaledProofs E pok c).length = pok.length := by
  simp [scaledProofs]

theorem scaledProofs_getElem? (E : Curve) (pok : List E.G1Affine) (c : E.Element) (k : ℕ)
    (p : E.G1Affine) (h : pok[k]? = some p) :
    (scaledProofs E pok c)[k]? =
      some (if k = 0 then p else E.ScalarMultiplication1 p (BigInt E (c ^ k))) := by
  have hk : k < pok.length := by
    by_contra hcon
    rw [List.getElem?_eq_none (by omega)] at h
    cases h
  unfold scaledProofs
  rw [List.getElem?_zipWith, h, List.getElem?_range hk]

/-- The second loop of `BatchVerify` writes the scaled proofs and the keys'
`GRootSigmaNeg` in the first `n` cells of the pairing inputs. -/
theorem BatchVerify.fill_loop {E : Curve} (vk : List (VerifyingKey E)) (pok : List E.G1Affine)
    (c : E.Element) (hp : pok.length = vk.length) (pok0 : E.G1Affine)
    (h0 : pok[0]? = some pok0) :
    ∃ st, forRange 0 vk.length (BatchVerify.fillBody vk pok c)
        { pairingG1 := (List.replicate (vk.length + 1) (0 : E.G1Affine)).set 0 pok0
          pairingG2 := List.replicate (vk.length + 1) (0 : E.G2Affine)
          r := c } = .ok st ∧
      st.pairingG1.length = vk.length + 1 ∧ st.pairingG2.length = vk.length + 1 ∧
      (∀ k, k < vk.length → st.pairingG1[k]? = (scaledProofs E pok c)[k]?) ∧
      (∀ k, k < vk.length →
        st.pairingG2[k]? = (vk.map VerifyingKey.GRootSigmaNeg)[k]?) := by
  have hn : 1 ≤ vk.length := by
    by_contra hcon
    rw [List.getElem?_eq_none (by omega)] at h0
    cases h0
  unfold forRange
  obtain ⟨u, hu, hl1, hl2, _, hg1, hg2⟩ := loop_inv (BatchVerify.fillBody vk pok c)
    (fun i st => st.pairingG1.length = vk.length + 1 ∧ st.pairingG2.length = vk.length + 1 ∧
      (i < vk.length → st.r = c ^ (max i 1)) ∧
      (∀ k, k < max i 1 → st.pairingG1[k]? = (scaledProofs E pok c)[k]?) ∧
      (∀ k, k < i → st.pairingG2[k]? = (vk.map VerifyingKey.GRootSigmaNeg)[k]?))
    (vk.length - 0) 0
    { pairingG1 := (List.replicate (vk.length + 1) (0 : E.G1Affine)).set 0 pok0
      pairingG2 := List.replicate (vk.length + 1) (0 : E.G2Affine)
      r := c }
    (by
      refine ⟨by simp, by simp, fun _ => by simp, ?_, fun k hk => by omega⟩
      intro k hk
      have hk0 : k = 0 := by
        have : max 0 1 = 1 := rfl
        omega
      subst hk0
      rw [List.getElem?_set_self (by simp), scaledProofs_getElem? E pok c 0 pok0 h0]
      simp)
    (by
      intro j t _ hlt ⟨hl1, hl2, hr, hg1, hg2⟩
      have hj : j < vk.length := by omega
      obtain ⟨kj, hkj, _⟩ := getElem?_of_lt_length vk j hj
      obtain ⟨pj, hpj, _⟩ := getElem?_of_lt_length pok j (by omega)
      have hG2 : ∀ k, k < j + 1 → (t.pairingG2.set j kj.GRootSigmaNeg)[k]? =
          (vk.map VerifyingKey.GRootSigmaNeg)[k]? := by
        intro k hk
        by_cases hkj' : k = j
        · subst hkj'
          rw [List.getElem?_set_self (by omega), List.getElem?_map, hkj]
          rfl
        · rw [List.getElem?_set_ne (by omega)]
          exact hg2 k (by omega)
      unfold BatchVerify.fillBody
      rw [idx_of_getElem? hkj]
      dsimp only
      rw [upd_of_lt _ j _ (by omega)]
      dsimp only
      by_cases hj0 : j = 0
      · subst hj0
        rw [if_neg (by simp)]
        refine ⟨_, rfl, hl1, by simp [hl2], ?_, ?_, hG2⟩
        · intro _
          rw [hr hj]
          rfl
        · intro k hk
          exact hg1 k (by simpa using hk)
      · rw [if_pos hj0, idx_of_getElem? hpj]
        dsimp only
        rw [upd_of_lt _ j _ (by omega)]
        have hmax : max j 1 = j := by omega
        refine ⟨_, rfl, by simp [hl1], by simp [hl2], ?_, ?_, hG2⟩
        · intro hlt'
          have hmax' : max (j + 1) 1 = j + 1 := by omega
          dsimp only
          rw [if_pos (by omega), hr hj, hmax, hmax', pow_succ]
        · intro k hk
          dsimp only
          by_cases hkj' : k = j
          · subst hkj'
            rw [List.getElem?_set_self (by omega), scaledProofs_getElem? E pok c k pj hpj,
              if_neg hj0, hr hj, hmax]
          · rw [List.getElem?_set_ne (by omega)]
            exact hg1 k (by omega))
  refine ⟨u, hu, hl1, hl2, ?_, ?_⟩
  · intro k hk
    exact hg1 k (by omega)
  · intro k hk
    exact hg2 k (by omega)

/-- A slice of length `n + 1` whose first `n` cells agree with `xs` becomes
`xs ++ [a]` when `a` is written in its last cell. -/
theorem set_last_eq_append {α : Type} (l xs : List α) (a : α) (hl : l.length = xs.length + 1)
    (h : ∀ k, k < xs.length → l[k]? = xs[k]?) : l.set xs.length a = xs ++ [a] := by
  apply List.ext_getElem?
  intro k
  rcases Nat.lt_trichotomy k xs.length with hk | hk | hk
  · rw [List.getElem?_set_ne (by omega), h k hk, List.getElem?_append_left hk]
  · subst hk
    rw [List.getElem?_set_self (by omega), List.getElem?_append_right (le_refl _)]
    simp
  · rw [List.getElem?_eq_none (by simp; omega), List.getElem?_eq_none (by simp; omega)]

/-- The outcome of `BatchVerify` once its checks pass: the pairing check on the
scaled proofs against the keys' `GRootSigmaNeg`, followed by the folded commitment
against `vk[0].G`. -/
theorem BatchVerify_eq (E : Curve) (vk : List (VerifyingKey E))
    (commitments pok : List E.G1Affine) (c : E.Element)
    (hc : commitments.length = vk.length) (hp : pok.length = vk.length)
    (hcheck : forRange 0 pok.length (BatchVerify.checkBody vk commitments pok) () = .ok ())
    (F : E.G1Affine) (hF : FoldCommitments E commitments c = .ok F)
    (k0 : VerifyingKey E) (hk0 : vk[0]? = some k0) :
    BatchVerify E vk commitments pok c =
      if (List.zipWith E.pairing (scaledProofs E pok c)
          (vk.map VerifyingKey.GRootSigmaNeg)).prod * E.pairing F k0.G = 1 then .ok ()
      else .error (.error .proofRejected) := by
  have hn : 1 ≤ vk.length := by
    by_contra hcon
    rw [List.getElem?_eq_none (by omega)] at hk0
    cases hk0
  obtain ⟨pok0, hpok0, _⟩ := getElem?_of_lt_length pok 0 (by omega)
  obtain ⟨st, hst, hl1, hl2, hg1, hg2⟩ := BatchVerify.fill_loop vk pok c hp pok0 hpok0
  unfold BatchVerify
  rw [if_neg (by simp [hc, hp]), hcheck]
  dsimp only
  rw [idx_of_getElem? hpok0]
  dsimp only
  rw [upd_of_lt _ 0 _ (by simp)]
  dsimp only
  rw [hst]
  dsimp only
  rw [hF]
  dsimp only
  rw [upd_of_lt _ _ _ (by omega)]
  dsimp only
  rw [idx_of_getElem? hk0]
  dsimp only
  rw [upd_of_lt _ _ _ (by omega)]
  dsimp only
  have e1 : st.pairingG1.set vk.length F = scaledProofs E pok c ++ [F] := by
    have := set_last_eq_append st.pairingG1 (scaledProofs E pok c) F
      (by rw [scaledProofs_length, hl1, hp])
      (by intro k hk; rw [scaledProofs_length, hp] at hk; exact hg1 k hk)
    rw [scaledProofs_length, hp] at this
    exact this
  have e2 : st.pairingG2.set vk.length k0.G = vk.map VerifyingKey.GRootSigmaNeg ++ [k0.G] := by
    have := set_last_eq_append st.pairingG2 (vk.map VerifyingKey.GRootSigmaNeg) k0.G
      (by rw [List.length_map, hl2])
      (by intro k hk; rw [List.length_map] at hk; exact hg2 k hk)
    rw [List.length_map] at this
    exact this
  rw [e1, e2]
  unfold PairingCheck
  rw [if_neg (by simp [scaledProofs_length, hp])]
  dsimp only
  rw [List.zipWith_append _ _ _ _ _ (by simp [scaledProofs_length, hp])]
  simp only [List.zipWith_cons_cons, List.zipWith_nil_right, List.prod_append,
    List.prod_cons, List.prod_nil, mul_one]
  by_cases h : (List.zipWith E.pairing (scaledProofs E pok c)
      (vk.map VerifyingKey.GRootSigmaNeg)).prod * E.pairing F k0.G = 1 <;> simp [h]

/-! ## The pairing product of `BatchVerify` -/

theorem getElem?_eq_some_getD {α : Type} (l : List α) (d : α) (k : ℕ) (hk : k < l.length) :
    l[k]? = some (l.getD k d) := by
  rw [List.getD_eq_getElem?_getD, List.getElem?_eq_getElem hk]
  rfl

theorem getD_of_getElem? {α : Type} (l : List α) (d a : α) (k : ℕ) (h : l[k]? = some a) :
    l.getD k d = a := by
  rw [List.getD_eq_getElem?_getD, h]
  rfl

theorem zipWith_eq_map_range {α β γ : Type} (f : α → β → γ) (A : List α) (B : List β)
    (a0 : α) (b0 : β) (n : ℕ) (hA : A.length = n) (hB : B.length = n) :
    List.zipWith f A B = (List.range n).map (fun k => f (A.getD k a0) (B.getD k b0)) := by
  apply List.ext_getElem?
  intro k
  by_cases hk : k < n
  · rw [List.getElem?_zipWith, getElem?_eq_some_getD A a0 k (by omega),
      getElem?_eq_some_getD B b0 k (by omega), List.getElem?_map, List.getElem?_range hk]
    rfl
  · rw [List.getElem?_eq_none (by simp; omega), List.getElem?_eq_none (by simp; omega)]

theorem Curve.Lawful.mem1_getD {E : Curve} (hE : E.Lawful) (l : List E.G1Affine)
    (h : ∀ P ∈ l, E.IsInSubGroup1 P = true) (k : ℕ) : E.IsInSubGroup1 (l.getD k 0) = true := by
  by_cases hk : k < l.length
  · exact h _ (List.getElem?_mem (getElem?_eq_some_getD l 0 k hk))
  · rw [List.getD_eq_getElem?_getD, List.getElem?_eq_none (by omega)]
    exact hE.zero_mem1

theorem Curve.Lawful.mem2_getD {E : Curve} (hE : E.Lawful) (l : List E.G2Affine)
    (h : ∀ Q ∈ l, E.IsInSubGroup2 Q = true) (k : ℕ) : E.IsInSubGroup2 (l.getD k 0) = true := by
  by_cases hk : k < l.length
  · exact h _ (List.getElem?_mem (getElem?_eq_some_getD l 0 k hk))
  · rw [List.getD_eq_getElem?_getD, List.getElem?_eq_none (by omega)]
    exact hE.zero_mem2

/-- The challenge to the power zero acts as the identity. -/
theorem Curve.Lawful.bigInt_pow_zero {E : Curve} (hE : E.Lawful) (c : E.Element) :
    BigInt E (c ^ 0) = 1 := by
  haveI : Fact (1 < E.Modulus) := ⟨hE.one_lt_modulus⟩
  unfold BigInt
  rw [pow_zero, ZMod.val_one]
  rfl

/-- The weighted sum as a sum over the positions. -/
theorem weightedSum_eq_sum_range (E : Curve) (points : List E.G1Affine) (c : E.Element) :
    weightedSum E points (powers E c points.length) =
      ((List.range points.length).map
        (fun k => BigInt E (c ^ k) • points.getD k 0)).sum := by
  unfold weightedSum
  rw [zipWith_eq_map_range _ points (powers E c points.length) 0 0 points.length rfl
    (powers_length E c _)]
  congr 1
  apply List.map_congr_left
  intro k hk
  rw [getD_of_getElem? _ 0 _ k (powers_getElem? E c _ k (List.mem_range.1 hk))]

/-- With at least one commitment, all in the subgroup, `FoldCommitments` returns the
sum of the commitments weighted by the powers of the challenge. -/
theorem Curve.Lawful.FoldCommitments_eq {E : Curve} (hE : E.Lawful)
    (commitments : List E.G1Affine) (c : E.Element) (hn : 1 ≤ commitments.length)
    (h : ∀ q ∈ commitments, E.IsInSubGroup1 q = true) :
    FoldCommitments E commitments c =
      .ok ((List.range commitments.length).map
        (fun k => BigInt E (c ^ k) • commitments.getD k 0)).sum := by
  by_cases h1 : commitments.length = 1
  · unfold FoldCommitments
    rw [if_pos h1, h1, idx_of_getElem? (getElem?_eq_some_getD commitments 0 0 (by omega))]
    have hr : List.range 1 = [0] := rfl
    rw [hr, List.map_cons, List.map_nil, List.sum_cons, List.sum_nil, add_zero,
      hE.bigInt_pow_zero c, one_zsmul]
  · rw [FoldCommitments_of_two_le E commitments c (by omega) h, weightedSum_eq_sum_range]

/-- The pairing of a sum of subgroup points is the product of the pairings. -/
theorem Curve.Lawful.pairing_sum_range {E : Curve} (hE : E.Lawful) (g : ℕ → E.G1Affine)
    (hg : ∀ k, E.IsInSubGroup1 (g k) = true) (Q : E.G2Affine) (hQ : E.IsInSubGroup2 Q = true)
    (n : ℕ) :
    E.pairing ((List.range n).map g).sum Q = ((List.range n).map (fun k => E.pairing (g k) Q)).prod := by
  induction n with
  | zero => simpa using hE.pairing_zero_left Q hQ
  | succ n ih =>
    rw [List.range_succ, List.map_append, List.map_append, List.sum_append, List.prod_append,
      hE.pairing_add_left _ _ Q (hE.mem1_sum _ (by
        intro P hP
        obtain ⟨k, _, rfl⟩ := List.mem_map.1 hP
        exact hg k)) (by simpa using hg n) hQ, ih]
    simp

/-- The first loop of `BatchVerify` passes exactly when every point is in the
subgroup and every key has the generator of `vk[0]`. -/
theorem BatchVerify.check_loop_iff {E : Curve} (vk : List (VerifyingKey E))
    (commitments pok : List E.G1Affine) (hc : commitments.length = vk.length)
    (hp : pok.length = vk.length) :
    forRange 0 pok.length (BatchVerify.checkBody vk commitments pok) () = .ok () ↔
      (∀ p ∈ pok, E.IsInSubGroup1 p = true) ∧ (∀ q ∈ commitments, E.IsInSubGroup1 q = true) ∧
      (∀ i, i < vk.length → vk[i]?.map VerifyingKey.G = vk[0]?.map VerifyingKey.G) := by
  unfold forRange
  rw [Nat.sub_zero]
  have body : ∀ i, i < vk.length → ∀ p q, pok[i]? = some p → commitments[i]? = some q →
      (BatchVerify.checkBody vk commitments pok i () = .ok () ↔
        E.IsInSubGroup1 p = true ∧ E.IsInSubGroup1 q = true ∧
          vk[i]?.map VerifyingKey.G = vk[0]?.map VerifyingKey.G) := by
    intro i hi p q hpi hqi
    obtain ⟨ki, hki, _⟩ := getElem?_of_lt_length vk i hi
    obtain ⟨k0, hk0, _⟩ := getElem?_of_lt_length vk 0 (by omega)
    rw [BatchVerify.checkBody_eq vk commitments pok i p q ki k0 hpi hqi hki hk0, hki, hk0]
    by_cases hi0 : i = 0
    · subst hi0
      rw [hk0] at hki
      cases hki
      cases h1 : E.IsInSubGroup1 p <;> cases h2 : E.IsInSubGroup1 q <;> simp
    · cases h1 : E.IsInSubGroup1 p <;> cases h2 : E.IsInSubGroup1 q <;>
        by_cases h3 : ki.G = k0.G <;> simp [hi0, h3]
  constructor
  · intro h
    have hall := loop_unit_ok_inv _ pok.length 0 h
    refine ⟨?_, ?_, ?_⟩
    · intro p hmem
      obtain ⟨i, hi⟩ := List.mem_iff_getElem?.1 hmem
      have hlt : i < pok.length := by
        by_contra hcon
        rw [List.getElem?_eq_none (by omega)] at hi
        cases hi
      obtain ⟨q, hq, _⟩ := getElem?_of_lt_length commitments i (by omega)
      exact ((body i (by omega) p q hi hq).1 (hall i (Nat.zero_le i) (by omega))).1
    · intro q hmem
      obtain ⟨i, hi⟩ := List.mem_iff_getElem?.1 hmem
      have hlt : i < commitments.length := by
        by_contra hcon
        rw [List.getElem?_eq_none (by omega)] at hi
        cases hi
      obtain ⟨p, hp', _⟩ := getElem?_of_lt_length pok i (by omega)
      exact ((body i (by omega) p q hp' hi).1 (hall i (Nat.zero_le i) (by omega))).2.1
    · intro i hi
      obtain ⟨p, hp', _⟩ := getElem?_of_lt_length pok i (by omega)
      obtain ⟨q, hq, _⟩ := getElem?_of_lt_length commitments i (by omega)
      exact ((body i hi p q hp' hq).1 (hall i (Nat.zero_le i) (by omega))).2.2
  · intro ⟨h1, h2, h3⟩
    apply loop_unit_ok
    intro i _ hi
    obtain ⟨p, hp', hpm⟩ := getElem?_of_lt_length pok i (by omega)
    obtain ⟨q, hq, hqm⟩ := getElem?_of_lt_length commitments i (by omega)
    exact (body i (by omega) p q hp' hq).2 ⟨h1 p hpm, h2 q hqm, h3 i (by omega)⟩

/-- Once its checks pass, `BatchVerify` accepts exactly when the product of the
individual pairing products, each raised to its power of the challenge, is the
identity. -/
theorem Curve.Lawful.BatchVerify_accept {E : Curve} (hE : E.Lawful)
    (vk : List (VerifyingKey E)) (commitments pok : List E.G1Affine) (c : E.Element)
    (hc : commitments.length = vk.length) (hp : pok.length = vk.length)
    (hn : 1 ≤ vk.length)
    (hpok : ∀ p ∈ pok, E.IsInSubGroup1 p = true)
    (hcom : ∀ q ∈ commitments, E.IsInSubGroup1 q = true)
    (hgen : ∀ i, i < vk.length → vk[i]?.map VerifyingKey.G = vk[0]?.map VerifyingKey.G)
    (hkeys : ∀ k ∈ vk, E.IsInSubGroup2 k.G = true ∧ E.IsInSubGroup2 k.GRootSigmaNeg = true) :
    BatchVerify E vk commitments pok c =
      if ((List.range vk.length).map
          (fun k => defect E vk commitments pok k ^ BigInt E (c ^ k))).prod = 1 then .ok ()
      else .error (.error .proofRejected) := by
  obtain ⟨k0, hk0, hk0mem⟩ := getElem?_of_lt_length vk 0 (by omega)
  have hF := hE.FoldCommitments_eq commitments c (by omega) hcom
  rw [BatchVerify_eq E vk commitments pok c hc hp
    ((BatchVerify.check_loop_iff vk commitments pok hc hp).2 ⟨hpok, hcom, hgen⟩) _ hF k0 hk0]
  have hH : ∀ k, E.IsInSubGroup2 ((vk.map VerifyingKey.GRootSigmaNeg).getD k 0) = true :=
    hE.mem2_getD _ (by
      intro Q hQ
      obtain ⟨k, hk, rfl⟩ := List.mem_map.1 hQ
      exact (hkeys k hk).2)
  have hπ : ∀ k, E.IsInSubGroup1 (pok.getD k 0) = true := hE.mem1_getD pok hpok
  have hC : ∀ k, E.IsInSubGroup1 (commitments.getD k 0) = true := hE.mem1_getD commitments hcom
  have hG0 : E.IsInSubGroup2 k0.G = true := (hkeys k0 hk0mem).1
  have e1 : (List.zipWith E.pairing (scaledProofs E pok c)
      (vk.map VerifyingKey.GRootSigmaNeg)).prod =
      ((List.range vk.length).map (fun k =>
        E.pairing (pok.getD k 0) ((vk.map VerifyingKey.GRootSigmaNeg).getD k 0)
          ^ BigInt E (c ^ k))).prod := by
    rw [zipWith_eq_map_range E.pairing _ _ 0 0 vk.length (by rw [scaledProofs_length, hp])
      (by simp)]
    congr 1
    apply List.map_congr_left
    intro k hk
    have hklt : k < pok.length := by rw [hp]; exact List.mem_range.1 hk
    rw [getD_of_getElem? _ 0 _ k (scaledProofs_getElem? E pok c k _
      (getElem?_eq_some_getD pok 0 k hklt)), ← hE.pairing_zsmul_left _ _ _ (hπ k) (hH k)]
    by_cases hk0' : k = 0
    · subst hk0'
      rw [if_pos rfl, hE.bigInt_pow_zero c, one_zsmul]
    · rw [if_neg hk0', hE.smul1 _ _ (hπ k)]
  have e2 : E.pairing ((List.range commitments.length).map
      (fun k => BigInt E (c ^ k) • commitments.getD k 0)).sum k0.G =
      ((List.range vk.length).map (fun k =>
        E.pairing (commitments.getD k 0) ((vk.map VerifyingKey.G).getD k 0)
          ^ BigInt E (c ^ k))).prod := by
    rw [hE.pairing_sum_range
      (fun k => BigInt E (c ^ k) • commitments.getD k 0)
      (fun k => hE.mem1_zsmul _ _ (hC k)) k0.G hG0, hc]
    congr 1
    apply List.map_congr_left
    intro k hk
    have hklt : k < vk.length := List.mem_range.1 hk
    have hgk : (vk.map VerifyingKey.G).getD k 0 = k0.G := by
      apply getD_of_getElem?
      rw [List.getElem?_map, hgen k hklt, hk0]
      rfl
    rw [hgk]
    exact hE.pairing_zsmul_left _ _ _ (hC k) hG0
  rw [e1, e2, mul_comm, ← List.prod_map_mul]
  have e3 : (List.range vk.length).map (fun k =>
      E.pairing (commitments.getD k 0) ((vk.map VerifyingKey.G).getD k 0) ^ BigInt E (c ^ k) *
        E.pairing (pok.getD k 0) ((vk.map VerifyingKey.GRootSigmaNeg).getD k 0)
          ^ BigInt E (c ^ k)) =
      (List.range vk.length).map
        (fun k => defect E vk commitments pok k ^ BigInt E (c ^ k)) := by
    apply List.map_congr_left
    intro k _
    unfold defect
    rw [mul_zpow]
  rw [e3]

/-- The verification of the `k`-th triple of a batch, in terms of `defect`. -/
theorem Verify_getD {E : Curve} (vk : List (VerifyingKey E)) (commitments pok : List E.G1Affine)
    (k : ℕ) (key : VerifyingKey E) (C π : E.G1Affine) (hk : vk[k]? = some key)
    (hC : commitments[k]? = some C) (hπ : pok[k]? = some π) :
    key.Verify C π =
      if E.IsInSubGroup1 C = false ∨ E.IsInSubGroup1 π = false then
        .error (.error .subgroupCheckFailed)
      else if defect E vk commitments pok k = 1 then .ok ()
      else .error (.error .proofRejected) := by
  rw [key.Verify_eq]
  unfold defect
  rw [getD_of_getElem? commitments 0 C k hC, getD_of_getElem? pok 0 π k hπ,
    getD_of_getElem? (vk.map VerifyingKey.G) 0 key.G k (by rw [List.getElem?_map, hk]; rfl),
    getD_of_getElem? (vk.map VerifyingKey.GRootSigmaNeg) 0 key.GRootSigmaNeg k
      (by rw [List.getElem?_map, hk]; rfl)]

/-! ## Batch verification: completeness and soundness -/

theorem prod_range_single {M : Type} [CommMonoid M] (f : ℕ → M) (j : ℕ) :
    ∀ n, j < n → (∀ k, k < n → k ≠ j → f k = 1) → ((List.range n).map f).prod = f j := by
  intro n
  induction n with
  | zero => intro h; omega
  | succ n ih =>
    intro hj h
    rw [List.range_succ, List.map_append, List.prod_append]
    simp only [List.map_cons, List.map_nil, List.prod_cons, List.prod_nil, mul_one]
    by_cases hjn : j = n
    · subst hjn
      rw [List.prod_eq_one, one_mul]
      intro x hx
      obtain ⟨k, hk, rfl⟩ := List.mem_map.1 hx
      have := List.mem_range.1 hk
      exact h k (by omega) (by omega)
    · rw [ih (by omega) (fun k hk hne => h k (by omega) hne), h n (by omega) (by omega),
        mul_one]

/-- An element killed by the prime modulus and by a non-zero residue is the
identity. -/
theorem Curve.Lawful.eq_one_of_zpow {E : Curve} (hE : E.Lawful) (d : E.GT)
    (hd : d ^ E.Modulus = 1) (w : E.Element) (hw : w ≠ 0) (h : d ^ BigInt E w = 1) : d = 1 := by
  haveI : NeZero E.Modulus := ⟨hE.modulus_pos.ne'⟩
  unfold BigInt at h
  rw [zpow_natCast] at h
  have h1 : orderOf d ∣ E.Modulus := orderOf_dvd_of_pow_eq_one hd
  have h2 : orderOf d ∣ w.val := orderOf_dvd_of_pow_eq_one h
  have hpos : 0 < w.val := Nat.pos_of_ne_zero (by rwa [Ne, ZMod.val_eq_zero])
  have hcop : Nat.Coprime E.Modulus w.val :=
    (Nat.Prime.coprime_iff_not_dvd hE.prime).2
      (Nat.not_dvd_of_pos_of_lt hpos (ZMod.val_lt w))
  have h3 : orderOf d ∣ 1 := by
    rw [← Nat.Coprime.gcd_eq_one hcop]
    exact Nat.dvd_gcd h1 h2
  exact orderOf_eq_one_iff.1 (Nat.dvd_one.1 h3)

/-- The pairing product tested by `Verify` is killed by the modulus. -/
theorem Curve.Lawful.defect_pow_modulus {E : Curve} (hE : E.Lawful)
    (vk : List (VerifyingKey E)) (commitments pok : List E.G1Affine)
    (hpok : ∀ p ∈ pok, E.IsInSubGroup1 p = true)
    (hcom : ∀ q ∈ commitments, E.IsInSubGroup1 q = true)
    (hkeys : ∀ k ∈ vk, E.IsInSubGroup2 k.G = true ∧ E.IsInSubGroup2 k.GRootSigmaNeg = true)
    (k : ℕ) : defect E vk commitments pok k ^ E.Modulus = 1 := by
  unfold defect
  rw [mul_pow,
    hE.pairing_pow_modulus _ _ (hE.mem1_getD commitments hcom k) (hE.mem2_getD _ (by
      intro Q hQ
      obtain ⟨key, hkey, rfl⟩ := List.mem_map.1 hQ
      exact (hkeys key hkey).1) k),
    hE.pairing_pow_modulus _ _ (hE.mem1_getD pok hpok k) (hE.mem2_getD _ (by
      intro Q hQ
      obtain ⟨key, hkey, rfl⟩ := List.mem_map.1 hQ
      exact (hkeys key hkey).2) k), one_mul]

/-- `Verify` accepts exactly when both points are in the subgroup and the pairing
product is the identity. -/
theorem VerifyingKey.Verify_ok_iff {E : Curve} (vk : VerifyingKey E) (C π : E.G1Affine) :
    vk.Verify C π = .ok () ↔ E.IsInSubGroup1 C = true ∧ E.IsInSubGroup1 π = true ∧
      E.pairing C vk.G * E.pairing π vk.GRootSigmaNeg = 1 := by
  rw [vk.Verify_eq]
  cases h1 : E.IsInSubGroup1 C <;> cases h2 : E.IsInSubGroup1 π <;>
    by_cases h3 : E.pairing C vk.G * E.pairing π vk.GRootSigmaNeg = 1 <;> simp [h3]

/-- Acceptance of the `k`-th triple of a batch, in terms of `defect`. -/
theorem Verify_getD_ok_iff {E : Curve} (vk : List (VerifyingKey E))
    (commitments pok : List E.G1Affine) (k : ℕ) (key : VerifyingKey E) (C π : E.G1Affine)
    (hk : vk[k]? = some key) (hC : commitments[k]? = some C) (hπ : pok[k]? = some π) :
    key.Verify C π = .ok () ↔ E.IsInSubGroup1 C = true ∧ E.IsInSubGroup1 π = true ∧
      defect E vk commitments pok k = 1 := by
  rw [key.Verify_ok_iff]
  unfold defect
  rw [getD_of_getElem? commitments 0 C k hC, getD_of_getElem? pok 0 π k hπ,
    getD_of_getElem? (vk.map VerifyingKey.G) 0 key.G k (by rw [List.getElem?_map, hk]; rfl),
    getD_of_getElem? (vk.map VerifyingKey.GRootSigmaNeg) 0 key.GRootSigmaNeg k
      (by rw [List.getElem?_map, hk]; rfl)]

/-- C2 (counterexample): in the second toy engine, which is lawful, under a key whose
points are outside the G2 subgroup, the triple `(vk, (1,0), (3,0))` is accepted by
`Verify`, and the batch of two such triples, which share the generator, is rejected
by `BatchVerify` with the challenge `2`. -/
theorem BatchVerify_complete_counterexample :
    cofactorToy.Lawful ∧
    cofactorOffKey.Verify (1, 0) (3, 0) = .ok () ∧
    BatchVerify cofactorToy [cofactorOffKey, cofactorOffKey] [(1, 0), (1, 0)] [(3, 0), (3, 0)] 2 =
      .error (.error .proofRejected) :=
  ⟨cofactorToy_lawful, by decide, by decide⟩

/-- C2 (amended): completeness of batch verification.  For n ≥ 1 keys whose points
`G` and `GRootSigmaNeg` are in the G2 subgroup (possibly from independent setups with
different `sigma`) and that share the generator `vk[0].G`, lists of the same length
`n` and any challenge: if `vk[i].Verify(commitments[i], pok[i])` accepts for every
`i`, then `BatchVerify` accepts. -/
theorem BatchVerify_complete (E : Curve) (hE : E.Lawful) (vk : List (VerifyingKey E))
    (commitments pok : List E.G1Affine) (c : E.Element)
    (hc : commitments.length = vk.length) (hp : pok.length = vk.length)
    (hn : 1 ≤ vk.length)
    (hgen : ∀ i, i < vk.length → vk[i]?.map VerifyingKey.G = vk[0]?.map VerifyingKey.G)
    (hkeys : ∀ k ∈ vk, E.IsInSubGroup2 k.G = true ∧ E.IsInSubGroup2 k.GRootSigmaNeg = true)
    (hall : ∀ (i : ℕ) (key : VerifyingKey E) (C π : E.G1Affine), vk[i]? = some key →
      commitments[i]? = some C → pok[i]? = some π → key.Verify C π = .ok ()) :
    BatchVerify E vk commitments pok c = .ok () := by
  have each : ∀ i, i < vk.length →
      E.IsInSubGroup1 (commitments.getD i 0) = true ∧ E.IsInSubGroup1 (pok.getD i 0) = true ∧
        defect E vk commitments pok i = 1 := by
    intro i hi
    obtain ⟨key, hkey, _⟩ := getElem?_of_lt_length vk i hi
    have hC := getElem?_eq_some_getD commitments 0 i (by omega)
    have hπ := getElem?_eq_some_getD pok 0 i (by omega)
    exact (Verify_getD_ok_iff vk commitments pok i key _ _ hkey hC hπ).1
      (hall i key _ _ hkey hC hπ)
  have hpok : ∀ p ∈ pok, E.IsInSubGroup1 p = true := by
    intro p hmem
    obtain ⟨i, hi⟩ := List.mem_iff_getElem?.1 hmem
    have hlt : i < pok.length := by
      by_contra hcon
      rw [List.getElem?_eq_none (by omega)] at hi
      cases hi
    rw [← getD_of_getElem? pok 0 p i hi]
    exact (each i (by omega)).2.1
  have hcom : ∀ q ∈ commitments, E.IsInSubGroup1 q = true := by
    intro q hmem
    obtain ⟨i, hi⟩ := List.mem_iff_getElem?.1 hmem
    have hlt : i < commitments.length := by
      by_contra hcon
      rw [List.getElem?_eq_none (by omega)] at hi
      cases hi
    rw [← getD_of_getElem? commitments 0 q i hi]
    exact (each i (by omega)).1
  rw [hE.BatchVerify_accept vk commitments pok c hc hp hn hpok hcom hgen hkeys, if_pos]
  apply List.prod_eq_one
  intro x hx
  obtain ⟨k, hk, rfl⟩ := List.mem_map.1 hx
  rw [(each k (List.mem_range.1 hk)).2.2, one_zpow]

/-- Witness of C2 (amended) in the toy engine: two valid triples under the key of the toy
setup, challenge `3`. -/
theorem BatchVerify_complete_witness :
    BatchVerify toy [toyKey 1 2, toyKey 1 2] [toyPoint 3, toyPoint 1] [toyPoint 2, toyPoint 3] 3
      = .ok () :=
  BatchVerify_complete toy toy_lawful [toyKey 1 2, toyKey 1 2] [toyPoint 3, toyPoint 1]
    [toyPoint 2, toyPoint 3] 3 rfl rfl (by decide) (by decide) (by decide)
    (by
      intro i key C π h1 h2 h3
      have hi : i < 2 := by
        by_contra hcon
        rw [List.getElem?_eq_none (by simp; omega)] at h1
        cases h1
      interval_cases i <;> simp at h1 h2 h3 <;> subst h1 h2 h3 <;> decide)

/-- With keys outside the G2 subgroup a single invalid triple can pass
`BatchVerify`: in the second toy engine the first triple fails `Verify`, the second
one passes, and the batch is accepted with the challenge `2`. -/
theorem BatchVerify_off_subgroup_accepts :
    cofactorOffKey.Verify (5, 0) (0, 0) = .error (.error .proofRejected) ∧
    cofactorOffKey.Verify (1, 0) (3, 0) = .ok () ∧
    BatchVerify cofactorToy [cofactorOffKey, cofactorOffKey] [(5, 0), (1, 0)] [(0, 0), (3, 0)] 2 =
      .ok () := by
  decide

/-- C3 (counterexample): under the key of the toy setup and the challenge `3`, two
triples that each fail `Verify` with "proof rejected" are accepted by
`BatchVerify`: lists of length 2, one shared generator. -/
theorem BatchVerify_sound_counterexample :
    BatchVerify toy [toyKey 1 2, toyKey 1 2] toyCancelCommitments toyCancelProofs 3 = .ok () ∧
    (toyKey 1 2).Verify (toyPoint 4) (toyPoint 0) = .error (.error .proofRejected) ∧
    (toyKey 1 2).Verify (toyPoint 1) (toyPoint 0) = .error (.error .proofRejected) ∧
    toyCancelCommitments[0]? = some (toyPoint 4) ∧ toyCancelCommitments[1]? = some (toyPoint 1) ∧
    toyCancelProofs[0]? = some (toyPoint 0) ∧ toyCancelProofs[1]? = some (toyPoint 0) := by
  decide

/-- C3 (amended): what acceptance by `BatchVerify` says about the individual proofs.
For n ≥ 1, lists of the same length `n` and keys whose points are in the G2 subgroup,
let `d_i = e(commitments[i], vk[i].G) · e(pok[i], vk[i].GRootSigmaNeg)` be the pairing
product that `vk[i].Verify` tests (`Verify` accepts exactly when both points are in
the subgroup and `d_i` is the identity).  `BatchVerify` accepts exactly when every
`pok[i]` and `commitments[i]` is in the subgroup, every key has the generator of
`vk[0]`, and the product of the `d_i ^ (c^i)` is the identity.  In particular, when
`BatchVerify` accepts, a triple `j` whose weight `c^j` is not zero (`j = 0` or
`c ≠ 0`) verifies individually whenever all the other triples do. -/
theorem BatchVerify_sound_weighted (E : Curve) (hE : E.Lawful) (vk : List (VerifyingKey E))
    (commitments pok : List E.G1Affine) (c : E.Element)
    (hc : commitments.length = vk.length) (hp : pok.length = vk.length)
    (hn : 1 ≤ vk.length)
    (hkeys : ∀ k ∈ vk, E.IsInSubGroup2 k.G = true ∧ E.IsInSubGroup2 k.GRootSigmaNeg = true) :
    (BatchVerify E vk commitments pok c = .ok () ↔
      (∀ p ∈ pok, E.IsInSubGroup1 p = true) ∧
      (∀ q ∈ commitments, E.IsInSubGroup1 q = true) ∧
      (∀ i, i < vk.length → vk[i]?.map VerifyingKey.G = vk[0]?.map VerifyingKey.G) ∧
      ((List.range vk.length).map
        (fun k => defect E vk commitments pok k ^ BigInt E (c ^ k))).prod = 1) ∧
    (∀ (i : ℕ) (key : VerifyingKey E) (C π : E.G1Affine), vk[i]? = some key →
      commitments[i]? = some C → pok[i]? = some π →
      defect E vk commitments pok i = E.pairing C key.G * E.pairing π key.GRootSigmaNeg ∧
      (key.Verify C π = .ok () ↔ E.IsInSubGroup1 C = true ∧ E.IsInSubGroup1 π = true ∧
        defect E vk commitments pok i = 1)) ∧
    (BatchVerify E vk commitments pok c = .ok () →
      ∀ (j : ℕ) (key : VerifyingKey E) (C π : E.G1Affine), vk[j]? = some key →
      commitments[j]? = some C → pok[j]? = some π → (j = 0 ∨ c ≠ 0) →
      (∀ (i : ℕ) (key' : VerifyingKey E) (C' π' : E.G1Affine), i ≠ j → vk[i]? = some key' →
        commitments[i]? = some C' → pok[i]? = some π' → key'.Verify C' π' = .ok ()) →
      key.Verify C π = .ok ()) := by
  haveI : Fact E.Modulus.Prime := ⟨hE.prime⟩
  have hiff : BatchVerify E vk commitments pok c = .ok () ↔
      (∀ p ∈ pok, E.IsInSubGroup1 p = true) ∧
      (∀ q ∈ commitments, E.IsInSubGroup1 q = true) ∧
      (∀ i, i < vk.length → vk[i]?.map VerifyingKey.G = vk[0]?.map VerifyingKey.G) ∧
      ((List.range vk.length).map
        (fun k => defect E vk commitments pok k ^ BigInt E (c ^ k))).prod = 1 := by
    constructor
    · intro hacc
      have hcheck :
          forRange 0 pok.length (BatchVerify.checkBody vk commitments pok) () = .ok () := by
        cases h : forRange 0 pok.length (BatchVerify.checkBody vk commitments pok) () with
        | ok u => rfl
        | error f =>
          have hl : loop (BatchVerify.checkBody vk commitments pok) pok.length 0 () =
              .error f := by
            unfold forRange at h
            rw [Nat.sub_zero] at h
            exact h
          rw [BatchVerify_of_check_error vk commitments pok c f hc hp hl] at hacc
          cases hacc
      obtain ⟨hpok, hcom, hgen⟩ :=
        (BatchVerify.check_loop_iff vk commitments pok hc hp).1 hcheck
      refine ⟨hpok, hcom, hgen, ?_⟩
      rw [hE.BatchVerify_accept vk commitments pok c hc hp hn hpok hcom hgen hkeys] at hacc
      by_contra hne
      rw [if_neg hne] at hacc
      cases hacc
    · intro ⟨hpok, hcom, hgen, hprod⟩
      rw [hE.BatchVerify_accept vk commitments pok c hc hp hn hpok hcom hgen hkeys, if_pos hprod]
  refine ⟨hiff, ?_, ?_⟩
  · intro i key C π hkey hC hπ
    refine ⟨?_, Verify_getD_ok_iff vk commitments pok i key C π hkey hC hπ⟩
    unfold defect
    rw [getD_of_getElem? commitments 0 C i hC, getD_of_getElem? pok 0 π i hπ,
      getD_of_getElem? (vk.map VerifyingKey.G) 0 key.G i (by rw [List.getElem?_map, hkey]; rfl),
      getD_of_getElem? (vk.map VerifyingKey.GRootSigmaNeg) 0 key.GRootSigmaNeg i
        (by rw [List.getElem?_map, hkey]; rfl)]
  · intro hacc j key C π hkey hC hπ hj hothers
    obtain ⟨hpok, hcom, hgen, hprod⟩ := hiff.1 hacc
    have hjlt : j < vk.length := by
      by_contra hcon
      rw [List.getElem?_eq_none (by omega)] at hkey
      cases hkey
    rw [prod_range_single _ j vk.length hjlt (by
      intro k hk hkj
      obtain ⟨key', hkey', _⟩ := getElem?_of_lt_length vk k hk
      have hC' := getElem?_eq_some_getD commitments 0 k (by omega)
      have hπ' := getElem?_eq_some_getD pok 0 k (by omega)
      have := ((Verify_getD_ok_iff vk commitments pok k key' _ _ hkey' hC' hπ').1
        (hothers k key' _ _ hkj hkey' hC' hπ')).2.2
      rw [this, one_zpow])] at hprod
    have hw : c ^ j ≠ 0 := by
      rcases hj with rfl | hc0
      · rw [pow_zero]; exact one_ne_zero
      · exact pow_ne_zero j hc0
    have hd := hE.eq_one_of_zpow _
      (hE.defect_pow_modulus vk commitments pok hpok hcom hkeys j) (c ^ j) hw hprod
    exact (Verify_getD_ok_iff vk commitments pok j key C π hkey hC hπ).2
      ⟨hcom C (List.getElem?_mem hC), hpok π (List.getElem?_mem hπ), hd⟩

/-- Witness of C3 (amended) in the toy engine, under the key of the toy setup and
the challenge `3`: the two triples of the counterexample have pairing products that
are not the identity and whose weighted product is; and in an accepted batch of two
triples whose second triple verifies, the first one verifies. -/
theorem BatchVerify_sound_weighted_witness :
    ((List.range 2).map (fun k =>
      defect toy [toyKey 1 2, toyKey 1 2] toyCancelCommitments toyCancelProofs k ^
        BigInt toy ((3 : toy.Element) ^ k))).prod = 1 ∧
    defect toy [toyKey 1 2, toyKey 1 2] toyCancelCommitments toyCancelProofs 0 ≠ 1 ∧
    defect toy [toyKey 1 2, toyKey 1 2] toyCancelCommitments toyCancelProofs 1 ≠ 1 ∧
    (toyKey 1 2).Verify (toyPoint 3) (toyPoint 2) = .ok () :=
  ⟨((BatchVerify_sound_weighted toy toy_lawful [toyKey 1 2, toyKey 1 2] toyCancelCommitments
      toyCancelProofs 3 rfl rfl (by decide) (by decide)).1.1 (by decide)).2.2.2,
    by decide, by decide,
    (BatchVerify_sound_weighted toy toy_lawful [toyKey 1 2, toyKey 1 2] [toyPoint 3, toyPoint 1]
      [toyPoint 2, toyPoint 3] 3 rfl rfl (by decide) (by decide)).2.2 (by decide) 0 (toyKey 1 2)
      (toyPoint 3) (toyPoint 2) rfl rfl rfl (Or.inl rfl)
      (by
        intro i key C π hi h1 h2 h3
        have hlt : i < 2 := by
          by_contra hcon
          rw [List.getElem?_eq_none (by simp; omega)] at h1
          cases h1
        interval_cases i
        · exact absurd rfl hi
        · simp at h1 h2 h3
          subst h1 h2 h3
          decide)⟩

/-! ## The loops of `BatchProve` -/

theorem set_append_cons {α : Type} (P : List α) (a b : α) (R : List α) :
    (P ++ a :: R).set P.length b = P ++ b :: R := by
  induction P with
  | nil => rfl
  | cons x P ih => simp [ih]

theorem take_succ_of_getElem? {α : Type} (l : List α) (j : ℕ) (a : α) (h : l[j]? = some a) :
    l.take (j + 1) = l.take j ++ [a] := by
  rw [List.take_succ, h]
  rfl

theorem flatten_take_succ {α : Type} (L : List (List α)) (i : ℕ) (a : List α)
    (h : L[i]? = some a) : (L.take (i + 1)).flatten = (L.take i).flatten ++ a := by
  rw [take_succ_of_getElem? L i a h, List.flatten_append]
  simp

theorem flatten_take_length_le {α : Type} (L : List (List α)) (i : ℕ) :
    (L.take i).flatten.length ≤ L.flatten.length := by
  conv_rhs => rw [← List.take_append_drop i L, List.flatten_append, List.length_append]
  omega

/-- The inner loop of `BatchProve` writes the scaled values of one key after the
prefix already written. -/
theorem BatchProve.scale_loop {E : Curve} (values : List (List E.Element)) (i : ℕ)
    (vi : List E.Element) (hvi : values[i]? = some vi) (rI : E.Element) (P : List E.Element)
    (len m : ℕ) (hlen : len ≤ vi.length) (hm : len ≤ m) :
    forRange 0 len (BatchProve.scaleBody values i rI) (P ++ List.replicate m 0, P.length) =
      .ok (P ++ (vi.take len).map (fun x => x * rI) ++ List.replicate (m - len) 0,
        P.length + len) := by
  unfold forRange
  obtain ⟨u, hu, hInv⟩ := loop_inv (BatchProve.scaleBody values i rI)
    (fun j st => st = (P ++ (vi.take j).map (fun x => x * rI) ++ List.replicate (m - j) 0,
      P.length + j)) (len - 0) 0 (P ++ List.replicate m 0, P.length)
    (by simp)
    (by
      intro j t _ hj ht
      subst ht
      have hjlt : j < vi.length := by omega
      obtain ⟨a, ha, _⟩ := getElem?_of_lt_length vi j hjlt
      have hrep : List.replicate (m - j) (0 : E.Element) =
          0 :: List.replicate (m - (j + 1)) 0 := by
        have : m - j = (m - (j + 1)) + 1 := by omega
        rw [this, List.replicate_succ]
      have hl : (P ++ (vi.take j).map (fun x => x * rI)).length = P.length + j := by
        rw [List.length_append, List.length_map, List.length_take]
        omega
      unfold BatchProve.scaleBody
      rw [idx_of_getElem? hvi]
      dsimp only
      rw [idx_of_getElem? ha]
      dsimp only
      rw [upd_of_lt _ _ _ (by
        rw [List.length_append, hl, List.length_replicate]
        omega)]
      refine ⟨_, rfl, ?_⟩
      rw [hrep, ← hl, set_append_cons, take_succ_of_getElem? vi j a ha, List.map_append, hl]
      simp [Nat.add_assoc])
  rw [hu, hInv]
  simp

theorem copy_replicate {α : Type} (a : α) (S : List α) (m : ℕ) (h : S.length ≤ m) :
    copy (List.replicate m a) S = S ++ List.replicate (m - S.length) a := by
  unfold copy
  rw [List.length_replicate, List.take_of_length_le h, List.drop_replicate]

theorem amalgamatedBasis_getElem? {E : Curve} (pk : List (ProvingKey E)) (i : ℕ)
    (k : ProvingKey E) (h : pk[i]? = some k) :
    (amalgamatedBasis pk)[i]? = some k.BasisExpSigma := by
  unfold amalgamatedBasis
  rw [List.getElem?_map, h]
  rfl

theorem amalgamatedValues_getElem? (E : Curve) (values : List (List E.Element)) (c : E.Element)
    (i : ℕ) (v : List E.Element) (h : values[i]? = some v) :
    (amalgamatedValues E values c)[i]? = some (v.map fun x => x * c ^ i) := by
  have hi : i < values.length := by
    by_contra hcon
    rw [List.getElem?_eq_none (by omega)] at h
    cases h
  unfold amalgamatedValues
  rw [List.getElem?_zipWith, h, List.getElem?_range hi]

theorem amalgamatedValues_length (E : Curve) (values : List (List E.Element)) (c : E.Element) :
    (amalgamatedValues E values c).length = values.length := by
  simp [amalgamatedValues]

/-- The lengths of the prefixes of the amalgamated basis and scalars are those of
the value vectors. -/
theorem amalgamated_prefix_length {E : Curve} (pk : List (ProvingKey E))
    (values : List (List E.Element)) (c : E.Element) (hlen : pk.length = values.length)
    (hv : ∀ (i : ℕ) (k : ProvingKey E) (v : List E.Element), pk[i]? = some k →
      values[i]? = some v → v.length = k.Basis.length ∧
        k.BasisExpSigma.length = k.Basis.length) :
    ∀ i, i ≤ values.length →
      ((amalgamatedBasis pk).take i).flatten.length = (values.take i).flatten.length ∧
      ((amalgamatedValues E values c).take i).flatten.length =
        (values.take i).flatten.length := by
  intro i
  induction i with
  | zero => intro _; simp
  | succ i ih =>
    intro hi
    obtain ⟨h1, h2⟩ := ih (by omega)
    obtain ⟨v, hv1, _⟩ := getElem?_of_lt_length values i (by omega)
    obtain ⟨k, hk1, _⟩ := getElem?_of_lt_length pk i (by omega)
    obtain ⟨e1, e2⟩ := hv i k v hk1 hv1
    rw [flatten_take_succ _ i _ (amalgamatedBasis_getElem? pk i k hk1),
      flatten_take_succ _ i _ (amalgamatedValues_getElem? E values c i v hv1),
      flatten_take_succ _ i _ hv1, List.length_append, List.length_append, List.length_append,
      h1, h2, List.length_map, e2, e1]
    exact ⟨rfl, rfl⟩

/-- The first loop of `BatchProve` passes when every vector of values has the length
of its basis, and returns the total number of values. -/
theorem BatchProve.length_loop {E : Curve} (pk : List (ProvingKey E))
    (values : List (List E.Element)) (hlen : pk.length = values.length)
    (hv : ∀ (i : ℕ) (k : ProvingKey E) (v : List E.Element), pk[i]? = some k →
      values[i]? = some v → v.length = k.Basis.length) :
    forRange 0 pk.length (BatchProve.checkBody pk values) 0 = .ok values.flatten.length := by
  unfold forRange
  obtain ⟨u, hu, hInv⟩ := loop_inv (BatchProve.checkBody pk values)
    (fun i offset => offset = (values.take i).flatten.length) (pk.length - 0) 0 0 (by simp)
    (by
      intro j t _ hj ht
      obtain ⟨v, hv1, _⟩ := getElem?_of_lt_length values j (by omega)
      obtain ⟨k, hk1, _⟩ := getElem?_of_lt_length pk j (by omega)
      unfold BatchProve.checkBody
      rw [idx_of_getElem? hv1]
      dsimp only
      rw [idx_of_getElem? hk1]
      dsimp only
      rw [if_neg (by simpa using hv j k v hk1 hv1)]
      refine ⟨_, rfl, ?_⟩
      rw [flatten_take_succ _ j _ hv1, List.length_append, ht])
  rw [hu, hInv]
  congr 2
  rw [Nat.zero_add, Nat.sub_zero, hlen, List.take_length]

/-- The outer loop of `BatchProve` fills the amalgamated basis and scalars. -/
theorem BatchProve.fold_loop {E : Curve} (pk : List (ProvingKey E))
    (values : List (List E.Element)) (c : E.Element) (hlen : pk.length = values.length)
    (hn : 1 ≤ pk.length)
    (hv : ∀ (i : ℕ) (k : ProvingKey E) (v : List E.Element), pk[i]? = some k →
      values[i]? = some v → v.length = k.Basis.length ∧
        k.BasisExpSigma.length = k.Basis.length)
    (pk0 : ProvingKey E) (v0 : List E.Element) (hpk0 : pk[0]? = some pk0)
    (hv0 : values[0]? = some v0) :
    ∃ st, forRange 1 pk.length (BatchProve.foldBody pk values c)
        { basis := copy (List.replicate values.flatten.length 0) pk0.BasisExpSigma
          scaledValues := copy (List.replicate values.flatten.length 0) v0
          offset := v0.length
          rI := c } = .ok st ∧
      st.basis = (amalgamatedBasis pk).flatten ∧
      st.scaledValues = (amalgamatedValues E values c).flatten := by
  have hpre := amalgamated_prefix_length pk values c hlen hv
  have hle : ∀ i, (values.take i).flatten.length ≤ values.flatten.length :=
    fun i => flatten_take_length_le values i
  unfold forRange
  obtain ⟨u, hu, hb, hs, _, _⟩ := loop_inv (BatchProve.foldBody pk values c)
    (fun i st =>
      st.basis = ((amalgamatedBasis pk).take i).flatten ++
        List.replicate (values.flatten.length - (values.take i).flatten.length) 0 ∧
      st.scaledValues = ((amalgamatedValues E values c).take i).flatten ++
        List.replicate (values.flatten.length - (values.take i).flatten.length) 0 ∧
      st.offset = (values.take i).flatten.length ∧
      (i < pk.length → st.rI = c ^ i))
    (pk.length - 1) 1
    { basis := copy (List.replicate values.flatten.length 0) pk0.BasisExpSigma
      scaledValues := copy (List.replicate values.flatten.length 0) v0
      offset := v0.length
      rI := c }
    (by
      obtain ⟨e1, e2⟩ := hv 0 pk0 v0 hpk0 hv0
      have ht : (values.take 1).flatten = v0 := by
        rw [flatten_take_succ values 0 v0 hv0]
        simp
      have hl0 := hle 1
      rw [ht] at hl0
      refine ⟨?_, ?_, ?_, fun _ => (pow_one c).symm⟩
      · show copy _ _ = _
        rw [copy_replicate _ _ _ (by omega),
          flatten_take_succ _ 0 _ (amalgamatedBasis_getElem? pk 0 pk0 hpk0), ht, e2, e1]
        simp
      · show copy _ _ = _
        rw [copy_replicate _ _ _ hl0,
          flatten_take_succ _ 0 _ (amalgamatedValues_getElem? E values c 0 v0 hv0), ht]
        simp
      · exact ht.symm ▸ rfl)
    (by
      intro j t hj1 hj ⟨hb, hs, ho, hr⟩
      obtain ⟨tb, ts, toff, tr⟩ := t
      dsimp only at hb hs ho hr
      subst hb hs ho
      have hjlt : j < pk.length := by omega
      obtain ⟨vj, hvj, _⟩ := getElem?_of_lt_length values j (by omega)
      obtain ⟨kj, hkj, _⟩ := getElem?_of_lt_length pk j hjlt
      obtain ⟨e1, e2⟩ := hv j kj vj hkj hvj
      obtain ⟨p1, p2⟩ := hpre j (by omega)
      have hsucc : (values.take (j + 1)).flatten.length =
          (values.take j).flatten.length + vj.length := by
        rw [flatten_take_succ values j vj hvj, List.length_append]
      have hl1 := hle (j + 1)
      unfold BatchProve.foldBody
      rw [idx_of_getElem? hkj]
      dsimp only
      have hslice : sliceFrom (((amalgamatedBasis pk).take j).flatten ++
          List.replicate (values.flatten.length - (values.take j).flatten.length)
            (0 : E.G1Affine)) (values.take j).flatten.length =
          .ok (List.replicate (values.flatten.length - (values.take j).flatten.length) 0) := by
        unfold sliceFrom
        rw [if_pos (by rw [List.length_append, p1]; omega)]
        congr 1
        rw [← p1, List.drop_left]
      rw [hslice]
      dsimp only
      have hscale := BatchProve.scale_loop values j vj hvj tr
        ((amalgamatedValues E values c).take j).flatten kj.Basis.length
        (values.flatten.length - (values.take j).flatten.length) (by omega) (by omega)
      rw [p2] at hscale
      rw [hscale]
      dsimp only
      refine ⟨_, rfl, ?_, ?_, ?_, ?_⟩
      · dsimp only
        rw [copy_replicate _ _ _ (by omega),
          flatten_take_succ _ j _ (amalgamatedBasis_getElem? pk j kj hkj), hsucc,
          List.append_assoc, Nat.sub_sub, e2, e1]
        congr 1
        rw [← p1, List.take_left]
      · dsimp only
        rw [flatten_take_succ _ j _ (amalgamatedValues_getElem? E values c j vj hvj), hsucc,
          hr hjlt, ← e1, List.take_length, Nat.sub_sub]
      · dsimp only
        rw [hsucc, e1]
      · intro hlt
        dsimp only
        rw [if_pos hlt, hr hjlt, pow_succ])
  have hN : 1 + (pk.length - 1) = values.length := by omega
  rw [hN] at hb hs
  obtain ⟨q1, q2⟩ := hpre values.length (le_refl _)
  rw [List.take_length] at hb hs q1 q2
  have h1 : (amalgamatedBasis pk).take values.length = amalgamatedBasis pk := by
    apply List.take_of_length_le
    simp [amalgamatedBasis, hlen]
  have h2 : (amalgamatedValues E values c).take values.length = amalgamatedValues E values c := by
    apply List.take_of_length_le
    rw [amalgamatedValues_length]
  rw [h1] at hb
  rw [h2] at hs
  refine ⟨u, hu, ?_, ?_⟩
  · rw [hb, Nat.sub_self]; simp
  · rw [hs, Nat.sub_self]; simp

/-- With at least two keys and matching lengths, `BatchProve` returns the weighted
sum of the amalgamated basis by the amalgamated scalars. -/
theorem BatchProve_of_two_le (E : Curve) (pk : List (ProvingKey E))
    (values : List (List E.Element)) (c : E.Element) (hlen : pk.length = values.length)
    (hn : 2 ≤ pk.length)
    (hv : ∀ (i : ℕ) (k : ProvingKey E) (v : List E.Element), pk[i]? = some k →
      values[i]? = some v → v.length = k.Basis.length ∧
        k.BasisExpSigma.length = k.Basis.length) :
    BatchProve E pk values c =
      .ok (weightedSum E (amalgamatedBasis pk).flatten
        (amalgamatedValues E values c).flatten) := by
  obtain ⟨pk0, hpk0, _⟩ := getElem?_of_lt_length pk 0 (by omega)
  obtain ⟨v0, hv0, _⟩ := getElem?_of_lt_length values 0 (by omega)
  obtain ⟨st, hst, hb, hs⟩ := BatchProve.fold_loop pk values c hlen (by omega) hv pk0 v0 hpk0 hv0
  unfold BatchProve
  rw [if_neg (by simpa using hlen), if_neg (by omega), if_neg (by omega),
    BatchProve.length_loop pk values hlen (fun i k v h1 h2 => (hv i k v h1 h2).1)]
  dsimp only
  rw [idx_of_getElem? hpk0]
  dsimp only
  rw [idx_of_getElem? hv0]
  dsimp only
  rw [hst]
  dsimp only
  rw [hb, hs]
  apply MultiExp_eq
  obtain ⟨q1, q2⟩ := amalgamated_prefix_length pk values c hlen hv values.length (le_refl _)
  have h1 : (amalgamatedBasis pk).take values.length = amalgamatedBasis pk := by
    apply List.take_of_length_le
    simp [amalgamatedBasis, hlen]
  have h2 : (amalgamatedValues E values c).take values.length = amalgamatedValues E values c := by
    apply List.take_of_length_le
    rw [amalgamatedValues_length]
  rw [h1] at q1
  rw [h2] at q2
  rw [q1, q2]

/-! ## The batched proof -/

theorem weightedSum_append (E : Curve) (A B : List E.G1Affine) (a b : List E.Element)
    (h : A.length = a.length) :
    weightedSum E (A ++ B) (a ++ b) = weightedSum E A a + weightedSum E B b := by
  unfold weightedSum
  rw [List.zipWith_append _ _ _ _ _ h, List.sum_append]

/-- The weighted sum of amalgamated lists is the sum of the weighted sums of the
pieces. -/
theorem weightedSum_flatten (E : Curve) :
    ∀ (Bs : List (List E.G1Affine)) (Ss : List (List E.Element)),
      Bs.length = Ss.length →
      (∀ (i : ℕ) (B : List E.G1Affine) (S : List E.Element), Bs[i]? = some B → Ss[i]? = some S →
        B.length = S.length) →
      weightedSum E Bs.flatten Ss.flatten = (List.zipWith (weightedSum E) Bs Ss).sum := by
  intro Bs
  induction Bs with
  | nil => intro Ss _ _; simp [weightedSum]
  | cons B Bs ih =>
    intro Ss hlen h
    cases Ss with
    | nil => simp at hlen
    | cons S Ss =>
      rw [List.flatten_cons, List.flatten_cons, weightedSum_append E _ _ _ _ (h 0 B S (by simp) (by simp)),
        List.zipWith_cons_cons, List.sum_cons,
        ih Ss (by simpa using hlen) (fun i B' S' h1 h2 => h (i + 1) B' S' (by simpa using h1)
          (by simpa using h2))]

/-- On subgroup points, scaling every scalar by `w` scales the weighted sum by `w`. -/
theorem Curve.Lawful.weightedSum_map_mul {E : Curve} (hE : E.Lawful) (w : E.Element)
    (points : List E.G1Affine) (h : ∀ P ∈ points, E.IsInSubGroup1 P = true) :
    ∀ scalars : List E.Element,
      weightedSum E points (scalars.map fun x => x * w) =
        BigInt E w • weightedSum E points scalars := by
  induction points with
  | nil => intro scalars; simp [weightedSum]
  | cons P points ih =>
    intro scalars
    cases scalars with
    | nil => simp [weightedSum]
    | cons x scalars =>
      rw [List.map_cons, weightedSum_cons, weightedSum_cons,
        ih (fun Q hQ => h Q (List.mem_cons_of_mem P hQ))]
      unfold BigInt
      rw [smul_add, ← mul_zsmul]
      congr 1
      apply hE.zsmul_congr1 P (h P (List.mem_cons_self P points))
      rw [ZMod.val_mul, mul_comm (w.val : ℤ)]
      exact_mod_cast (Int.natCast_modEq_iff.2 (Nat.mod_modEq (x.val * w.val) E.Modulus))

theorem sum_range_zsmul {G : Type} [AddCommGroup G] (z : ℤ) (g : ℕ → G) (n : ℕ) :
    ((List.range n).map (fun k => z • g k)).sum = z • ((List.range n).map g).sum := by
  induction n with
  | zero => simp
  | succ n ih =>
    rw [List.range_succ, List.map_append, List.map_append, List.sum_append, List.sum_append, ih,
      smul_add]
    simp

/-- For keys of one `Setup` over subgroup bases, the batched proof is `sigma` times
the folded commitment, and both are computed without error. -/
theorem Setup_batch (E : Curve) (hE : E.Lawful) (bases : List (List E.G1Affine))
    (options : List (SetupOption E)) (rnd : Entropy E) (pk : List (ProvingKey E))
    (vk : VerifyingKey E) (s : ℕ) (hs : rnd.Int = .ok s)
    (hsetup : Setup E bases options rnd = .ok (pk, vk))
    (hbases : ∀ b ∈ bases, ∀ P ∈ b, E.IsInSubGroup1 P = true)
    (hn : 1 ≤ pk.length) (values : List (List E.Element)) (c : E.Element)
    (hlen : values.length = pk.length)
    (hv : ∀ (i : ℕ) (k : ProvingKey E) (v : List E.Element), pk[i]? = some k →
      values[i]? = some v → v.length = k.Basis.length) :
    ∃ F, E.IsInSubGroup1 F = true ∧
      FoldCommitments E
        (List.zipWith (fun (k : ProvingKey E) v => weightedSum E k.Basis v) pk values) c = .ok F ∧
      BatchProve E pk values c = .ok (((s : ℤ) + 1) • F) := by
  have hkey : ∀ (i : ℕ) (k : ProvingKey E), pk[i]? = some k →
      (∀ P ∈ k.Basis, E.IsInSubGroup1 P = true) ∧
      k.BasisExpSigma = k.Basis.map (fun P => ((s : ℤ) + 1) • P) := by
    intro i k hk
    obtain ⟨hb, _⟩ := Setup_key E bases options rnd pk vk s hs hsetup i k hk
    have hksub := hbases k.Basis (List.getElem?_mem hb)
    exact ⟨hksub, hE.Setup_key_smul bases options rnd pk vk s hs hsetup i k hk hksub⟩
  have hCs_len : (List.zipWith (fun (k : ProvingKey E) v => weightedSum E k.Basis v)
      pk values).length = pk.length := by
    simp [hlen]
  have hCs_get : ∀ (i : ℕ) (k : ProvingKey E) (v : List E.Element), pk[i]? = some k →
      values[i]? = some v →
      (List.zipWith (fun (k : ProvingKey E) v => weightedSum E k.Basis v) pk values).getD i 0 =
        weightedSum E k.Basis v := by
    intro i k v hk hvi
    apply getD_of_getElem?
    rw [List.getElem?_zipWith, hk, hvi]
  have hCs_mem : ∀ q ∈ List.zipWith (fun (k : ProvingKey E) v => weightedSum E k.Basis v)
      pk values, E.IsInSubGroup1 q = true := by
    intro q hq
    obtain ⟨i, hi, rfl⟩ := List.mem_iff_getElem.1 hq
    rw [List.getElem_zipWith]
    exact hE.mem1_weightedSum _
      (hkey i pk[i] (List.getElem?_eq_getElem (by rw [hCs_len] at hi; exact hi))).1 _
  have hF := hE.FoldCommitments_eq _ c (by rw [hCs_len]; exact hn) hCs_mem
  rw [hCs_len] at hF
  refine ⟨_, ?_, hF, ?_⟩
  · apply hE.mem1_sum
    intro P hP
    obtain ⟨k, _, rfl⟩ := List.mem_map.1 hP
    exact hE.mem1_zsmul _ _ (hE.mem1_getD _ hCs_mem k)
  · by_cases h1 : pk.length = 1
    · obtain ⟨pk0, hpk0, _⟩ := getElem?_of_lt_length pk 0 (by omega)
      obtain ⟨v0, hv0, _⟩ := getElem?_of_lt_length values 0 (by omega)
      unfold BatchProve
      rw [if_neg (by simp [hlen]), if_pos h1, idx_of_getElem? hpk0]
      dsimp only
      rw [idx_of_getElem? hv0]
      dsimp only
      rw [(Setup_commit_prove E hE bases options rnd pk vk s hs hsetup 0 pk0 hpk0
        (hkey 0 pk0 hpk0).1 v0 (hv 0 pk0 v0 hpk0 hv0)).2, h1]
      have hr : List.range 1 = [0] := rfl
      rw [hr, List.map_cons, List.map_nil, List.sum_cons, List.sum_nil, add_zero,
        hE.bigInt_pow_zero c, hCs_get 0 pk0 v0 hpk0 hv0]
      rw [one_zsmul]
    · have hv' : ∀ (i : ℕ) (k : ProvingKey E) (v : List E.Element), pk[i]? = some k →
          values[i]? = some v → v.length = k.Basis.length ∧
            k.BasisExpSigma.length = k.Basis.length := by
        intro i k v hk hvi
        refine ⟨hv i k v hk hvi, ?_⟩
        rw [(hkey i k hk).2, List.length_map]
      rw [BatchProve_of_two_le E pk values c hlen.symm (by omega) hv',
        weightedSum_flatten E _ _ (by simp [amalgamatedBasis, amalgamatedValues, hlen])
          (by
            intro i B S hB hS
            have hi : i < pk.length := by
              by_contra hcon
              rw [List.getElem?_eq_none (by simp [amalgamatedBasis]; omega)] at hB
              cases hB
            obtain ⟨k, hk, _⟩ := getElem?_of_lt_length pk i hi
            obtain ⟨v, hvi, _⟩ := getElem?_of_lt_length values i (by omega)
            rw [amalgamatedBasis_getElem? pk i k hk] at hB
            rw [amalgamatedValues_getElem? E values c i v hvi] at hS
            cases hB
            cases hS
            rw [List.length_map, (hv' i k v hk hvi).2, (hv' i k v hk hvi).1]),
        zipWith_eq_map_range (weightedSum E) _ _ [] [] pk.length
          (by simp [amalgamatedBasis]) (by rw [amalgamatedValues_length, hlen])]
      congr 1
      rw [← sum_range_zsmul]
      congr 1
      apply List.map_congr_left
      intro i hi
      have hilt : i < pk.length := List.mem_range.1 hi
      obtain ⟨k, hk, _⟩ := getElem?_of_lt_length pk i hilt
      obtain ⟨v, hvi, _⟩ := getElem?_of_lt_length values i (by omega)
      rw [getD_of_getElem? _ [] _ i (amalgamatedBasis_getElem? pk i k hk),
        getD_of_getElem? _ [] _ i (amalgamatedValues_getElem? E values c i v hvi),
        (hkey i k hk).2, weightedSum_map_zsmul,
        hE.weightedSum_map_mul (c ^ i) k.Basis (hkey i k hk).1 v, hCs_get i k v hk hvi]

/-- C4 (counterexample): in the second toy engine, which is lawful, `Setup` over
subgroup bases with a generator outside the G2 subgroup (given with `WithG2Point`)
and `sigma = 3` returns two proving keys and a verifying key; for the values `[3, 5]`
and `[2]` and the challenge `3` the commitments are `(6,0)` and `(1,0)`, they fold to
`(2,0)`, `BatchProve` returns `(6,0)`, and `Verify` rejects the pair. -/
theorem BatchProve_verifies_counterexample :
    cofactorToy.Lawful ∧
    Setup cofactorToy [[(1, 0), (2, 0)], [(4, 0)]] [WithG2Point cofactorToy (1, 1)]
      (cofactorEntropy 2) = .ok (cofactorProvingKeys, cofactorSetupKey) ∧
    (∀ b ∈ ([[(1, 0), (2, 0)], [(4, 0)]] : List (List cofactorToy.G1Affine)), ∀ P ∈ b,
      cofactorToy.IsInSubGroup1 P = true) ∧
    (∀ (i : ℕ) (k : ProvingKey cofactorToy) (v : List cofactorToy.Element),
      cofactorProvingKeys[i]? = some k →
      ([[3, 5], [2]] : List (List cofactorToy.Element))[i]? = some v →
      ∃ Ci, ([(6, 0), (1, 0)] : List cofactorToy.G1Affine)[i]? = some Ci ∧
        k.Commit v = .ok Ci) ∧
    FoldCommitments cofactorToy [(6, 0), (1, 0)] 3 = .ok (2, 0) ∧
    BatchProve cofactorToy cofactorProvingKeys [[3, 5], [2]] 3 = .ok (6, 0) ∧
    cofactorSetupKey.Verify (2, 0) (6, 0) = .error (.error .proofRejected) := by
  refine ⟨cofactorToy_lawful, rfl, by decide, ?_, by decide, by decide, by decide⟩
  intro i k v h1 h2
  have hi : i < 2 := by
    by_contra hcon
    rw [List.getElem?_eq_none (by simp [cofactorProvingKeys]; omega)] at h1
    cases h1
  interval_cases i <;> simp [cofactorProvingKeys] at h1 h2 <;> subst h1 h2 <;> decide

/-- C4 (amended): a batched proof verifies as a single proof.  For keys
`pk[0..n-1]`, `vk` produced by one `Setup` call (sampled `sigma` in `[1, r-1]`) with a
generator in the G2 subgroup, over subgroup bases, n ≥ 1, any challenge and value
vectors with `len(values[i]) == len(pk[i].Basis)`: every `pk[i].Commit(values[i])`
succeeds, and `vk.Verify(FoldCommitments(C, c), BatchProve(pk, values, c))`
accepts. -/
theorem BatchProve_verifies (E : Curve) (hE : E.Lawful) (bases : List (List E.G1Affine))
    (options : List (SetupOption E)) (rnd : Entropy E) (pk : List (ProvingKey E))
    (vk : VerifyingKey E) (s : ℕ) (hs : rnd.Int = .ok s) (hrange : s < E.Modulus - 1)
    (hsetup : Setup E bases options rnd = .ok (pk, vk))
    (hG : E.IsInSubGroup2 vk.G = true)
    (hbases : ∀ b ∈ bases, ∀ P ∈ b, E.IsInSubGroup1 P = true)
    (hn : 1 ≤ pk.length) (values : List (List E.Element)) (c : E.Element)
    (hlen : values.length = pk.length)
    (hv : ∀ (i : ℕ) (k : ProvingKey E) (v : List E.Element), pk[i]? = some k →
      values[i]? = some v → v.length = k.Basis.length) :
    ∃ (C : List E.G1Affine) (F π : E.G1Affine), C.length = pk.length ∧
      (∀ (i : ℕ) (k : ProvingKey E) (v : List E.Element), pk[i]? = some k →
        values[i]? = some v → ∃ Ci, C[i]? = some Ci ∧ k.Commit v = .ok Ci) ∧
      FoldCommitments E C c = .ok F ∧ BatchProve E pk values c = .ok π ∧
      vk.Verify F π = .ok () := by
  obtain ⟨F, hFmem, hF, hπ⟩ := Setup_batch E hE bases options rnd pk vk s hs hsetup hbases hn
    values c hlen hv
  have hroot := hE.Setup_root bases options rnd pk vk s hs hsetup hG
  refine ⟨_, F, _, by simp [hlen], ?_, hF, hπ, ?_⟩
  · intro i k v hk hvi
    refine ⟨weightedSum E k.Basis v, ?_, ?_⟩
    · rw [List.getElem?_zipWith, hk, hvi]
    · obtain ⟨hb, _⟩ := Setup_key E bases options rnd pk vk s hs hsetup i k hk
      exact (Setup_commit_prove E hE bases options rnd pk vk s hs hsetup i k hk
        (hbases k.Basis (List.getElem?_mem hb)) v (hv i k v hk hvi)).1
  · rw [Verify_setup E hE vk s hrange hroot hG F F hFmem hFmem, if_pos rfl]

theorem toy_setup2 :
    Setup toy [[toyPoint 1, toyPoint 2], [toyPoint 4]] [WithG2Point toy (1, 0)] (toyEntropy 2) =
      .ok ([toyProvingKey, toyProvingKey2], toyKey 1 2) := by
  rfl

/-- Witness of C4 (amended) in the toy engine: two keys of one setup (`sigma = 3`),
values `[3, 5]` and `[2]`, challenge `3`. -/
theorem BatchProve_verifies_witness :
    ∃ (C : List toy.G1Affine) (F π : toy.G1Affine),
      C.length = [toyProvingKey, toyProvingKey2].length ∧
      (∀ (i : ℕ) (k : ProvingKey toy) (v : List toy.Element),
        [toyProvingKey, toyProvingKey2][i]? = some k →
        ([[3, 5], [2]] : List (List toy.Element))[i]? = some v →
        ∃ Ci, C[i]? = some Ci ∧ k.Commit v = .ok Ci) ∧
      FoldCommitments toy C 3 = .ok F ∧
      BatchProve toy [toyProvingKey, toyProvingKey2] [[3, 5], [2]] 3 = .ok π ∧
      (toyKey 1 2).Verify F π = .ok () :=
  BatchProve_verifies toy toy_lawful [[toyPoint 1, toyPoint 2], [toyPoint 4]]
    [WithG2Point toy (1, 0)] (toyEntropy 2) [toyProvingKey, toyProvingKey2] (toyKey 1 2) 2 rfl
    (by decide) toy_setup2 (by decide) (by decide) (by decide) [[3, 5], [2]] 3 rfl
    (by
      intro i k v h1 h2
      have hi : i < 2 := by
        by_contra hcon
        rw [List.getElem?_eq_none (by simp; omega)] at h1
        cases h1
      interval_cases i <;> simp at h1 h2 <;> subst h1 h2 <;> rfl)

/-! ## Outcomes of `BatchVerify` on non-empty input -/

/-- A loop over the unit state either succeeds or stops with the fault of one of its
iterations. -/
theorem loop_unit_cases (body : ℕ → Unit → Except Fault Unit) (P : Fault → Prop) :
    ∀ (k i : ℕ),
      (∀ j, i ≤ j → j < i + k → body j () = .ok () ∨ ∃ f, body j () = .error f ∧ P f) →
      loop body k i () = .ok () ∨ ∃ f, loop body k i () = .error f ∧ P f := by
  intro k
  induction k with
  | zero => intro i _; left; rfl
  | succ k ih =>
    intro i h
    rw [loop_succ]
    rcases h i (le_refl i) (by omega) with hok | ⟨f, hf, hP⟩
    · rw [hok]
      exact ih (i + 1) (fun j hj hlt => h j (by omega) (by omega))
    · right
      exact ⟨f, by rw [hf], hP⟩

/-- Outside the empty batch `BatchVerify` never panics: when a length differs or
there is at least one key, it accepts or returns one of its four error values. -/
theorem BatchVerify_total_of_nonempty (E : Curve) (vk : List (VerifyingKey E))
    (commitments pok : List E.G1Affine) (c : E.Element)
    (h : commitments.length ≠ vk.length ∨ pok.length ≠ vk.length ∨ 1 ≤ vk.length) :
    BatchVerify E vk commitments pok c = .ok () ∨
      BatchVerify E vk commitments pok c = .error (.error .lengthMismatch) ∨
      BatchVerify E vk commitments pok c = .error (.error .subgroupCheckFailed) ∨
      BatchVerify E vk commitments pok c = .error (.error .parameterMismatch) ∨
      BatchVerify E vk commitments pok c = .error (.error .proofRejected) := by
  by_cases hlen : commitments.length ≠ vk.length ∨ pok.length ≠ vk.length
  · right; left
    unfold BatchVerify
    rw [if_pos hlen]
  · have hc : commitments.length = vk.length := by
      by_contra hcon; exact hlen (Or.inl hcon)
    have hp : pok.length = vk.length := by
      by_contra hcon; exact hlen (Or.inr hcon)
    have hn : 1 ≤ vk.length := by
      rcases h with h | h | h
      · exact absurd hc h
      · exact absurd hp h
      · exact h
    obtain ⟨k0, hk0, _⟩ := getElem?_of_lt_length vk 0 (by omega)
    have hcases := loop_unit_cases (BatchVerify.checkBody vk commitments pok)
      (fun f => f = .error .subgroupCheckFailed ∨ f = .error .parameterMismatch) pok.length 0
      (by
        intro j _ hj
        obtain ⟨p, hp1, _⟩ := getElem?_of_lt_length pok j (by omega)
        obtain ⟨q, hq1, _⟩ := getElem?_of_lt_length commitments j (by omega)
        obtain ⟨kj, hkj, _⟩ := getElem?_of_lt_length vk j (by omega)
        rw [BatchVerify.checkBody_eq vk commitments pok j p q kj k0 hp1 hq1 hkj hk0]
        by_cases h1 : E.IsInSubGroup1 p = false ∨ E.IsInSubGroup1 q = false
        · right; exact ⟨_, by rw [if_pos h1], Or.inl rfl⟩
        · rw [if_neg h1]
          by_cases h2 : j ≠ 0 ∧ kj.G ≠ k0.G
          · right; exact ⟨_, by rw [if_pos h2], Or.inr rfl⟩
          · left; rw [if_neg h2])
    rcases hcases with hok | ⟨f, hf, hP⟩
    · have hcheck : forRange 0 pok.length (BatchVerify.checkBody vk commitments pok) () =
          .ok () := by
        unfold forRange
        rw [Nat.sub_zero]
        exact hok
      obtain ⟨_, hcom, _⟩ := (BatchVerify.check_loop_iff vk commitments pok hc hp).1 hcheck
      have hF : ∃ F, FoldCommitments E commitments c = .ok F := by
        by_cases h1 : commitments.length = 1
        · obtain ⟨q, hq, _⟩ := getElem?_of_lt_length commitments 0 (by omega)
          refine ⟨q, ?_⟩
          unfold FoldCommitments
          rw [if_pos h1, idx_of_getElem? hq]
        · exact ⟨_, FoldCommitments_of_two_le E commitments c (by omega) hcom⟩
      obtain ⟨F, hF⟩ := hF
      rw [BatchVerify_eq E vk commitments pok c hc hp hcheck F hF k0 hk0]
      by_cases hprod : (List.zipWith E.pairing (scaledProofs E pok c)
          (vk.map VerifyingKey.GRootSigmaNeg)).prod * E.pairing F k0.G = 1
      · left; rw [if_pos hprod]
      · right; right; right; right; rw [if_neg hprod]
    · have hB := BatchVerify_of_check_error vk commitments pok c f hc hp hf
      rcases hP with hP | hP
      · right; right; left; rw [hB, hP]
      · right; right; right; left; rw [hB, hP]

/-! ## `FoldCommitments`: errors and value -/

/-- The subgroup loop of `FoldCommitments` stops with "subgroup check failed" when
some commitment is outside the subgroup. -/
theorem FoldCommitments.subgroup_loop_error {E : Curve} (commitments : List E.G1Affine)
    (h : ∃ q ∈ commitments, E.IsInSubGroup1 q = false) :
    forRange 0 commitments.length (FoldCommitments.checkBody commitments) () =
      .error (.error .subgroupCheckFailed) := by
  obtain ⟨q, hq, hbad⟩ := h
  obtain ⟨m, hm⟩ := List.mem_iff_getElem?.1 hq
  have hmlt : m < commitments.length := by
    by_contra hcon
    rw [List.getElem?_eq_none (by omega)] at hm
    cases hm
  unfold forRange
  obtain ⟨f, hf, hP⟩ := loop_unit_error (FoldCommitments.checkBody commitments)
    (fun f => f = .error .subgroupCheckFailed) (commitments.length - 0) 0 m (Nat.zero_le m)
    (by omega)
    (by
      intro j _ hj
      obtain ⟨a, ha, _⟩ := getElem?_of_lt_length commitments j (by omega)
      unfold FoldCommitments.checkBody
      rw [idx_of_getElem? ha]
      cases hin : E.IsInSubGroup1 a
      · right; exact ⟨_, by simp [hin], rfl⟩
      · left; simp [hin])
    (by
      refine ⟨_, ?_, rfl⟩
      unfold FoldCommitments.checkBody
      rw [idx_of_getElem? hm]
      simp [hbad])
  rw [hf, hP]

/-- With at least two commitments, one of them outside the subgroup,
`FoldCommitments` returns "subgroup check failed". -/
theorem FoldCommitments_of_invalid (E : Curve) (commitments : List E.G1Affine) (c : E.Element)
    (hn : 2 ≤ commitments.length) (h : ∃ q ∈ commitments, E.IsInSubGroup1 q = false) :
    FoldCommitments E commitments c = .error (.error .subgroupCheckFailed) := by
  unfold FoldCommitments
  rw [if_neg (by omega), if_neg (by omega)]
  simp only [upd_of_lt _ 0 _ (show 0 < (List.replicate commitments.length
      (0 : E.Element)).length by simp; omega)]
  simp only [upd_of_lt _ 1 _ (show 1 < ((List.replicate commitments.length
      (0 : E.Element)).set 0 1).length by simp; omega)]
  simp only [FoldCommitments.power_loop c commitments.length hn,
    FoldCommitments.subgroup_loop_error commitments h]

/-- With at most one commitment `FoldCommitments` returns without any check: the
identity for none, the commitment itself for one. -/
theorem FoldCommitments_of_le_one (E : Curve) (commitments : List E.G1Affine) (c : E.Element)
    (hn : commitments.length ≤ 1) :
    FoldCommitments E commitments c = .ok (commitments.getD 0 0) := by
  unfold FoldCommitments
  by_cases h1 : commitments.length = 1
  · rw [if_pos h1, idx_of_getElem? (getElem?_eq_some_getD commitments 0 0 (by omega))]
  · have h0 : commitments.length = 0 := by omega
    rw [if_neg h1, if_pos h0, List.length_eq_zero.1 h0]
    rfl

theorem exists_invalid_or_all_valid {E : Curve} (l : List E.G1Affine) :
    (∃ q ∈ l, E.IsInSubGroup1 q = false) ∨ ∀ q ∈ l, E.IsInSubGroup1 q = true := by
  by_cases h : ∃ q ∈ l, E.IsInSubGroup1 q = false
  · exact Or.inl h
  · right
    intro q hq
    cases hin : E.IsInSubGroup1 q
    · exact absurd ⟨q, hq, hin⟩ h
    · rfl

/-- C14: `FoldCommitments` returns the error "subgroup check failed" exactly when
there are at least two commitments and one of them is outside the prime-order
subgroup; with none or one commitment it returns no error (even when the single
commitment is outside the subgroup); and it has no other failure. -/
theorem FoldCommitments_error_iff (E : Curve) (commitments : List E.G1Affine) (c : E.Element) :
    (FoldCommitments E commitments c = .error (.error .subgroupCheckFailed) ↔
      2 ≤ commitments.length ∧ ∃ q ∈ commitments, E.IsInSubGroup1 q = false) ∧
    (commitments.length ≤ 1 → ∃ F, FoldCommitments E commitments c = .ok F) ∧
    ((∃ F, FoldCommitments E commitments c = .ok F) ∨
      FoldCommitments E commitments c = .error (.error .subgroupCheckFailed)) ∧
    Err.subgroupCheckFailed.message = "subgroup check failed" := by
  refine ⟨⟨?_, ?_⟩, ?_, ?_, rfl⟩
  · intro h
    by_cases hn : commitments.length ≤ 1
    · rw [FoldCommitments_of_le_one E commitments c hn] at h
      cases h
    · refine ⟨by omega, ?_⟩
      rcases exists_invalid_or_all_valid commitments with hbad | hall
      · exact hbad
      · rw [FoldCommitments_of_two_le E commitments c (by omega) hall] at h
        cases h
  · intro ⟨hn, hbad⟩
    exact FoldCommitments_of_invalid E commitments c hn hbad
  · intro hn
    exact ⟨_, FoldCommitments_of_le_one E commitments c hn⟩
  · by_cases hn : commitments.length ≤ 1
    · left; exact ⟨_, FoldCommitments_of_le_one E commitments c hn⟩
    · rcases exists_invalid_or_all_valid commitments with hbad | hall
      · right; exact FoldCommitments_of_invalid E commitments c (by omega) hbad
      · left; exact ⟨_, FoldCommitments_of_two_le E commitments c (by omega) hall⟩

/-- Witness of C14 in the toy engine: a single commitment outside the subgroup is
returned without error. -/
theorem FoldCommitments_error_iff_witness :
    ∃ F, FoldCommitments toy [toyBadPoint 1] 3 = .ok F :=
  (FoldCommitments_error_iff toy [toyBadPoint 1] 3).2.1 (by decide)

/-- C13: whenever `FoldCommitments` returns no error, its result is the sum of the
`c^i · commitments[i]`, the weights being the slice `r` that the code fills with
`r[0] = 1`, `r[1] = c`, `r[i] = r[i-1] · r[1]`; it is the identity for no commitment
and the commitment itself for a single one. -/
theorem FoldCommitments_sum (E : Curve) (hr : 1 < E.Modulus) (commitments : List E.G1Affine)
    (c : E.Element) (F : E.G1Affine) (h : FoldCommitments E commitments c = .ok F) :
    F = weightedSum E commitments (powers E c commitments.length) ∧
    (2 ≤ commitments.length →
      forRange 2 commitments.length FoldCommitments.powerBody
        (((List.replicate commitments.length (0 : E.Element)).set 0 1).set 1 c) =
        .ok (powers E c commitments.length)) ∧
    (0 < commitments.length → (powers E c commitments.length)[0]? = some 1) ∧
    (∀ i, i + 1 < commitments.length → ∃ a, (powers E c commitments.length)[i]? = some a ∧
      (powers E c commitments.length)[i + 1]? = some (a * c)) ∧
    (commitments = [] → F = 0) ∧ (∀ C, commitments = [C] → F = C) := by
  haveI : Fact (1 < E.Modulus) := ⟨hr⟩
  have hle1 : commitments.length ≤ 1 → F = commitments.getD 0 0 := by
    intro hn
    rw [FoldCommitments_of_le_one E commitments c hn] at h
    cases h
    rfl
  refine ⟨?_, fun hn => FoldCommitments.power_loop c commitments.length hn, ?_, ?_, ?_, ?_⟩
  · by_cases hn : commitments.length ≤ 1
    · rw [hle1 hn]
      match commitments, hn with
      | [], _ => simp [weightedSum]
      | [C], _ =>
        have hp : powers E c 1 = [1] := by
          unfold powers
          have hr1 : List.range 1 = [0] := rfl
          rw [hr1, List.map_cons, List.map_nil, pow_zero]
        show C = weightedSum E [C] (powers E c 1)
        rw [hp, weightedSum_cons, weightedSum_nil_left, add_zero]
        unfold BigInt
        rw [ZMod.val_one, Nat.cast_one, one_zsmul]
      | _ :: _ :: _, hn => simp at hn
    · rcases exists_invalid_or_all_valid commitments with hbad | hall
      · rw [FoldCommitments_of_invalid E commitments c (by omega) hbad] at h
        cases h
      · rw [FoldCommitments_of_two_le E commitments c (by omega) hall] at h
        cases h
        rfl
  · intro hn
    rw [powers_getElem? E c _ 0 hn, pow_zero]
  · intro i hi
    exact ⟨c ^ i, powers_getElem? E c _ i (by omega),
      by rw [powers_getElem? E c _ (i + 1) hi, pow_succ]⟩
  · intro hnil
    subst hnil
    exact hle1 (by simp)
  · intro C hC
    subst hC
    exact hle1 (by simp)

/-- Witness of C13 in the toy engine: three commitments under the challenge `3`. -/
theorem FoldCommitments_sum_witness :
    toyPoint 4 = weightedSum toy [toyPoint 4, toyPoint 4, toyPoint 1] (powers toy 3 3) :=
  (FoldCommitments_sum toy (by decide) [toyPoint 4, toyPoint 4, toyPoint 1] 3 (toyPoint 4)
    (by decide)).1

/-! ## Length enforcement -/

/-- A loop stops with the fault of the first iteration that fails whatever the
state, when the iterations before it succeed or stop with a fault in `P`. -/
theorem loop_error {σ : Type} (body : ℕ → σ → Except Fault σ) (P : Fault → Prop) :
    ∀ (k i m : ℕ) (s : σ), i ≤ m → m < i + k →
      (∀ j t, i ≤ j → j < m → (∃ u, body j t = .ok u) ∨ ∃ f, body j t = .error f ∧ P f) →
      (∀ t, ∃ f, body m t = .error f ∧ P f) →
      ∃ f, loop body k i s = .error f ∧ P f := by
  intro k
  induction k with
  | zero => intro i m _ h1 h2; omega
  | succ k ih =>
    intro i m s h1 h2 hbefore hm
    rw [loop_succ]
    by_cases him : i = m
    · subst him
      obtain ⟨f, hf, hP⟩ := hm s
      exact ⟨f, by rw [hf], hP⟩
    · rcases hbefore i s (le_refl i) (by omega) with ⟨u, hu⟩ | ⟨f, hf, hP⟩
      · rw [hu]
        exact ih (i + 1) m u (by omega) (by omega)
          (fun j t hj hlt => hbefore j t (by omega) hlt) hm
      · exact ⟨f, by rw [hf], hP⟩

theorem BatchProve.lengthBody_eq {E : Curve} (pk : List (ProvingKey E))
    (values : List (List E.Element)) (i : ℕ) (k : ProvingKey E) (v : List E.Element)
    (hk : pk[i]? = some k) (hv : values[i]? = some v) (offset : ℕ) :
    BatchProve.checkBody pk values i offset =
      if v.length ≠ k.Basis.length then .error (.error .valuesBasis)
      else .ok (offset + v.length) := by
  unfold BatchProve.checkBody
  rw [idx_of_getElem? hv]
  dsimp only
  rw [idx_of_getElem? hk]

/-- With one key `BatchProve` is `ProveKnowledge`. -/
theorem BatchProve_of_one (E : Curve) (k : ProvingKey E) (v : List E.Element) (c : E.Element) :
    BatchProve E [k] [v] c = k.ProveKnowledge v := by
  simp [BatchProve, idx]

/-- With at least two keys and as many vectors, one of which has not the length of
its basis, `BatchProve` returns the length error. -/
theorem BatchProve_of_bad_length (E : Curve) (pk : List (ProvingKey E))
    (values : List (List E.Element)) (c : E.Element) (hlen : pk.length = values.length)
    (hn : 2 ≤ pk.length)
    (hbad : ∃ (i : ℕ) (k : ProvingKey E) (v : List E.Element), pk[i]? = some k ∧
      values[i]? = some v ∧ v.length ≠ k.Basis.length) :
    BatchProve E pk values c = .error (.error .valuesBasis) := by
  obtain ⟨m, k, v, hk, hv, hne⟩ := hbad
  have hm : m < pk.length := by
    by_contra hcon
    rw [List.getElem?_eq_none (by omega)] at hk
    cases hk
  obtain ⟨f, hf, hP⟩ := loop_error (BatchProve.checkBody pk values)
    (fun f => f = .error .valuesBasis) (pk.length - 0) 0 m 0 (Nat.zero_le m) (by omega)
    (by
      intro j t _ hj
      obtain ⟨kj, hkj, _⟩ := getElem?_of_lt_length pk j (by omega)
      obtain ⟨vj, hvj, _⟩ := getElem?_of_lt_length values j (by omega)
      rw [BatchProve.lengthBody_eq pk values j kj vj hkj hvj t]
      by_cases hl : vj.length ≠ kj.Basis.length
      · right; exact ⟨_, by rw [if_pos hl], rfl⟩
      · left; exact ⟨_, by rw [if_neg hl]⟩)
    (by
      intro t
      refine ⟨_, ?_, rfl⟩
      rw [BatchProve.lengthBody_eq pk values m k v hk hv t, if_pos hne])
  unfold BatchProve
  rw [if_neg (by simpa using hlen), if_neg (by omega), if_neg (by omega)]
  unfold forRange
  rw [hf, hP]

/-- C11: length enforcement.  For a proving key with `len(Basis) ==
len(BasisExpSigma)`, `Commit` and `ProveKnowledge` return an error exactly when
`len(values) != len(pk.Basis)`.  `BatchProve` returns an error whenever `len(pk) !=
len(values)` or some `len(values[i]) != len(pk[i].Basis)`, for every number of keys
(one key included), and returns no error when all these lengths agree (every key
having `len(Basis) == len(BasisExpSigma)`). -/
theorem length_enforcement (E : Curve) :
    (∀ (k : ProvingKey E) (values : List E.Element),
      k.Basis.length = k.BasisExpSigma.length →
      (values.length ≠ k.Basis.length →
        k.Commit values = .error (.error .valuesBasis) ∧
        k.ProveKnowledge values = .error (.error .valuesBasis)) ∧
      (values.length = k.Basis.length →
        ∃ C π, k.Commit values = .ok C ∧ k.ProveKnowledge values = .ok π)) ∧
    (∀ (pk : List (ProvingKey E)) (values : List (List E.Element)) (c : E.Element),
      (pk.length ≠ values.length →
        BatchProve E pk values c = .error (.error .vectorsBases)) ∧
      (pk.length = values.length →
        (∃ (i : ℕ) (k : ProvingKey E) (v : List E.Element), pk[i]? = some k ∧
          values[i]? = some v ∧ v.length ≠ k.Basis.length) →
        BatchProve E pk values c = .error (.error .valuesBasis)) ∧
      (pk.length = values.length →
        (∀ k ∈ pk, k.Basis.length = k.BasisExpSigma.length) →
        (∀ (i : ℕ) (k : ProvingKey E) (v : List E.Element), pk[i]? = some k →
          values[i]? = some v → v.length = k.Basis.length) →
        ∃ π, BatchProve E pk values c = .ok π)) ∧
    Err.valuesBasis.message = "must have as many values as basis elements" ∧
    Err.vectorsBases.message = "must have as many value vectors as bases" := by
  have single : ∀ (k : ProvingKey E) (values : List E.Element),
      k.Basis.length = k.BasisExpSigma.length →
      (values.length ≠ k.Basis.length →
        k.Commit values = .error (.error .valuesBasis) ∧
        k.ProveKnowledge values = .error (.error .valuesBasis)) ∧
      (values.length = k.Basis.length →
        ∃ C π, k.Commit values = .ok C ∧ k.ProveKnowledge values = .ok π) := by
    intro k values hk
    constructor
    · intro hne
      unfold ProvingKey.Commit ProvingKey.ProveKnowledge
      rw [if_pos hne, if_pos hne]
      exact ⟨rfl, rfl⟩
    · intro heq
      refine ⟨weightedSum E k.Basis values, weightedSum E k.BasisExpSigma values, ?_, ?_⟩
      · unfold ProvingKey.Commit
        rw [if_neg (by simpa using heq), MultiExp_eq E _ _ heq.symm]
      · unfold ProvingKey.ProveKnowledge
        rw [if_neg (by simpa using heq), MultiExp_eq E _ _ (by rw [← hk, heq])]
  refine ⟨single, ?_, rfl, rfl⟩
  intro pk values c
  refine ⟨?_, ?_, ?_⟩
  · intro hne
    unfold BatchProve
    rw [if_pos hne]
  · intro hlen hbad
    by_cases hn : 2 ≤ pk.length
    · exact BatchProve_of_bad_length E pk values c hlen hn hbad
    · obtain ⟨i, k, v, hk, hv, hne⟩ := hbad
      match pk, values, hlen, hn with
      | [], _, _, _ => simp at hk
      | [k0], [v0], _, _ =>
        have hi : i = 0 := by
          by_contra hcon
          rw [List.getElem?_eq_none (by simp; omega)] at hk
          cases hk
        subst hi
        simp only [List.getElem?_cons_zero, Option.some.injEq] at hk hv
        subst hk hv
        rw [BatchProve_of_one]
        unfold ProvingKey.ProveKnowledge
        rw [if_pos hne]
      | _ :: _ :: _, _, _, hn => simp at hn
  · intro hlen hkeys hv
    by_cases hn : 2 ≤ pk.length
    · exact ⟨_, BatchProve_of_two_le E pk values c hlen hn (fun i k v hk hvi =>
        ⟨hv i k v hk hvi, (hkeys k (List.getElem?_mem hk)).symm⟩)⟩
    · match pk, values, hlen, hn with
      | [], [], _, _ => exact ⟨0, by simp [BatchProve]⟩
      | [k0], [v0], _, _ =>
        rw [BatchProve_of_one]
        obtain ⟨_, π, _, hπ⟩ := (single k0 v0 (hkeys k0 (by simp))).2 (hv 0 k0 v0 rfl rfl)
        exact ⟨π, hπ⟩
      | _ :: _ :: _, _, _, hn => simp at hn

/-- Witness of C11 in the toy engine: a vector too short for the toy key, alone and
as the second vector of a batch. -/
theorem length_enforcement_witness :
    (toyProvingKey.Commit [3] = .error (.error .valuesBasis) ∧
      toyProvingKey.ProveKnowledge [3] = .error (.error .valuesBasis)) ∧
    BatchProve toy [toyProvingKey, toyProvingKey2] [[3, 5]] 3 = .error (.error .vectorsBases) ∧
    BatchProve toy [toyProvingKey, toyProvingKey2] [[3, 5], [2, 4]] 3 =
      .error (.error .valuesBasis) ∧
    (∃ π, BatchProve toy [toyProvingKey, toyProvingKey2] [[3, 5], [2]] 3 = .ok π) :=
  ⟨((length_enforcement toy).1 toyProvingKey [3] rfl).1 (by decide),
   ((length_enforcement toy).2.1 [toyProvingKey, toyProvingKey2] [[3, 5]] 3).1 (by decide),
   ((length_enforcement toy).2.1 [toyProvingKey, toyProvingKey2] [[3, 5], [2, 4]] 3).2.1 rfl
     ⟨1, toyProvingKey2, [2, 4], rfl, rfl, by decide⟩,
   ((length_enforcement toy).2.1 [toyProvingKey, toyProvingKey2] [[3, 5], [2]] 3).2.2 rfl
     (by
       intro k hk
       simp only [List.mem_cons, List.mem_singleton, List.not_mem_nil, or_false] at hk
       rcases hk with rfl | rfl <;> rfl)
     (by
       intro i k v h1 h2
       have hi : i < 2 := by
         by_contra hcon
         rw [List.getElem?_eq_none (by simp; omega)] at h1
         cases h1
       interval_cases i <;> simp at h1 h2 <;> subst h1 h2 <;> rfl)⟩

/-! ## The value of `BatchProve` -/

theorem map_mul_pow_zero (E : Curve) (v : List E.Element) (c : E.Element) :
    v.map (fun x => x * c ^ 0) = v := by
  simp

/-- When the lengths agree, `BatchProve` returns the sum over the keys of the MSM of
`BasisExpSigma` by the values multiplied (in the field) by the power of the
challenge. -/
theorem BatchProve_eq_sum (E : Curve) (pk : List (ProvingKey E))
    (values : List (List E.Element)) (c : E.Element) (hlen : pk.length = values.length)
    (hv : ∀ (i : ℕ) (k : ProvingKey E) (v : List E.Element), pk[i]? = some k →
      values[i]? = some v → v.length = k.Basis.length ∧
        k.BasisExpSigma.length = k.Basis.length) :
    BatchProve E pk values c =
      .ok (List.zipWith (weightedSum E) (amalgamatedBasis pk)
        (amalgamatedValues E values c)).sum := by
  by_cases hn : 2 ≤ pk.length
  · rw [BatchProve_of_two_le E pk values c hlen hn hv,
      weightedSum_flatten E _ _ (by simp [amalgamatedBasis, amalgamatedValues, hlen])
        (by
          intro i B S hB hS
          have hi : i < pk.length := by
            by_contra hcon
            rw [List.getElem?_eq_none (by simp [amalgamatedBasis]; omega)] at hB
            cases hB
          obtain ⟨k, hk, _⟩ := getElem?_of_lt_length pk i hi
          obtain ⟨v, hvi, _⟩ := getElem?_of_lt_length values i (by omega)
          rw [amalgamatedBasis_getElem? pk i k hk] at hB
          rw [amalgamatedValues_getElem? E values c i v hvi] at hS
          cases hB
          cases hS
          rw [List.length_map, (hv i k v hk hvi).2, (hv i k v hk hvi).1])]
  · match pk, values, hlen, hn with
    | [], [], _, _ => simp [BatchProve, amalgamatedBasis]
    | [k0], [v0], _, _ =>
      obtain ⟨e1, e2⟩ := hv 0 k0 v0 rfl rfl
      rw [BatchProve_of_one]
      unfold ProvingKey.ProveKnowledge
      rw [if_neg (by simpa using e1), MultiExp_eq E _ _ (by rw [e2, e1])]
      have hB : amalgamatedBasis [k0] = [k0.BasisExpSigma] := rfl
      have hS : amalgamatedValues E [v0] c = [v0.map (fun x => x * c ^ 0)] := rfl
      rw [hB, hS, map_mul_pow_zero]
      simp
    | _ :: _ :: _, _, _, hn => simp at hn

theorem individualProofs_length (E : Curve) (pk : List (ProvingKey E))
    (values : List (List E.Element)) (hlen : pk.length = values.length) :
    (individualProofs E pk values).length = pk.length := by
  simp [individualProofs, hlen]

theorem individualProofs_getElem? (E : Curve) (pk : List (ProvingKey E))
    (values : List (List E.Element)) (i : ℕ) (k : ProvingKey E) (v : List E.Element)
    (hk : pk[i]? = some k) (hv : values[i]? = some v) :
    (individualProofs E pk values)[i]? = some (weightedSum E k.BasisExpSigma v) := by
  unfold individualProofs
  rw [List.getElem?_zipWith, hk, hv]

/-- When the `BasisExpSigma` points are in the subgroup, the value of `BatchProve` is
the sum of the individual proofs weighted by the powers of the challenge. -/
theorem Curve.Lawful.BatchProve_eq_weighted {E : Curve} (hE : E.Lawful)
    (pk : List (ProvingKey E)) (values : List (List E.Element)) (c : E.Element)
    (hlen : pk.length = values.length)
    (hv : ∀ (i : ℕ) (k : ProvingKey E) (v : List E.Element), pk[i]? = some k →
      values[i]? = some v → v.length = k.Basis.length ∧
        k.BasisExpSigma.length = k.Basis.length)
    (hsub : ∀ k ∈ pk, ∀ P ∈ k.BasisExpSigma, E.IsInSubGroup1 P = true) :
    BatchProve E pk values c =
      .ok (weightedSum E (individualProofs E pk values) (powers E c pk.length)) := by
  rw [BatchProve_eq_sum E pk values c hlen hv,
    zipWith_eq_map_range (weightedSum E) _ _ [] [] pk.length
      (by simp [amalgamatedBasis]) (by rw [amalgamatedValues_length, hlen])]
  have h := weightedSum_eq_sum_range E (individualProofs E pk values) c
  rw [individualProofs_length E pk values hlen] at h
  rw [h]
  congr 2
  apply List.map_congr_left
  intro i hi
  have hilt : i < pk.length := List.mem_range.1 hi
  obtain ⟨k, hk, hkmem⟩ := getElem?_of_lt_length pk i hilt
  obtain ⟨v, hvi, _⟩ := getElem?_of_lt_length values i (by omega)
  rw [getD_of_getElem? _ [] _ i (amalgamatedBasis_getElem? pk i k hk),
    getD_of_getElem? _ [] _ i (amalgamatedValues_getElem? E values c i v hvi),
    getD_of_getElem? _ 0 _ i (individualProofs_getElem? E pk values i k v hk hvi),
    hE.weightedSum_map_mul (c ^ i) k.BasisExpSigma (hsub k hkmem) v]

/-- The canonical representative of `-1` in the scalar field is `r - 1`. -/
theorem BigInt_neg_one (E : Curve) (h : 1 < E.Modulus) :
    BigInt E (-1) = (E.Modulus : ℤ) - 1 := by
  haveI : NeZero E.Modulus := ⟨by omega⟩
  haveI : Fact (1 < E.Modulus) := ⟨h⟩
  unfold BigInt
  rw [ZMod.neg_val, if_neg one_ne_zero, ZMod.val_one, Nat.cast_sub (by omega)]
  rfl

/-- The canonical representative of `-1 · 2` in the scalar field is `r - 2`, for a
modulus `r ≥ 3`. -/
theorem BigInt_neg_one_mul_two (E : Curve) (h : 3 ≤ E.Modulus) :
    BigInt E (-1 * 2 ^ 1) = (E.Modulus : ℤ) - 2 := by
  haveI : NeZero E.Modulus := ⟨by omega⟩
  haveI : Fact (1 < E.Modulus) := ⟨by omega⟩
  have h2 : ((2 : ℕ) : ZMod E.Modulus).val = 2 := ZMod.val_natCast_of_lt (by omega)
  have hne : ((2 : ℕ) : ZMod E.Modulus) ≠ 0 := by
    intro h0
    rw [h0, ZMod.val_zero] at h2
    cases h2
  unfold BigInt
  have e : (-1 * 2 ^ 1 : ZMod E.Modulus) = -((2 : ℕ) : ZMod E.Modulus) := by
    push_cast
    ring
  rw [e, ZMod.neg_val, if_neg hne, h2, Nat.cast_sub (by omega)]
  rfl

/-- The input of the counterexample of C12 in an arbitrary engine with an odd modulus
`r ≥ 3` and a point `T` of order two: a key without basis, a key whose
`BasisExpSigma` is `[T]`, the values `[]` and `[-1]`, the challenge `2`.  `BatchProve`
multiplies `-1` by `2` in the field and returns `(r - 2) · T = T`, while
`Σ_i c^i · (Σ_j values[i][j] · BasisExpSigma[j])` is `2 · ((r - 1) · T) = 0`. -/
theorem BatchProve_order_two (E : Curve) (hodd : Odd E.Modulus) (h3 : 3 ≤ E.Modulus)
    (B T : E.G1Affine) (hT : (2 : ℤ) • T = 0) :
    BatchProve E [{ Basis := [], BasisExpSigma := [] }, { Basis := [B], BasisExpSigma := [T] }]
      [[], [-1]] 2 = .ok T ∧
    weightedSum E (individualProofs E
      [{ Basis := [], BasisExpSigma := [] }, { Basis := [B], BasisExpSigma := [T] }]
      [[], [-1]]) (powers E 2 2) = 0 := by
  obtain ⟨m, hm⟩ := hodd
  have hr2 : (E.Modulus : ℤ) - 2 = 2 * ((m : ℤ) - 1) + 1 := by
    rw [hm]
    push_cast
    ring
  have hr1 : (E.Modulus : ℤ) - 1 = 2 * (m : ℤ) := by
    rw [hm]
    push_cast
    ring
  constructor
  · rw [BatchProve_eq_sum E _ _ 2 rfl (by
      intro i k v h1 h2
      have hi : i < 2 := by
        by_contra hcon
        rw [List.getElem?_eq_none (by simp; omega)] at h1
        cases h1
      interval_cases i <;> simp at h1 h2 <;> subst h1 h2 <;> exact ⟨rfl, rfl⟩)]
    show Except.ok (weightedSum E [] [] + (weightedSum E [T] [-1 * 2 ^ 1] + 0)) = Except.ok T
    rw [weightedSum_nil_left, weightedSum_cons, weightedSum_nil_left,
      BigInt_neg_one_mul_two E h3, hr2, add_smul, mul_smul, smul_comm, hT, smul_zero, one_smul]
    simp
  · show weightedSum E [weightedSum E [] [], weightedSum E [T] [-1]] [2 ^ 0, 2 ^ 1] = 0
    rw [weightedSum_cons, weightedSum_cons, weightedSum_nil_left,
      weightedSum_cons, weightedSum_nil_left, BigInt_neg_one E (by omega), hr1, mul_smul,
      smul_comm (2 : ℤ) (m : ℤ) T, hT]
    simp

/-- C12 (counterexample): two toy keys, the second with a `BasisExpSigma` point of
order two (outside the subgroup), values `[3, 5]` and `[-1]`, challenge `2`: the
lengths agree, `BatchProve` returns `(4, 1)`, while `Σ_i c^i · (Σ_j values[i][j] ·
BasisExpSigma[j])` is `(4, 0)`. -/
theorem BatchProve_sum_counterexample :
    ([toyProvingKey, toyOffKey].length = ([[3, 5], [-1]] : List (List toy.Element)).length ∧
      ([3, 5] : List toy.Element).length = toyProvingKey.Basis.length ∧
      toyProvingKey.Basis.length = toyProvingKey.BasisExpSigma.length ∧
      ([-1] : List toy.Element).length = toyOffKey.Basis.length ∧
      toyOffKey.Basis.length = toyOffKey.BasisExpSigma.length) ∧
    BatchProve toy [toyProvingKey, toyOffKey] [[3, 5], [-1]] 2 = .ok ((4, 1) : ZMod 7 × ZMod 2) ∧
    weightedSum toy (individualProofs toy [toyProvingKey, toyOffKey] [[3, 5], [-1]])
      (powers toy 2 2) = ((4, 0) : ZMod 7 × ZMod 2) ∧
    BatchProve toy [toyProvingKey, toyOffKey] [[3, 5], [-1]] 2 ≠
      .ok (weightedSum toy (individualProofs toy [toyProvingKey, toyOffKey] [[3, 5], [-1]])
        (powers toy 2 2)) := by
  decide

/-- C12 (amended): when `len(pk) == len(values)` and `len(values[i]) ==
len(pk[i].Basis) == len(pk[i].BasisExpSigma)` for every `i`, `BatchProve` returns no
error and the point `Σ_i Σ_j (values[i][j] · c^i) · pk[i].BasisExpSigma[j]`, the
scalars being multiplied in the field, the values of key 0 being used unscaled (also
when `c = 0`); this is `Σ_i c^i · (Σ_j values[i][j] · pk[i].BasisExpSigma[j])` when
the `BasisExpSigma` points are in the prime-order subgroup; it is the identity for no
key and exactly `pk[0].ProveKnowledge(values[0])` for one key. -/
theorem BatchProve_sum (E : Curve) (pk : List (ProvingKey E))
    (values : List (List E.Element)) (c : E.Element) (hlen : pk.length = values.length)
    (hv : ∀ (i : ℕ) (k : ProvingKey E) (v : List E.Element), pk[i]? = some k →
      values[i]? = some v → v.length = k.Basis.length ∧
        k.BasisExpSigma.length = k.Basis.length) :
    BatchProve E pk values c =
      .ok (List.zipWith (weightedSum E) (amalgamatedBasis pk)
        (amalgamatedValues E values c)).sum ∧
    (∀ v, values[0]? = some v → (amalgamatedValues E values c)[0]? = some v) ∧
    (E.Lawful → (∀ k ∈ pk, ∀ P ∈ k.BasisExpSigma, E.IsInSubGroup1 P = true) →
      BatchProve E pk values c =
        .ok (weightedSum E (individualProofs E pk values) (powers E c pk.length))) ∧
    (pk = [] → BatchProve E pk values c = .ok 0) ∧
    (∀ (k : ProvingKey E) (v : List E.Element), pk = [k] → values = [v] →
      BatchProve E pk values c = k.ProveKnowledge v) := by
  refine ⟨BatchProve_eq_sum E pk values c hlen hv, ?_, ?_, ?_, ?_⟩
  · intro v hv0
    rw [amalgamatedValues_getElem? E values c 0 v hv0, map_mul_pow_zero]
  · intro hE hsub
    exact hE.BatchProve_eq_weighted pk values c hlen hv hsub
  · intro hnil
    subst hnil
    have : values = [] := List.length_eq_zero.1 hlen.symm
    subst this
    simp [BatchProve]
  · intro k v hk hvs
    subst hk hvs
    exact BatchProve_of_one E k v c

/-- Witness of C12 (amended) in the toy engine: the two keys of the toy setup,
values `[3, 5]` and `[2]`, challenge `3`. -/
theorem BatchProve_sum_witness :
    BatchProve toy [toyProvingKey, toyProvingKey2] [[3, 5], [2]] 3 =
      .ok (weightedSum toy (individualProofs toy [toyProvingKey, toyProvingKey2] [[3, 5], [2]])
        (powers toy 3 [toyProvingKey, toyProvingKey2].length)) :=
  (BatchProve_sum toy [toyProvingKey, toyProvingKey2] [[3, 5], [2]] 3 rfl
    (by
      intro i k v h1 h2
      have hi : i < 2 := by
        by_contra hcon
        rw [List.getElem?_eq_none (by simp; omega)] at h1
        cases h1
      interval_cases i <;> simp at h1 h2 <;> subst h1 h2 <;> exact ⟨rfl, rfl⟩)).2.2.1
    toy_lawful
    (by
      intro k hk
      simp only [List.mem_cons, List.mem_singleton, List.not_mem_nil, or_false] at hk
      rcases hk with rfl | rfl <;> decide)

/-- Every individual proof is what `ProveKnowledge` returns. -/
theorem ProveKnowledge_eq_individual (E : Curve) (pk : List (ProvingKey E))
    (values : List (List E.Element)) (i : ℕ) (k : ProvingKey E) (v : List E.Element)
    (hk : pk[i]? = some k) (hvi : values[i]? = some v) (h1 : v.length = k.Basis.length)
    (h2 : k.BasisExpSigma.length = k.Basis.length) :
    ∃ π, (individualProofs E pk values)[i]? = some π ∧ k.ProveKnowledge v = .ok π := by
  refine ⟨_, individualProofs_getElem? E pk values i k v hk hvi, ?_⟩
  unfold ProvingKey.ProveKnowledge
  rw [if_neg (by simpa using h1), MultiExp_eq E _ _ (by rw [h2, h1])]

/-- C20: the amalgamated MSM equals folding the individual proofs.  For keys with
`len(Basis) == len(BasisExpSigma)` and `BasisExpSigma` points in the subgroup, value
vectors of matching lengths and any challenge, every
`pk[i].ProveKnowledge(values[i])` succeeds, and for the list `proofs` of their
results `BatchProve(pk, values, c)` returns what `FoldCommitments(proofs, c)`
returns; both weight position `i` by `c^i`. -/
theorem BatchProve_eq_fold (E : Curve) (hE : E.Lawful) (pk : List (ProvingKey E))
    (values : List (List E.Element)) (c : E.Element) (hlen : pk.length = values.length)
    (hv : ∀ (i : ℕ) (k : ProvingKey E) (v : List E.Element), pk[i]? = some k →
      values[i]? = some v → v.length = k.Basis.length ∧
        k.BasisExpSigma.length = k.Basis.length)
    (hsub : ∀ k ∈ pk, ∀ P ∈ k.BasisExpSigma, E.IsInSubGroup1 P = true)
    (proofs : List E.G1Affine) (hproofs : proofs.length = pk.length)
    (hprove : ∀ (i : ℕ) (k : ProvingKey E) (v : List E.Element), pk[i]? = some k →
      values[i]? = some v → k.ProveKnowledge v = .ok (proofs.getD i 0)) :
    BatchProve E pk values c = FoldCommitments E proofs c ∧
    BatchProve E pk values c = .ok (weightedSum E proofs (powers E c pk.length)) ∧
    (∀ (i : ℕ) (k : ProvingKey E) (v : List E.Element), pk[i]? = some k →
      values[i]? = some v → ∃ π, k.ProveKnowledge v = .ok π) := by
  have hind : proofs = individualProofs E pk values := by
    apply List.ext_getElem?
    intro i
    by_cases hi : i < pk.length
    · obtain ⟨k, hk, _⟩ := getElem?_of_lt_length pk i hi
      obtain ⟨v, hvi, _⟩ := getElem?_of_lt_length values i (by omega)
      obtain ⟨π, hπ1, hπ2⟩ := ProveKnowledge_eq_individual E pk values i k v hk hvi
        (hv i k v hk hvi).1 (hv i k v hk hvi).2
      have := hprove i k v hk hvi
      rw [hπ2] at this
      cases this
      rw [hπ1, getElem?_eq_some_getD proofs 0 i (by omega)]
    · rw [List.getElem?_eq_none (by omega),
        List.getElem?_eq_none (by rw [individualProofs_length E pk values hlen]; omega)]
  have hw := hE.BatchProve_eq_weighted pk values c hlen hv hsub
  rw [← hind] at hw
  refine ⟨?_, hw, ?_⟩
  · by_cases hn : 2 ≤ pk.length
    · rw [hw, FoldCommitments_of_two_le E proofs c (by omega) (by
        intro q hq
        rw [hind] at hq
        obtain ⟨i, hi, rfl⟩ := List.mem_iff_getElem.1 hq
        unfold individualProofs
        rw [List.getElem_zipWith]
        exact hE.mem1_weightedSum _ (hsub _ (List.getElem_mem _)) _), hproofs]
    · rw [FoldCommitments_of_le_one E proofs c (by omega)]
      match pk, values, hlen, hn with
      | [], [], _, _ => simp [BatchProve] at hproofs ⊢; rw [hproofs]; rfl
      | [k0], [v0], _, _ => rw [BatchProve_of_one]; exact hprove 0 k0 v0 rfl rfl
      | _ :: _ :: _, _, _, hn => simp at hn
  · intro i k v hk hvi
    exact ⟨_, hprove i k v hk hvi⟩

/-- Witness of C20 in the toy engine: the two keys of the toy setup, values `[3, 5]`
and `[2]`, challenge `3`. -/
theorem BatchProve_eq_fold_witness :
    BatchProve toy [toyProvingKey, toyProvingKey2] [[3, 5], [2]] 3 =
      FoldCommitments toy [toyPoint 4, toyPoint 3] 3 :=
  (BatchProve_eq_fold toy toy_lawful [toyProvingKey, toyProvingKey2] [[3, 5], [2]] 3 rfl
    (by
      intro i k v h1 h2
      have hi : i < 2 := by
        by_contra hcon
        rw [List.getElem?_eq_none (by simp; omega)] at h1
        cases h1
      interval_cases i <;> simp at h1 h2 <;> subst h1 h2 <;> exact ⟨rfl, rfl⟩)
    (by
      intro k hk
      simp only [List.mem_cons, List.mem_singleton, List.not_mem_nil, or_false] at hk
      rcases hk with rfl | rfl <;> decide)
    [toyPoint 4, toyPoint 3] rfl
    (by
      intro i k v h1 h2
      have hi : i < 2 := by
        by_contra hcon
        rw [List.getElem?_eq_none (by simp; omega)] at h1
        cases h1
      interval_cases i <;> simp at h1 h2 <;> subst h1 h2 <;> decide)).1

/-! ## The secret and the keys of `Setup` -/

/-- For a prime modulus and `sigma` in `[1, r-1]`, `ModInverse` is positive. -/
theorem ModInverse_pos (n : ℕ) (hn : n.Prime) (g : ℤ) (h0 : 0 < g) (h1 : g < n) :
    0 < ModInverse g n := by
  obtain ⟨hx0, _, hinv⟩ := ModInverse_spec n hn g h0 h1
  rcases lt_or_eq_of_le hx0 with h | h
  · exact h
  · rw [← h, mul_zero, Int.zero_emod] at hinv
    cases hinv

/-- For a prime modulus and `sigma` in `[1, r-1]`, `ModInverse` is the canonical
representative of the inverse in the scalar field. -/
theorem ModInverse_eq_val (n : ℕ) (hn : n.Prime) (g : ℤ) (h0 : 0 < g) (h1 : g < n) :
    ModInverse g n = (ZMod.val ((g : ZMod n)⁻¹) : ℤ) := by
  haveI : Fact n.Prime := ⟨hn⟩
  obtain ⟨hx0, hx1, hinv⟩ := ModInverse_spec n hn g h0 h1
  have hone : (1 : ℤ) % (n : ℤ) = 1 :=
    Int.emod_eq_of_lt (by norm_num) (by exact_mod_cast hn.one_lt)
  have hmul : ((g * ModInverse g n : ℤ) : ZMod n) = ((1 : ℤ) : ZMod n) := by
    rw [ZMod.intCast_eq_intCast_iff', hinv, hone]
  push_cast at hmul
  have hx : ((ModInverse g n : ℤ) : ZMod n) = (g : ZMod n)⁻¹ :=
    eq_inv_of_mul_eq_one_right hmul
  rw [← hx, ZMod.val_intCast, Int.emod_eq_of_lt hx0 hx1]

/-- C16: the secret is never zero and is correctly inverted.  For a prime modulus
`r` and a sampled value `s` in `[0, r-2]`, `sigma = s + 1` lies in `[1, r-1]` and
`ModInverse(sigma, r)` is its inverse modulo `r`; the exponent `sigmaInvNeg = r -
ModInverse(sigma, r)` lies in `[1, r-1]` and `sigma · sigmaInvNeg ≡ -1 (mod r)`; this
`sigma` and this exponent are the ones `Setup` uses. -/
theorem sigma_invertible (E : Curve) (hr : E.Modulus.Prime) (s : ℕ) (hs : s ≤ E.Modulus - 2) :
    (1 ≤ (s : ℤ) + 1 ∧ (s : ℤ) + 1 ≤ (E.Modulus : ℤ) - 1) ∧
    (((s : ℤ) + 1) * ModInverse ((s : ℤ) + 1) E.Modulus) % (E.Modulus : ℤ) = 1 ∧
    (1 ≤ (E.Modulus : ℤ) - ModInverse ((s : ℤ) + 1) E.Modulus ∧
      (E.Modulus : ℤ) - ModInverse ((s : ℤ) + 1) E.Modulus ≤ (E.Modulus : ℤ) - 1) ∧
    ((s : ℤ) + 1) * ((E.Modulus : ℤ) - ModInverse ((s : ℤ) + 1) E.Modulus)
      ≡ -1 [ZMOD (E.Modulus : ℤ)] ∧
    (∀ (bases : List (List E.G1Affine)) (options : List (SetupOption E)) (rnd : Entropy E)
      (pk : List (ProvingKey E)) (vk : VerifyingKey E), rnd.Int = .ok s →
      Setup E bases options rnd = .ok (pk, vk) →
      pk = bases.map (fun b =>
        { Basis := b, BasisExpSigma := b.map fun P => E.ScalarMultiplication1 P ((s : ℤ) + 1) }) ∧
      vk.GRootSigmaNeg =
        E.ScalarMultiplication2 vk.G ((E.Modulus : ℤ) - ModInverse ((s : ℤ) + 1) E.Modulus)) := by
  have h2 : 2 ≤ E.Modulus := hr.two_le
  have hlt : (s : ℤ) + 1 < (E.Modulus : ℤ) := by omega
  obtain ⟨hx0, hx1, hinv⟩ := ModInverse_spec E.Modulus hr ((s : ℤ) + 1) (by positivity) hlt
  have hpos := ModInverse_pos E.Modulus hr ((s : ℤ) + 1) (by positivity) hlt
  refine ⟨⟨by omega, by omega⟩, hinv, ⟨by omega, by omega⟩, ?_, ?_⟩
  · obtain ⟨q, hq⟩ : ∃ q : ℤ, ((s : ℤ) + 1) * ModInverse ((s : ℤ) + 1) E.Modulus =
        (E.Modulus : ℤ) * q + 1 := by
      refine ⟨(((s : ℤ) + 1) * ModInverse ((s : ℤ) + 1) E.Modulus) / (E.Modulus : ℤ), ?_⟩
      have := Int.emod_add_ediv (((s : ℤ) + 1) * ModInverse ((s : ℤ) + 1) E.Modulus)
        (E.Modulus : ℤ)
      rw [hinv] at this
      linarith
    apply Int.modEq_iff_dvd.2
    exact ⟨q - ((s : ℤ) + 1), by linear_combination hq⟩
  · intro bases options rnd pk vk hsInt hsetup
    exact Setup_eq_ok E bases options rnd pk vk s hsInt hsetup

/-- Witness of C16 in the toy engine: `s = 2`, hence `sigma = 3`, inverse `5` and
exponent `2` modulo `7`. -/
theorem sigma_invertible_witness :
    ((2 : ℕ) : ℤ) + 1 = 3 ∧ ModInverse 3 7 = 5 ∧
    (((2 : ℕ) : ℤ) + 1) * ((toy.Modulus : ℤ) - ModInverse (((2 : ℕ) : ℤ) + 1) toy.Modulus)
      ≡ -1 [ZMOD (toy.Modulus : ℤ)] :=
  ⟨by decide, by decide, (sigma_invertible toy (by norm_num [toy]) 2 (by decide)).2.2.2.1⟩

/-- The generator of the verifying key: the point of the last `WithG2Point` option,
or the sampled one when no option is given. -/
theorem Setup_generator (E : Curve) (bases : List (List E.G1Affine))
    (options : List (SetupOption E)) (rnd : Entropy E) (pk : List (ProvingKey E))
    (vk : VerifyingKey E) (h : Setup E bases options rnd = .ok (pk, vk)) :
    (options = [] → rnd.RandomOnG2 = .ok vk.G) ∧
    (∀ (g : E.G2Affine) (rest : List (SetupOption E)),
      options = rest ++ [WithG2Point E g] → vk.G = g) := by
  constructor
  · intro hnil
    subst hnil
    unfold Setup at h
    simp only [List.foldl_nil] at h
    cases hg : rnd.RandomOnG2 with
    | error f => rw [hg] at h; cases h
    | ok G =>
      rw [hg] at h
      cases hI : rnd.Int with
      | error f => rw [hI] at h; cases h
      | ok s =>
        rw [hI] at h
        cases h
        rfl
  · intro g rest hopt
    subst hopt
    unfold Setup at h
    simp only [List.foldl_append, List.foldl_cons, List.foldl_nil, WithG2Point] at h
    cases hI : rnd.Int with
    | error f => rw [hI] at h; cases h
    | ok s =>
      rw [hI] at h
      cases h
      rfl

/-- C15 (counterexample): in the second toy engine, which is lawful, `Setup` over the
basis `[(1,1)]` with `sigma = 2` returns a key whose `BasisExpSigma[0]` is `(2,1)`,
while `sigma · bases[0][0] = 2 · (1,1)` is `(2,0)`. -/
theorem Setup_structure_counterexample :
    cofactorToy.Lawful ∧
    Setup cofactorToy [[(1, 1)]] [WithG2Point cofactorToy (1, 0)] (cofactorEntropy 1) =
      .ok ([cofactorOffProvingKey], { G := (1, 0), GRootSigmaNeg := (3, 0) }) ∧
    cofactorOffProvingKey.BasisExpSigma[0]? = some ((2, 1) : ZMod 7 × ZMod 2) ∧
    (((1 : ℕ) : ℤ) + 1) • ((1, 1) : ZMod 7 × ZMod 2) = (2, 0) ∧
    cofactorOffProvingKey.BasisExpSigma[0]? ≠
      some ((((1 : ℕ) : ℤ) + 1) • ((1, 1) : ZMod 7 × ZMod 2)) :=
  ⟨cofactorToy_lawful, rfl, rfl, by decide, by decide⟩

/-- C15 (amended): the output of a successful `Setup`.  For every input bases,
sampled `s` (secret `sigma = s + 1` in `[1, r-1]`) and generator `G` (the point given
with `WithG2Point`, otherwise the sampled one): `len(pk) == len(bases)`, and for
every `i`, `pk[i].Basis == bases[i]`, `len(pk[i].BasisExpSigma) ==
len(pk[i].Basis)` and `pk[i].BasisExpSigma[j]` is the result of `ScalarMultiplication`
on `bases[i][j]` with `sigma`, which is `sigma · bases[i][j]` when `bases[i][j]` is in
the G1 subgroup; `vk.G == G` and `vk.GRootSigmaNeg` is the result of
`ScalarMultiplication` on `G` with `-(sigma^-1) mod r`, which is
`(-(sigma^-1) mod r) · G` when `G` is in the G2 subgroup. -/
theorem Setup_structure (E : Curve) (hE : E.Lawful) (bases : List (List E.G1Affine))
    (options : List (SetupOption E)) (rnd : Entropy E) (pk : List (ProvingKey E))
    (vk : VerifyingKey E) (s : ℕ) (hs : rnd.Int = .ok s) (hrange : s < E.Modulus - 1)
    (h : Setup E bases options rnd = .ok (pk, vk)) :
    pk.length = bases.length ∧
    (∀ (i : ℕ) (b : List E.G1Affine), bases[i]? = some b →
      ∃ k, pk[i]? = some k ∧ k.Basis = b ∧ k.BasisExpSigma.length = k.Basis.length ∧
        ∀ (j : ℕ) (P : E.G1Affine), b[j]? = some P →
          k.BasisExpSigma[j]? = some (E.ScalarMultiplication1 P ((s : ℤ) + 1)) ∧
          (E.IsInSubGroup1 P = true → k.BasisExpSigma[j]? = some (((s : ℤ) + 1) • P))) ∧
    (options = [] → rnd.RandomOnG2 = .ok vk.G) ∧
    (∀ (g : E.G2Affine) (rest : List (SetupOption E)),
      options = rest ++ [WithG2Point E g] → vk.G = g) ∧
    vk.GRootSigmaNeg = E.ScalarMultiplication2 vk.G
      ((-(ZMod.val ((((s : ℤ) + 1 : ℤ) : ZMod E.Modulus)⁻¹) : ℤ)) % (E.Modulus : ℤ)) ∧
    (E.IsInSubGroup2 vk.G = true → vk.GRootSigmaNeg =
      ((-(ZMod.val ((((s : ℤ) + 1 : ℤ) : ZMod E.Modulus)⁻¹) : ℤ)) % (E.Modulus : ℤ)) • vk.G) := by
  obtain ⟨hpk, hroot⟩ := Setup_eq_ok E bases options rnd pk vk s hs h
  obtain ⟨hg1, hg2⟩ := Setup_generator E bases options rnd pk vk h
  have hr := hE.prime
  have hlt : (s : ℤ) + 1 < (E.Modulus : ℤ) := by omega
  have hexp : (E.Modulus : ℤ) - ModInverse ((s : ℤ) + 1) E.Modulus =
      (-(ZMod.val ((((s : ℤ) + 1 : ℤ) : ZMod E.Modulus)⁻¹) : ℤ)) % (E.Modulus : ℤ) := by
    rw [← ModInverse_eq_val E.Modulus hr _ (by positivity) hlt]
    obtain ⟨_, hx1, _⟩ := ModInverse_spec E.Modulus hr ((s : ℤ) + 1) (by positivity) hlt
    have hpos := ModInverse_pos E.Modulus hr ((s : ℤ) + 1) (by positivity) hlt
    rw [Int.neg_emod, Int.emod_eq_of_lt (by omega) (by omega)]
  refine ⟨by rw [hpk, List.length_map], ?_, hg1, hg2, ?_, ?_⟩
  · intro i b hb
    refine ⟨_, by rw [hpk, List.getElem?_map, hb]; rfl, rfl, by simp, ?_⟩
    intro j P hP
    have hj : (b.map fun P => E.ScalarMultiplication1 P ((s : ℤ) + 1))[j]? =
        some (E.ScalarMultiplication1 P ((s : ℤ) + 1)) := by
      rw [List.getElem?_map, hP]
      rfl
    refine ⟨hj, fun hmem => ?_⟩
    rw [← hE.smul1 P _ hmem]
    exact hj
  · rw [hroot, hexp]
  · intro hG
    rw [hroot, hexp]
    exact hE.smul2 vk.G _ hG

/-- Witness of C15 (amended) in the toy engine: the setup over `[(1,0), (2,0)]` with the
generator `(1,0)` and `s = 2`. -/
theorem Setup_structure_witness :
    [toyProvingKey].length = [[toyPoint 1, toyPoint 2]].length ∧
    (toyKey 1 2).G = (1, 0) ∧
    (toyKey 1 2).GRootSigmaNeg =
      ((-(ZMod.val (((((2 : ℕ) : ℤ) + 1 : ℤ) : ZMod toy.Modulus)⁻¹) : ℤ)) % (toy.Modulus : ℤ)) •
        (toyKey 1 2).G :=
  ⟨(Setup_structure toy toy_lawful [[toyPoint 1, toyPoint 2]]
      [WithG2Point toy (1, 0)] (toyEntropy 2) [toyProvingKey] (toyKey 1 2) 2 rfl (by decide)
      toy_setup).1,
   (Setup_structure toy toy_lawful [[toyPoint 1, toyPoint 2]]
      [WithG2Point toy (1, 0)] (toyEntropy 2) [toyProvingKey] (toyKey 1 2) 2 rfl (by decide)
      toy_setup).2.2.2.1 (1, 0) [] rfl,
   (Setup_structure toy toy_lawful [[toyPoint 1, toyPoint 2]]
      [WithG2Point toy (1, 0)] (toyEntropy 2) [toyProvingKey] (toyKey 1 2) 2 rfl (by decide)
      toy_setup).2.2.2.2.2 (by decide)⟩

/-- C17 (counterexample): in the second toy engine, which is lawful, for the key that
`Setup` returns over the basis `[(1,1)]` with `sigma = 2` and the values `[1]`,
`Commit` returns `(1,1)` and `ProveKnowledge` returns `(2,1)`, while
`sigma · Commit(v) = 2 · (1,1)` is `(2,0)`. -/
theorem ProveKnowledge_eq_sigma_commit_counterexample :
    cofactorToy.Lawful ∧
    Setup cofactorToy [[(1, 1)]] [WithG2Point cofactorToy (1, 0)] (cofactorEntropy 1) =
      .ok ([cofactorOffProvingKey], { G := (1, 0), GRootSigmaNeg := (3, 0) }) ∧
    cofactorOffProvingKey.Commit [1] = .ok ((1, 1) : ZMod 7 × ZMod 2) ∧
    cofactorOffProvingKey.ProveKnowledge [1] = .ok ((2, 1) : ZMod 7 × ZMod 2) ∧
    ((2, 1) : ZMod 7 × ZMod 2) ≠ (((1 : ℕ) : ℤ) + 1) • ((1, 1) : ZMod 7 × ZMod 2) :=
  ⟨cofactorToy_lawful, rfl, by decide, by decide, by decide⟩

/-- C17 (amended): the proof is `sigma` times the commitment.  For a key `pk[i]`
produced by `Setup` with secret `sigma = s + 1` over a basis of G1 subgroup points and
a vector `v` with `len(v) == len(pk[i].Basis)`: `Commit(v)` returns
`Σ_j v[j] · Basis[j]`, `ProveKnowledge(v)` returns `Σ_j v[j] · BasisExpSigma[j]`, and
the latter is `sigma` times the former (also as `ScalarMultiplication` computes
it). -/
theorem ProveKnowledge_eq_sigma_commit (E : Curve) (hE : E.Lawful)
    (bases : List (List E.G1Affine))
    (options : List (SetupOption E)) (rnd : Entropy E) (pk : List (ProvingKey E))
    (vk : VerifyingKey E) (s : ℕ) (hs : rnd.Int = .ok s)
    (hsetup : Setup E bases options rnd = .ok (pk, vk)) (i : ℕ) (k : ProvingKey E)
    (hk : pk[i]? = some k) (hsub : ∀ P ∈ k.Basis, E.IsInSubGroup1 P = true)
    (v : List E.Element) (hv : v.length = k.Basis.length) :
    ∃ C π, k.Commit v = .ok C ∧ k.ProveKnowledge v = .ok π ∧
      π = ((s : ℤ) + 1) • C ∧ π = E.ScalarMultiplication1 C ((s : ℤ) + 1) ∧
      C = weightedSum E k.Basis v ∧ π = weightedSum E k.BasisExpSigma v := by
  obtain ⟨hc, hp⟩ :=
    Setup_commit_prove E hE bases options rnd pk vk s hs hsetup i k hk hsub v hv
  have hsig := hE.Setup_key_smul bases options rnd pk vk s hs hsetup i k hk hsub
  refine ⟨_, _, hc, hp, rfl, ?_, rfl, ?_⟩
  · rw [hE.smul1 _ _ (hE.mem1_weightedSum k.Basis hsub v)]
  · rw [hsig, weightedSum_map_zsmul]

/-- Witness of C17 (amended) in the toy engine: `sigma = 3`, basis `[(1,0), (2,0)]`, values
`[3, 5]`. -/
theorem ProveKnowledge_eq_sigma_commit_witness :
    ∃ C π, toyProvingKey.Commit [3, 5] = .ok C ∧ toyProvingKey.ProveKnowledge [3, 5] = .ok π ∧
      π = (((2 : ℕ) : ℤ) + 1) • C ∧ π = toy.ScalarMultiplication1 C (((2 : ℕ) : ℤ) + 1) ∧
      C = weightedSum toy toyProvingKey.Basis [3, 5] ∧
      π = weightedSum toy toyProvingKey.BasisExpSigma [3, 5] :=
  ProveKnowledge_eq_sigma_commit toy toy_lawful [[toyPoint 1, toyPoint 2]]
    [WithG2Point toy (1, 0)]
    (toyEntropy 2) [toyProvingKey] (toyKey 1 2) 2 rfl toy_setup 0 toyProvingKey rfl (by decide)
    [3, 5] rfl

/-! ## The pairing equation of `BatchVerify` -/

theorem PairingCheck_append (E : Curve) (A : List E.G1Affine) (B : List E.G2Affine)
    (F : E.G1Affine) (G : E.G2Affine) (h : A.length = B.length) :
    PairingCheck E (A ++ [F]) (B ++ [G]) =
      .ok (decide ((List.zipWith E.pairing (A ++ [F]) (B ++ [G])).prod = 1)) ∧
    (List.zipWith E.pairing (A ++ [F]) (B ++ [G])).prod =
      (List.zipWith E.pairing A B).prod * E.pairing F G := by
  constructor
  · unfold PairingCheck
    rw [if_neg (by simp [h])]
  · rw [List.zipWith_append _ _ _ _ _ h]
    simp

/-- C19: the n+1-term pairing equation of `BatchVerify`.  For n ≥ 1 keys and an input
that passes the length, subgroup and shared-generator checks, `FoldCommitments`
succeeds and `BatchVerify` is the pairing check on exactly n+1 pairs: pair `i < n`
is `(c^i · pok[i], vk[i].GRootSigmaNeg)`, with `pok[0]` itself at `i = 0`, and pair
`n` is `(FoldCommitments(commitments, c), vk[0].G)`.  It returns nil exactly when
the product of these pairings is the identity and "proof rejected" otherwise; the
powers `c^i` are those `FoldCommitments` applies to `commitments[i]`.  The point
`c^i · pok[i]` is the result of `ScalarMultiplication`, which for a lawful engine is
the multiple of `pok[i]` (a subgroup point) by `c^i`. -/
theorem BatchVerify_pairing_equation (E : Curve) (vk : List (VerifyingKey E))
    (commitments pok : List E.G1Affine) (c : E.Element)
    (hc : commitments.length = vk.length) (hp : pok.length = vk.length)
    (hpok : ∀ p ∈ pok, E.IsInSubGroup1 p = true)
    (hcom : ∀ q ∈ commitments, E.IsInSubGroup1 q = true)
    (hgen : ∀ i, i < vk.length → vk[i]?.map VerifyingKey.G = vk[0]?.map VerifyingKey.G)
    (k0 : VerifyingKey E) (hk0 : vk[0]? = some k0) :
    ∃ F, FoldCommitments E commitments c = .ok F ∧
      BatchVerify E vk commitments pok c =
        (match PairingCheck E (scaledProofs E pok c ++ [F])
            (vk.map VerifyingKey.GRootSigmaNeg ++ [k0.G]) with
          | .error f => .error f
          | .ok isOne => if !isOne then .error (.error .proofRejected) else .ok ()) ∧
      (scaledProofs E pok c ++ [F]).length = vk.length + 1 ∧
      (vk.map VerifyingKey.GRootSigmaNeg ++ [k0.G]).length = vk.length + 1 ∧
      (∀ p, pok[0]? = some p → (scaledProofs E pok c)[0]? = some p) ∧
      (∀ (i : ℕ) (p : E.G1Affine), 0 < i → pok[i]? = some p →
        (scaledProofs E pok c)[i]? = some (E.ScalarMultiplication1 p (BigInt E (c ^ i)))) ∧
      (E.Lawful → ∀ (i : ℕ) (p : E.G1Affine), 0 < i → pok[i]? = some p →
        (scaledProofs E pok c)[i]? = some (BigInt E (c ^ i) • p)) ∧
      (∀ (i : ℕ) (k : VerifyingKey E), vk[i]? = some k →
        (vk.map VerifyingKey.GRootSigmaNeg)[i]? = some k.GRootSigmaNeg) ∧
      (BatchVerify E vk commitments pok c = .ok () ↔
        (List.zipWith E.pairing (scaledProofs E pok c ++ [F])
          (vk.map VerifyingKey.GRootSigmaNeg ++ [k0.G])).prod = 1) ∧
      ((List.zipWith E.pairing (scaledProofs E pok c ++ [F])
          (vk.map VerifyingKey.GRootSigmaNeg ++ [k0.G])).prod ≠ 1 →
        BatchVerify E vk commitments pok c = .error (.error .proofRejected)) ∧
      (2 ≤ vk.length → F = weightedSum E commitments (powers E c vk.length) ∧
        ∀ i, i < vk.length → (powers E c vk.length)[i]? = some (c ^ i)) ∧
      (vk.length = 1 → commitments[0]? = some F) := by
  have hn : 1 ≤ vk.length := by
    by_contra hcon
    rw [List.getElem?_eq_none (by omega)] at hk0
    cases hk0
  have hF : ∃ F, FoldCommitments E commitments c = .ok F ∧
      (2 ≤ vk.length → F = weightedSum E commitments (powers E c vk.length)) ∧
      (vk.length = 1 → commitments[0]? = some F) := by
    by_cases h1 : commitments.length ≤ 1
    · exact ⟨_, FoldCommitments_of_le_one E commitments c h1, fun h2 => by omega,
        fun _ => getElem?_eq_some_getD commitments 0 0 (by omega)⟩
    · exact ⟨_, FoldCommitments_of_two_le E commitments c (by omega) hcom,
        fun _ => by rw [hc], fun h => by omega⟩
  obtain ⟨F, hF, hF2, hF1⟩ := hF
  have hlenAB : (scaledProofs E pok c).length = (vk.map VerifyingKey.GRootSigmaNeg).length := by
    rw [scaledProofs_length, List.length_map, hp]
  obtain ⟨hPC, hprod⟩ := PairingCheck_append E (scaledProofs E pok c)
    (vk.map VerifyingKey.GRootSigmaNeg) F k0.G hlenAB
  have hBV := BatchVerify_eq E vk commitments pok c hc hp
    ((BatchVerify.check_loop_iff vk commitments pok hc hp).2 ⟨hpok, hcom, hgen⟩) F hF k0 hk0
  refine ⟨F, hF, ?_, by simp [scaledProofs_length, hp], by simp, ?_, ?_, ?_, ?_, ?_, ?_,
    fun h2 => ⟨hF2 h2, fun i hi => powers_getElem? E c _ i hi⟩, hF1⟩
  · rw [hPC, hBV, hprod]
    by_cases h : (List.zipWith E.pairing (scaledProofs E pok c)
        (vk.map VerifyingKey.GRootSigmaNeg)).prod * E.pairing F k0.G = 1 <;> simp [h]
  · intro p hp0
    rw [scaledProofs_getElem? E pok c 0 p hp0, if_pos rfl]
  · intro i p hi hpi
    rw [scaledProofs_getElem? E pok c i p hpi, if_neg (by omega)]
  · intro hE i p hi hpi
    rw [scaledProofs_getElem? E pok c i p hpi, if_neg (by omega),
      hE.smul1 p _ (hpok p (List.getElem?_mem hpi))]
  · intro i k hk
    rw [List.getElem?_map, hk]
    rfl
  · rw [hBV, hprod]
    by_cases h : (List.zipWith E.pairing (scaledProofs E pok c)
        (vk.map VerifyingKey.GRootSigmaNeg)).prod * E.pairing F k0.G = 1 <;> simp [h]
  · intro hne
    rw [hprod] at hne
    rw [hBV, if_neg hne]

/-- Witness of C19 in the toy engine: two valid triples under the key of the toy
setup, challenge `3`. -/
theorem BatchVerify_pairing_equation_witness :
    ∃ F, FoldCommitments toy [toyPoint 3, toyPoint 1] 3 = .ok F ∧
      BatchVerify toy [toyKey 1 2, toyKey 1 2] [toyPoint 3, toyPoint 1]
          [toyPoint 2, toyPoint 3] 3 =
        (match PairingCheck toy (scaledProofs toy [toyPoint 2, toyPoint 3] 3 ++ [F])
            ([toyKey 1 2, toyKey 1 2].map VerifyingKey.GRootSigmaNeg ++ [(toyKey 1 2).G]) with
          | .error f => .error f
          | .ok isOne => if !isOne then .error (.error .proofRejected) else .ok ()) := by
  obtain ⟨F, h1, h2, _⟩ := BatchVerify_pairing_equation toy [toyKey 1 2, toyKey 1 2]
    [toyPoint 3, toyPoint 1] [toyPoint 2, toyPoint 3] 3 rfl rfl (by decide) (by decide)
    (by decide) (toyKey 1 2) rfl
  exact ⟨F, h1, h2⟩

/-! ## The codec of the keys -/

theorem toyReadPoint_write (raw : Bool) (P : ZMod 7 × ZMod 2) (rest : List ℕ) :
    toyReadPoint (toyWritePoint raw P ++ rest) = some (P, rest) := by
  have h1 : ((P.1.val : ℕ) : ZMod 7) = P.1 := ZMod.natCast_zmod_val P.1
  have h2 : ((P.2.val : ℕ) : ZMod 2) = P.2 := ZMod.natCast_zmod_val P.2
  have hlt : P.1.val ≠ 7 := (ZMod.val_lt P.1).ne
  cases raw with
  | true =>
    show toyReadPoint (7 :: P.1.val :: P.2.val :: rest) = _
    simp only [toyReadPoint, if_pos, h1, h2]
  | false =>
    show toyReadPoint (P.1.val :: P.2.val :: rest) = _
    simp only [toyReadPoint, if_neg hlt, h1, h2]

theorem toyReadPoints_write (raw : Bool) (xs : List (ZMod 7 × ZMod 2)) (rest : List ℕ)
    (h : ∀ P ∈ xs, P.2 = 0) :
    toyReadPoints true xs.length (toyWritePoints raw xs ++ rest) = (xs, rest, none) := by
  induction xs with
  | nil => rfl
  | cons P ps ih =>
    have hP : P.2 = 0 := h P (List.mem_cons_self P ps)
    show toyReadPoints true (ps.length + 1)
      ((toyWritePoint raw P ++ toyWritePoints raw ps) ++ rest) = _
    unfold toyReadPoints
    rw [List.append_assoc, toyReadPoint_write]
    dsimp only
    rw [if_neg (by simp [hP]), ih (fun Q hQ => h Q (List.mem_cons_of_mem P hQ))]

theorem toyMarshal_lawful : toyMarshal.Lawful where
  encode_ok1 := fun _ _ => rfl
  encode_ok2 := fun _ _ => rfl
  decode_encode1 := by
    intro raw xs old rest hsub
    exact toyReadPoints_write raw xs rest (fun P hP => by simpa [toy] using hsub P hP)
  decode_encode2 := by
    intro raw Q old rest hsub
    have hQ : Q.2 = 0 := by simpa [toy] using hsub
    show (match toyReadPoint (toyWritePoint raw Q ++ rest) with
      | none => (old, [], some (Fault.error Err.unexpectedEOF))
      | some (Q, rest) =>
        if true && decide (Q.2 ≠ 0) then (Q, rest, some (Fault.error Err.subgroupCheckFailed))
        else (Q, rest, none)) = _
    rw [toyReadPoint_write]
    dsimp only
    rw [if_neg (by simp [hQ])]

/-- With a lawful codec `writeTo` of a proving key succeeds and writes the encoding of
`Basis` followed by the encoding of `BasisExpSigma`. -/
theorem ProvingKey.writeTo_pk_ok {E : Curve} (M : Marshal E) (hM : M.Lawful)
    (pk : ProvingKey E) (w : List ℕ) (raw : Bool) :
    pk.writeTo M (NewEncoder w raw) =
      ({ w := w ++ ((M.EncodeG1 raw pk.Basis).1 ++ (M.EncodeG1 raw pk.BasisExpSigma).1)
         raw := raw
         n := ((M.EncodeG1 raw pk.Basis).1 ++ (M.EncodeG1 raw pk.BasisExpSigma).1).length },
       ((M.EncodeG1 raw pk.Basis).1 ++ (M.EncodeG1 raw pk.BasisExpSigma).1).length, none) := by
  have e1 := hM.encode_ok1 raw pk.Basis
  have e2 := hM.encode_ok1 raw pk.BasisExpSigma
  unfold ProvingKey.writeTo Encoder.EncodeG1 NewEncoder
  dsimp only
  rw [e1]
  dsimp only
  rw [e2]
  simp [List.append_assoc]

/-- Reading the two encodings back gives the key, whatever the target held. -/
theorem ProvingKey.ReadFrom_pk_ok {E : Curve} (M : Marshal E) (hM : M.Lawful)
    (pk pk0 : ProvingKey E) (raw : Bool)
    (hlen : pk.Basis.length = pk.BasisExpSigma.length)
    (hB : ∀ P ∈ pk.Basis, E.IsInSubGroup1 P = true)
    (hS : ∀ P ∈ pk.BasisExpSigma, E.IsInSubGroup1 P = true) :
    pk0.ReadFrom M ((M.EncodeG1 raw pk.Basis).1 ++ (M.EncodeG1 raw pk.BasisExpSigma).1) =
      (pk, ((M.EncodeG1 raw pk.Basis).1 ++ (M.EncodeG1 raw pk.BasisExpSigma).1).length,
        none) := by
  have d1 := hM.decode_encode1 raw pk.Basis pk0.Basis (M.EncodeG1 raw pk.BasisExpSigma).1 hB
  have d2 := hM.decode_encode1 raw pk.BasisExpSigma pk0.BasisExpSigma [] hS
  rw [List.append_nil] at d2
  unfold ProvingKey.ReadFrom Decoder.DecodeG1 NewDecoder
  dsimp only
  rw [d1]
  dsimp only
  rw [d2]
  dsimp only
  rw [if_neg (by simpa using hlen)]
  simp

/-- With a lawful codec `writeTo` of a verifying key succeeds and writes the encoding
of `G` followed by the encoding of `GRootSigmaNeg`. -/
theorem VerifyingKey.writeTo_vk_ok {E : Curve} (M : Marshal E) (hM : M.Lawful)
    (vk : VerifyingKey E) (w : List ℕ) (raw : Bool) :
    vk.writeTo M (NewEncoder w raw) =
      ({ w := w ++ ((M.EncodeG2 raw vk.G).1 ++ (M.EncodeG2 raw vk.GRootSigmaNeg).1)
         raw := raw
         n := ((M.EncodeG2 raw vk.G).1 ++ (M.EncodeG2 raw vk.GRootSigmaNeg).1).length },
       ((M.EncodeG2 raw vk.G).1 ++ (M.EncodeG2 raw vk.GRootSigmaNeg).1).length, none) := by
  have e1 := hM.encode_ok2 raw vk.G
  have e2 := hM.encode_ok2 raw vk.GRootSigmaNeg
  unfold VerifyingKey.writeTo Encoder.EncodeG2 NewEncoder
  dsimp only
  rw [e1]
  dsimp only
  rw [e2]
  simp [List.append_assoc]

/-- Reading the two encodings back gives the verifying key, whatever the target
held. -/
theorem VerifyingKey.ReadFrom_vk_ok {E : Curve} (M : Marshal E) (hM : M.Lawful)
    (vk vk0 : VerifyingKey E) (raw : Bool)
    (hG : E.IsInSubGroup2 vk.G = true) (hR : E.IsInSubGroup2 vk.GRootSigmaNeg = true) :
    vk0.ReadFrom M ((M.EncodeG2 raw vk.G).1 ++ (M.EncodeG2 raw vk.GRootSigmaNeg).1) =
      (vk, ((M.EncodeG2 raw vk.G).1 ++ (M.EncodeG2 raw vk.GRootSigmaNeg).1).length, none) := by
  have d1 := hM.decode_encode2 raw vk.G vk0.G (M.EncodeG2 raw vk.GRootSigmaNeg).1 hG
  have d2 := hM.decode_encode2 raw vk.GRootSigmaNeg vk0.GRootSigmaNeg [] hR
  rw [List.append_nil] at d2
  unfold VerifyingKey.ReadFrom VerifyingKey.readFrom Decoder.DecodeG2 NewDecoder
  dsimp only
  rw [d1]
  dsimp only
  rw [d2]
  simp

/-- C18: codec round trip.  With a lawful codec, for a proving key with `len(Basis) ==
len(BasisExpSigma)` and a verifying key, with points valid for the decoder: `WriteTo`
and `WriteRawTo` on an empty stream succeed, the bytes they write are the encoding of
`Basis` followed by that of `BasisExpSigma` (of `G` followed by that of
`GRootSigmaNeg`), their count is the number of bytes written, and `ReadFrom` on these
bytes succeeds, reads all of them, and yields the very key, whatever the receiving key
held before. -/
theorem codec_round_trip (E : Curve) (M : Marshal E) (hM : M.Lawful) :
    (∀ (pk pk0 : ProvingKey E),
      pk.Basis.length = pk.BasisExpSigma.length →
      (∀ P ∈ pk.Basis, E.IsInSubGroup1 P = true) →
      (∀ P ∈ pk.BasisExpSigma, E.IsInSubGroup1 P = true) →
      (∃ bytes : List ℕ,
        pk.WriteTo M [] = ({ w := bytes, raw := false, n := bytes.length }, bytes.length, none) ∧
        bytes = (M.EncodeG1 false pk.Basis).1 ++ (M.EncodeG1 false pk.BasisExpSigma).1 ∧
        pk0.ReadFrom M bytes = (pk, bytes.length, none)) ∧
      (∃ bytes : List ℕ,
        pk.WriteRawTo M [] = ({ w := bytes, raw := true, n := bytes.length }, bytes.length, none) ∧
        bytes = (M.EncodeG1 true pk.Basis).1 ++ (M.EncodeG1 true pk.BasisExpSigma).1 ∧
        pk0.ReadFrom M bytes = (pk, bytes.length, none))) ∧
    (∀ (vk vk0 : VerifyingKey E),
      E.IsInSubGroup2 vk.G = true → E.IsInSubGroup2 vk.GRootSigmaNeg = true →
      (∃ bytes : List ℕ,
        vk.WriteTo M [] = ({ w := bytes, raw := false, n := bytes.length }, bytes.length, none) ∧
        bytes = (M.EncodeG2 false vk.G).1 ++ (M.EncodeG2 false vk.GRootSigmaNeg).1 ∧
        vk0.ReadFrom M bytes = (vk, bytes.length, none)) ∧
      (∃ bytes : List ℕ,
        vk.WriteRawTo M [] = ({ w := bytes, raw := true, n := bytes.length }, bytes.length, none) ∧
        bytes = (M.EncodeG2 true vk.G).1 ++ (M.EncodeG2 true vk.GRootSigmaNeg).1 ∧
        vk0.ReadFrom M bytes = (vk, bytes.length, none))) := by
  constructor
  · intro pk pk0 hlen hB hS
    have key : ∀ raw : Bool, ∃ bytes : List ℕ,
        pk.writeTo M (NewEncoder [] raw) =
          ({ w := bytes, raw := raw, n := bytes.length }, bytes.length, none) ∧
        bytes = (M.EncodeG1 raw pk.Basis).1 ++ (M.EncodeG1 raw pk.BasisExpSigma).1 ∧
        pk0.ReadFrom M bytes = (pk, bytes.length, none) := by
      intro raw
      refine ⟨_, ?_, rfl, ProvingKey.ReadFrom_pk_ok M hM pk pk0 raw hlen hB hS⟩
      rw [ProvingKey.writeTo_pk_ok M hM pk [] raw, List.nil_append]
    exact ⟨key false, key true⟩
  · intro vk vk0 hG hR
    have key : ∀ raw : Bool, ∃ bytes : List ℕ,
        vk.writeTo M (NewEncoder [] raw) =
          ({ w := bytes, raw := raw, n := bytes.length }, bytes.length, none) ∧
        bytes = (M.EncodeG2 raw vk.G).1 ++ (M.EncodeG2 raw vk.GRootSigmaNeg).1 ∧
        vk0.ReadFrom M bytes = (vk, bytes.length, none) := by
      intro raw
      refine ⟨_, ?_, rfl, VerifyingKey.ReadFrom_vk_ok M hM vk vk0 raw hG hR⟩
      rw [VerifyingKey.writeTo_vk_ok M hM vk [] raw, List.nil_append]
    exact ⟨key false, key true⟩

/-- Witness of C18 in the toy engine and its codec: the proving key of the toy setup
is read back from the ten bytes that `WriteTo` writes and from the fourteen bytes that
`WriteRawTo` writes, into a key that held other points; the verifying key, from four
and from six bytes. -/
theorem codec_round_trip_witness :
    (toyProvingKey.WriteTo toyMarshal []).1.w = [2, 1, 0, 2, 0, 2, 3, 0, 6, 0] ∧
    toyProvingKey2.ReadFrom toyMarshal [2, 1, 0, 2, 0, 2, 3, 0, 6, 0] =
      (toyProvingKey, 10, none) ∧
    (toyProvingKey.WriteRawTo toyMarshal []).1.w =
      [2, 7, 1, 0, 7, 2, 0, 2, 7, 3, 0, 7, 6, 0] ∧
    toyProvingKey2.ReadFrom toyMarshal [2, 7, 1, 0, 7, 2, 0, 2, 7, 3, 0, 7, 6, 0] =
      (toyProvingKey, 14, none) ∧
    ((toyKey 1 2).WriteTo toyMarshal []).1.w = [1, 0, 2, 0] ∧
    (toyKey 3 4).ReadFrom toyMarshal [1, 0, 2, 0] = (toyKey 1 2, 4, none) ∧
    ((toyKey 1 2).WriteRawTo toyMarshal []).1.w = [7, 1, 0, 7, 2, 0] ∧
    (toyKey 3 4).ReadFrom toyMarshal [7, 1, 0, 7, 2, 0] = (toyKey 1 2, 6, none) := by
  obtain ⟨⟨b1, hw1, hb1, hr1⟩, ⟨b2, hw2, hb2, hr2⟩⟩ :=
    (codec_round_trip toy toyMarshal toyMarshal_lawful).1 toyProvingKey toyProvingKey2 rfl
      (by decide) (by decide)
  obtain ⟨⟨b3, hw3, hb3, hr3⟩, ⟨b4, hw4, hb4, hr4⟩⟩ :=
    (codec_round_trip toy toyMarshal toyMarshal_lawful).2 (toyKey 1 2) (toyKey 3 4)
      (by decide) (by decide)
  have e1 : b1 = [2, 1, 0, 2, 0, 2, 3, 0, 6, 0] := by rw [hb1]; decide
  have e2 : b2 = [2, 7, 1, 0, 7, 2, 0, 2, 7, 3, 0, 7, 6, 0] := by rw [hb2]; decide
  have e3 : b3 = [1, 0, 2, 0] := by rw [hb3]; decide
  have e4 : b4 = [7, 1, 0, 7, 2, 0] := by rw [hb4]; decide
  subst e1 e2 e3 e4
  exact ⟨by rw [hw1], hr1, by rw [hw2], hr2, by rw [hw3], hr3, by rw [hw4], hr4⟩

end Pedersen
